import Mathlib

/-!
# Day 09 - order book, constant-product pool and quote aggregator

A shallow embedding of the four lecture programs

* `1_dex_vs_cex_and_orderbook.js` (class `Orderbook`),
* `2_amm_cpmm_formula.js` (class `LiquidityPool`),
* `3_dex_jargon_demo.js` (function `getManualQuote`),
* `4_dex_vs_aggregator.js` (class `SimpleDEX`, the selection of the best venue
  and `aggregatorQuote`),

together with the properties proved about them.

Numbers.  The JavaScript sources compute with IEEE 754 binary64 numbers.  The
programs are therefore embedded twice, statement for statement the same, with
two readings of a number and of the operators on it.

* Exact arithmetic (`Dex.Order`, `Dex.LiquidityPool`, `Dex.SimpleDEX`, ...): a
  number is a rational `ℚ` and every operator is the exact one.  Rounding,
  `NaN` and the infinities are outside this reading.  It serves the properties
  of comparisons, of sorting and of the structure of the state, and the
  properties that are stated of exact arithmetic.  The only divisions whose
  divisor may vanish are the price quotients (`reserveB / reserveA` and the
  division by `priceBefore`); there this reading follows the convention
  `x / 0 = 0` of `ℚ` where JavaScript yields `Infinity` or `NaN`; the reserves
  a swap writes back do not depend on these quotients.
* Binary64 (namespace `Dex.Ieee`): a number is a value of `Dex.Ieee.F64`, that
  is `NaN`, an infinity, a signed zero or a finite value, and every operator
  is the correctly rounded one of IEEE 754 (round to nearest, ties to even,
  gradual underflow, overflow to an infinity).  This is the arithmetic the
  programs run on; the values a property of exact arithmetic does not survive
  are computed here.

Effects.  `console.log` output is not modelled.  A method that mutates `this`
becomes a function returning the new object; a method that may throw returns
its outcome in `Except String` next to the state it leaves behind.  Where a
property is about what a method reads and writes, the method is also given as
a command of a state monad whose state is the object.
-/

namespace Dex

/-! ## Order book: data -/

/-- A resting order, the object literal `{ price, quantity, trader }` pushed by
`addBid` / `addAsk`. -/
structure Order where
  price : ℚ
  quantity : ℚ
  trader : String
  deriving DecidableEq, Repr

/-- An executed trade, the object literal pushed onto `this.trades` by
`matchOrders`.  The source also stores `timestamp: new Date().toISOString()`,
a reading of the wall clock, which is left out of the record. -/
structure Trade where
  price : ℚ
  quantity : ℚ
  buyer : String
  seller : String
  deriving DecidableEq, Repr

/-- The fields of `class Orderbook`; index 0 of `bids` / `asks` is the head of
the list. -/
structure Orderbook where
  pair : String
  bids : List Order
  asks : List Order
  trades : List Trade
  deriving DecidableEq, Repr

/-! ## `Array.prototype.sort` -/

/-- Insert `x`, the latest arrival, into an already ordered list: `x` goes in
front of the first element `y` with `cmp x y < 0` and therefore behind every
element that compares equal to it. -/
def insertLast {α : Type} (cmp : α → α → ℚ) (x : α) : List α → List α
  | [] => [x]
  | y :: ys => if cmp x y < 0 then x :: y :: ys else y :: insertLast cmp x ys

/-- The call `xs.sort(cmp)`.  ECMAScript requires the sort to be stable and to
order `a` before `b` when `cmp(a, b) < 0`; for a comparator that is a
consistent total preorder (as the two price comparators below are) this fixes
the result uniquely, and the stable insertion sort computes it. -/
def jsSort {α : Type} (cmp : α → α → ℚ) (xs : List α) : List α :=
  xs.foldl (fun acc x => insertLast cmp x acc) []

/-- Comparator `(a, b) => b.price - a.price` of `addBid` (high to low). -/
def cmpBid (a b : Order) : ℚ := b.price - a.price

/-- Comparator `(a, b) => a.price - b.price` of `addAsk` (low to high). -/
def cmpAsk (a b : Order) : ℚ := a.price - b.price

/-! ## Order book: operations -/

/-- The constructor `new Orderbook(pair)`. -/
def Orderbook.new (pair : String) : Orderbook :=
  { pair := pair, bids := [], asks := [], trades := [] }

/-- The guard of the `while` loop in `matchOrders`:
`bids.length > 0 && asks.length > 0 && bids[0].price >= asks[0].price`. -/
def Orderbook.crossed (b : Orderbook) : Bool :=
  match b.bids, b.asks with
  | bid :: _, ask :: _ => decide (ask.price ≤ bid.price)
  | _, _ => false

/-- One execution of the body of the `while` loop in `matchOrders` (the guard
guarantees both heads exist; on a book with an empty side the body is not
run and the book is returned as is). -/
def Orderbook.matchStep (b : Orderbook) : Orderbook :=
  match b.bids, b.asks with
  | bid :: bs, ask :: as =>
    let tradePrice := ask.price
    let tradeQty := min bid.quantity ask.quantity
    let trades := b.trades ++
      [{ price := tradePrice, quantity := tradeQty, buyer := bid.trader, seller := ask.trader }]
    let bid1 : Order := { bid with quantity := bid.quantity - tradeQty }
    let ask1 : Order := { ask with quantity := ask.quantity - tradeQty }
    let bids1 := if bid1.quantity = 0 then bs else bid1 :: bs
    let asks1 := if ask1.quantity = 0 then as else ask1 :: as
    { b with bids := bids1, asks := asks1, trades := trades }
  | _, _ => b

/-- The `while` loop of `matchOrders`, run for at most `fuel` iterations. -/
def Orderbook.matchLoop : Nat → Orderbook → Orderbook
  | 0, b => b
  | fuel + 1, b => if b.crossed then Orderbook.matchLoop fuel b.matchStep else b

/-- The method `matchOrders()`.  The loop is given one unit of fuel per resting
order; `matchLoop_fuel` shows that this is always enough for the loop to run
to its exit, and `matchLoop_more_fuel` that more fuel changes nothing. -/
def Orderbook.matchOrders (b : Orderbook) : Orderbook :=
  Orderbook.matchLoop (b.bids.length + b.asks.length) b

/-- The first two statements of `addBid`: `this.bids.push({ price, quantity,
trader })` followed by `this.bids.sort((a, b) => b.price - a.price)`. -/
def Orderbook.pushBid (b : Orderbook) (price quantity : ℚ) (trader : String) : Orderbook :=
  let pushed := b.bids ++ [{ price := price, quantity := quantity, trader := trader }]
  { b with bids := jsSort cmpBid pushed }

/-- The first two statements of `addAsk`: `this.asks.push({ price, quantity,
trader })` followed by `this.asks.sort((a, b) => a.price - b.price)`. -/
def Orderbook.pushAsk (b : Orderbook) (price quantity : ℚ) (trader : String) : Orderbook :=
  let pushed := b.asks ++ [{ price := price, quantity := quantity, trader := trader }]
  { b with asks := jsSort cmpAsk pushed }

/-- The method `addBid(price, quantity, trader)`: push, sort, `matchOrders()`
(`trader` defaults to `"anonymous"` in the source). -/
def Orderbook.addBid (b : Orderbook) (price quantity : ℚ) (trader : String) : Orderbook :=
  (b.pushBid price quantity trader).matchOrders

/-- The method `addAsk(price, quantity, trader)`: push, sort, `matchOrders()`
(`trader` defaults to `"anonymous"` in the source). -/
def Orderbook.addAsk (b : Orderbook) (price quantity : ℚ) (trader : String) : Orderbook :=
  (b.pushAsk price quantity trader).matchOrders

/-- A call of one of the two submitting methods. -/
inductive Call where
  | bid (price quantity : ℚ) (trader : String)
  | ask (price quantity : ℚ) (trader : String)
  deriving DecidableEq, Repr

/-- Perform one call on a book. -/
def Orderbook.apply (b : Orderbook) : Call → Orderbook
  | .bid p q t => b.addBid p q t
  | .ask p q t => b.addAsk p q t

/-- The book reached from `new Orderbook(pair)` by a sequence of calls. -/
def Orderbook.run (pair : String) (calls : List Call) : Orderbook :=
  calls.foldl Orderbook.apply (Orderbook.new pair)

/-! ## Order book: vocabulary of the properties -/

/-- The book is not crossed: one side is empty or `bids[0].price < asks[0].price`. -/
def Orderbook.Uncrossed (b : Orderbook) : Prop :=
  b.bids = [] ∨ b.asks = [] ∨
    ∃ bid ask, b.bids.head? = some bid ∧ b.asks.head? = some ask ∧ bid.price < ask.price

/-- A side ordered by price from high to low. -/
def SortedDesc (l : List Order) : Prop := l.Pairwise (fun a b => b.price ≤ a.price)

/-- A side ordered by price from low to high. -/
def SortedAsc (l : List Order) : Prop := l.Pairwise (fun a b => a.price ≤ b.price)

/-- Every order resting on either side has a positive quantity. -/
def Orderbook.AllPositive (b : Orderbook) : Prop :=
  (∀ o ∈ b.bids, 0 < o.quantity) ∧ (∀ o ∈ b.asks, 0 < o.quantity)

/-- The trades `ts` are the ones the matching loop records when started on the
book `s`: the first is struck between the two heads of `s` (price of the head
ask, quantity the minimum of the two head quantities, buyer the head bid's
trader, seller the head ask's trader), the next between the heads of the book
left by that iteration, and so on. -/
def TradesAtHeads : Orderbook → List Trade → Prop
  | _, [] => True
  | s, t :: ts =>
    (∃ bid ask, s.bids.head? = some bid ∧ s.asks.head? = some ask ∧
      ask.price ≤ bid.price ∧
      t.price = ask.price ∧ t.quantity = min bid.quantity ask.quantity ∧
      t.buyer = bid.trader ∧ t.seller = ask.trader) ∧
    TradesAtHeads s.matchStep ts

/-- Price-time insertion as the specification words it: the new order `o` is
placed immediately after the last resting order that satisfies `keep` (at the
front when no resting order does). -/
def placeAfterLast (keep : Order → Bool) (o : Order) : List Order → List Order
  | [] => [o]
  | x :: xs =>
    if xs.any keep then x :: placeAfterLast keep o xs
    else if keep x then x :: o :: xs
    else o :: x :: xs

/-- Total quantity resting on a side. -/
def restingQty (l : List Order) : ℚ := (l.map Order.quantity).sum

/-- Total quantity of a list of trades. -/
def tradedQty (l : List Trade) : ℚ := (l.map Trade.quantity).sum

/-! ## Liquidity pool (`2_amm_cpmm_formula.js`) -/

/-- The fields of `class LiquidityPool`. -/
structure LiquidityPool where
  tokenA : String
  tokenB : String
  reserveA : ℚ
  reserveB : ℚ
  k : ℚ
  feePercent : ℚ
  deriving DecidableEq, Repr

/-- The object returned by `getAmountBForA`. -/
structure Quote where
  amountBIn : ℚ
  amountBWithFee : ℚ
  newReserveA : ℚ
  newReserveB : ℚ
  deriving DecidableEq, Repr

/-- The object returned by `swapBforA`. -/
structure SwapResult where
  amountBPaid : ℚ
  priceAfter : ℚ
  priceImpact : ℚ
  deriving DecidableEq, Repr

/-- The constructor `new LiquidityPool(tokenA, tokenB, reserveA, reserveB)`. -/
def LiquidityPool.new (tokenA tokenB : String) (reserveA reserveB : ℚ) : LiquidityPool :=
  { tokenA := tokenA, tokenB := tokenB, reserveA := reserveA, reserveB := reserveB,
    k := reserveA * reserveB, feePercent := 0.003 }

/-- The method `getPriceAinB()`. -/
def LiquidityPool.getPriceAinB (p : LiquidityPool) : ℚ := p.reserveB / p.reserveA

/-- The method `getPriceBinA()`. -/
def LiquidityPool.getPriceBinA (p : LiquidityPool) : ℚ := p.reserveA / p.reserveB

/-- The method `getAmountBForA(amountAOut)`; the `throw new Error(...)` is the
`error` outcome. -/
def LiquidityPool.getAmountBForA (p : LiquidityPool) (amountAOut : ℚ) : Except String Quote :=
  if p.reserveA ≤ amountAOut then .error "Not enough liquidity!"
  else
    let newReserveA := p.reserveA - amountAOut
    let newReserveB := p.k / newReserveA
    let amountBIn := newReserveB - p.reserveB
    let amountBWithFee := amountBIn * (1 + p.feePercent)
    .ok { amountBIn := amountBIn, amountBWithFee := amountBWithFee,
          newReserveA := newReserveA, newReserveB := newReserveB }

/-- The method `swapBforA(amountAOut, trader)`: its outcome together with the
pool it leaves behind.  An exception thrown by `getAmountBForA` propagates out
of the method at its first statement.  The parameter `trader` and the local
`slippage` only feed `console.log` and are left out. -/
def LiquidityPool.swapBforA (p : LiquidityPool) (amountAOut : ℚ) :
    Except String SwapResult × LiquidityPool :=
  match p.getAmountBForA amountAOut with
  | .error e => (.error e, p)
  | .ok q =>
    let priceBefore := p.getPriceAinB
    let p1 : LiquidityPool := { p with reserveA := q.newReserveA, reserveB := q.newReserveB }
    let priceAfter := p1.getPriceAinB
    let priceImpact := ((priceAfter - priceBefore) / priceBefore) * 100
    (.ok { amountBPaid := q.amountBWithFee, priceAfter := priceAfter,
           priceImpact := priceImpact }, p1)

/-- The pool states reachable from the constructor by successful swaps. -/
inductive LiquidityPool.Reachable : LiquidityPool → Prop
  | init (tokenA tokenB : String) (reserveA reserveB : ℚ) :
      LiquidityPool.Reachable (LiquidityPool.new tokenA tokenB reserveA reserveB)
  | swap (p : LiquidityPool) (amountAOut : ℚ) (r : SwapResult) :
      LiquidityPool.Reachable p → (p.swapBforA amountAOut).1 = .ok r →
      LiquidityPool.Reachable (p.swapBforA amountAOut).2

/-! ## Single venue of the aggregator (`4_dex_vs_aggregator.js`) -/

/-- The fields of `class SimpleDEX`. -/
structure SimpleDEX where
  name : String
  tokenA : String
  tokenB : String
  reserveA : ℚ
  reserveB : ℚ
  k : ℚ
  fee : ℚ
  deriving DecidableEq, Repr

/-- The object returned by `quoteForA`.  In the source the field `priceImpact`
holds the text `priceImpact.toFixed(4) + "%"`; the record keeps the number
that is formatted. -/
structure DexQuote where
  dex : String
  amountAOut : ℚ
  amountBIn : ℚ
  effectivePrice : ℚ
  priceImpact : ℚ
  liquidity : ℚ
  deriving DecidableEq, Repr

/-- The constructor `new SimpleDEX(name, tokenA, tokenB, reserveA, reserveB)`. -/
def SimpleDEX.new (name tokenA tokenB : String) (reserveA reserveB : ℚ) : SimpleDEX :=
  { name := name, tokenA := tokenA, tokenB := tokenB, reserveA := reserveA,
    reserveB := reserveB, k := reserveA * reserveB, fee := 0.003 }

/-- The method `quoteForA(amountA)`; `return null` is `none`. -/
def SimpleDEX.quoteForA (d : SimpleDEX) (amountA : ℚ) : Option DexQuote :=
  if d.reserveA ≤ amountA then none
  else
    let newReserveA := d.reserveA - amountA
    let newReserveB := d.k / newReserveA
    let amountBIn := (newReserveB - d.reserveB) * (1 + d.fee)
    let priceImpact :=
      ((newReserveB / newReserveA - d.reserveB / d.reserveA) / (d.reserveB / d.reserveA)) * 100
    some { dex := d.name, amountAOut := amountA, amountBIn := amountBIn,
           effectivePrice := amountBIn / amountA, priceImpact := priceImpact,
           liquidity := d.reserveA }

/-! ## Methods as commands on the object

For the properties about what a call does to the object it is called on, the
methods of `LiquidityPool` and `SimpleDEX` are given a second time, as
commands of a state monad whose state is `this`: an occurrence of
`this.field` in the source is a `get`, an assignment `this.field = e` is a
`modify`, a `throw` is the `throw` of `ExceptT`.  The state a command leaves
behind is computed from its body and is not part of its definition. -/

/-- The method `getPriceAinB()` as a command on the pool. -/
def LiquidityPool.getPriceAinBM : ExceptT String (StateM LiquidityPool) ℚ := do
  return (← get).reserveB / (← get).reserveA

/-- The method `getAmountBForA(amountAOut)` as a command on the pool. -/
def LiquidityPool.getAmountBForAM (amountAOut : ℚ) :
    ExceptT String (StateM LiquidityPool) Quote := do
  if (← get).reserveA ≤ amountAOut then throw "Not enough liquidity!"
  let newReserveA := (← get).reserveA - amountAOut
  let newReserveB := (← get).k / newReserveA
  let amountBIn := newReserveB - (← get).reserveB
  let amountBWithFee := amountBIn * (1 + (← get).feePercent)
  return { amountBIn := amountBIn, amountBWithFee := amountBWithFee,
           newReserveA := newReserveA, newReserveB := newReserveB }

/-- The method `swapBforA(amountAOut, trader)` as a command on the pool: the
call of `getAmountBForA`, the call of `getPriceAinB`, the two assignments
`this.reserveA = newReserveA` and `this.reserveB = newReserveB`, the second
call of `getPriceAinB`, and the returned object. -/
def LiquidityPool.swapBforAM (amountAOut : ℚ) :
    ExceptT String (StateM LiquidityPool) SwapResult := do
  let q ← LiquidityPool.getAmountBForAM amountAOut
  let priceBefore ← LiquidityPool.getPriceAinBM
  modify fun this => { this with reserveA := q.newReserveA }
  modify fun this => { this with reserveB := q.newReserveB }
  let priceAfter ← LiquidityPool.getPriceAinBM
  let priceImpact := ((priceAfter - priceBefore) / priceBefore) * 100
  return { amountBPaid := q.amountBWithFee, priceAfter := priceAfter,
           priceImpact := priceImpact }

/-- The method `quoteForA(amountA)` as a command on the venue. -/
def SimpleDEX.quoteForAM (amountA : ℚ) : StateM SimpleDEX (Option DexQuote) := do
  if (← get).reserveA ≤ amountA then return none
  let newReserveA := (← get).reserveA - amountA
  let newReserveB := (← get).k / newReserveA
  let amountBIn := (newReserveB - (← get).reserveB) * (1 + (← get).fee)
  let priceImpact :=
    ((newReserveB / newReserveA - (← get).reserveB / (← get).reserveA) /
      ((← get).reserveB / (← get).reserveA)) * 100
  return some { dex := (← get).name, amountAOut := amountA, amountBIn := amountBIn,
                effectivePrice := amountBIn / amountA, priceImpact := priceImpact,
                liquidity := (← get).reserveA }

/-! ## Order book: spread -/

/-- The object returned by `getSpread`.  In the source the field
`spreadPercent` holds the text `(...).toFixed(4) + "%"`; the record keeps the
number that is formatted. -/
structure Spread where
  highestBid : ℚ
  lowestAsk : ℚ
  spread : ℚ
  spreadPercent : ℚ
  deriving DecidableEq, Repr

/-- The method `getSpread()`; `return null` is `none`. -/
def Orderbook.getSpread (b : Orderbook) : Option Spread :=
  match b.bids, b.asks with
  | bid :: _, ask :: _ =>
    some { highestBid := bid.price, lowestAsk := ask.price,
           spread := ask.price - bid.price,
           spreadPercent := (ask.price - bid.price) / ask.price * 100 }
  | _, _ => none

/-- The call `orderbook.getSpread()` as a step on the book.  The body of the
method reads `this.bids` and `this.asks` and contains no assignment. -/
def Orderbook.callGetSpread (b : Orderbook) : Option Spread × Orderbook :=
  (b.getSpread, b)

/-- The quantity of a submitted order. -/
def Call.quantity : Call → ℚ
  | .bid _ q _ => q
  | .ask _ q _ => q

/-! ## Aggregator script (`4_dex_vs_aggregator.js`)

The script works on the constants `dexes` and `wantToBuy`; they are the
parameters of the definitions below. -/

/-- An exception raised while the script runs: `throw new Error(message)` of
the program, or the `TypeError` the engine raises when a property of
`undefined` is read. -/
inductive Thrown where
  | error (message : String)
  | typeError
  deriving DecidableEq, Repr

/-- Comparator `(a, b) => a.amountBIn - b.amountBIn` (cheapest first). -/
def cmpQuote (a b : DexQuote) : ℚ := a.amountBIn - b.amountBIn

/-- The constant `quotes`:
`dexes.map(dex => dex.quoteForA(wantToBuy)).filter(q => q !== null).sort(...)`. -/
def quotes (dexes : List SimpleDEX) (wantToBuy : ℚ) : List DexQuote :=
  jsSort cmpQuote ((dexes.map (fun dex => dex.quoteForA wantToBuy)).reduceOption)

/-- The constant `bestSingle = quotes[0]`; `undefined` is `none`. -/
def bestSingle (dexes : List SimpleDEX) (wantToBuy : ℚ) : Option DexQuote :=
  (quotes dexes wantToBuy).head?

/-- The selection of the best single venue as the script performs it: `quotes`
is computed, `bestSingle = quotes[0]` is taken and the next statement reads
`bestSingle.dex` and `bestSingle.amountBIn` for its report, which raises a
`TypeError` when `bestSingle` is `undefined`. -/
def bestSingleVenue (dexes : List SimpleDEX) (wantToBuy : ℚ) : Except Thrown DexQuote :=
  match bestSingle dexes wantToBuy with
  | some q => .ok q
  | none => .error .typeError

/-- The constant `dexes` of the script: `[raydium, orca, meteora]`. -/
def scriptDexes : List SimpleDEX :=
  [SimpleDEX.new "Raydium" "SOL" "USDC" 500 75000,
   SimpleDEX.new "ORCA" "SOL" "USDC" 200 29000,
   SimpleDEX.new "Meteora" "SOL" "USDC" 2000 300000]

/-- An element of the constant `splits` of `aggregatorQuote`. -/
structure Split where
  dex : String
  share : ℚ
  amount : ℚ
  deriving DecidableEq, Repr

/-- The constant `totalLiquidity` of `aggregatorQuote`:
`dexes.reduce((sum, d) => sum + d.reserveA, 0)`. -/
def totalLiquidity (dexes : List SimpleDEX) : ℚ :=
  dexes.foldl (fun sum d => sum + d.reserveA) 0

/-- The constant `splits` of `aggregatorQuote`. -/
def aggregatorSplits (dexes : List SimpleDEX) (totalAmountA : ℚ) : List Split :=
  dexes.map (fun dex =>
    { dex := dex.name,
      share := dex.reserveA / totalLiquidity dexes,
      amount := (dex.reserveA / totalLiquidity dexes) * totalAmountA })

/-- The body of the `splits.forEach` loop of `aggregatorQuote`, as a step on
the running `totalBIn`.  `dexes.find(...)` returns the first venue carrying the
name of the split; were there none, the call of `quoteForA` on `undefined`
would raise a `TypeError`. -/
def aggregatorStep (dexes : List SimpleDEX) (totalBIn : ℚ) (split : Split) : Except Thrown ℚ :=
  match dexes.find? (fun d => d.name == split.dex) with
  | none => .error .typeError
  | some d =>
    match d.quoteForA split.amount with
    | some q => .ok (totalBIn + q.amountBIn)
    | none => .ok totalBIn

/-- The function `aggregatorQuote(dexes, totalAmountA)`.  It returns nothing
and reports `totalBIn` on the console; the value of the embedding is that
`totalBIn`.  The last report line also reads the global `bestSingle`, which
the script has already dereferenced before its only call of the function. -/
def aggregatorQuote (dexes : List SimpleDEX) (totalAmountA : ℚ) : Except Thrown ℚ :=
  (aggregatorSplits dexes totalAmountA).foldlM (aggregatorStep dexes) 0

/-- The cost of a split as the specification words it: the sum over the venues
of what each venue itself quotes, fee included, for the amount allocated to it
(a venue that cannot quote its allocation contributes nothing). -/
def ownQuoteTotal (dexes : List SimpleDEX) (totalAmountA : ℚ) : ℚ :=
  (dexes.map (fun dex =>
    match dex.quoteForA ((dex.reserveA / totalLiquidity dexes) * totalAmountA) with
    | some q => q.amountBIn
    | none => 0)).sum

/-! ## Iterations of the matching loop -/

/-- The number of times the body of the `while` loop of `matchOrders` is run
when the loop is given `fuel` iterations at most. -/
def Orderbook.matchIterations : Nat → Orderbook → Nat
  | 0, _ => 0
  | fuel + 1, b => if b.crossed then Orderbook.matchIterations fuel b.matchStep + 1 else 0

/-! ## Manual quote (`3_dex_jargon_demo.js`) -/

/-- The numbers `getManualQuote` computes and reports: its locals `k`,
`newReserveA`, `newReserveB`, `amountBIn`, `feeAmount` and `priceImpact`.  The
amount reported as paid is `amountBIn + feeAmount`. -/
structure ManualQuote where
  k : ℚ
  newReserveA : ℚ
  newReserveB : ℚ
  amountBIn : ℚ
  feeAmount : ℚ
  priceImpact : ℚ
  deriving DecidableEq, Repr

/-- The function `getManualQuote(reserveA, reserveB, tokenA, tokenB,
amountAOut)`.  It returns nothing and reports on the console; the value of the
embedding is the record of what it reports, `none` when it leaves through
`if (newReserveA <= 0) return console.log("Error: not enough liquidity")`.
The token names only feed the report and are left out. -/
def getManualQuote (reserveA reserveB amountAOut : ℚ) : Option ManualQuote :=
  let k := reserveA * reserveB
  let newReserveA := reserveA - amountAOut
  if newReserveA ≤ 0 then none
  else
    let newReserveB := k / newReserveA
    let amountBIn := newReserveB - reserveB
    let feeAmount := amountBIn * 0.003
    let priceImpact :=
      ((newReserveB / newReserveA - reserveB / reserveA) / (reserveB / reserveA)) * 100
    some { k := k, newReserveA := newReserveA, newReserveB := newReserveB,
           amountBIn := amountBIn, feeAmount := feeAmount, priceImpact := priceImpact }

/-- A venue as the constructor of `SimpleDEX` builds it; the class has no
method that assigns to a field, so every venue of the script is of this kind. -/
def SimpleDEX.Built (d : SimpleDEX) : Prop :=
  d.k = d.reserveA * d.reserveB ∧ d.fee = 0.003

/-! ## Binary64 numbers

The JavaScript type Number: the values of IEEE 754 binary64 and the operators
the four programs use on them (`+`, `-`, `*`, `/`, `<`, `<=`, `>=`, `===`,
`Math.min`, the sign a sort comparator is read by, and numeric literals).
A finite non-zero value is kept as the rational it denotes; every operator
rounds its exact result to the nearest representable value, ties to even. -/

namespace Ieee

/-- A JavaScript number, that is an IEEE 754 binary64 value: `NaN`, an
infinity, a zero (both carry their sign) or a finite non-zero value, given by
the rational it denotes. -/
inductive F64 where
  | nan
  | inf (negative : Bool)
  | zero (negative : Bool)
  | fin (value : ℚ)
  deriving DecidableEq, Repr

/-- The integer nearest to `n / d`, the even one of the two when `n / d` lies
half way between them. -/
def roundHalfEven (n d : Nat) : Nat :=
  let q := n / d
  let r := n % d
  if 2 * r < d then q
  else if d < 2 * r then q + 1
  else if q % 2 = 0 then q else q + 1

/-- The number of binary digits of `n`, counted with at most `fuel` halvings
(`fuel = n` is always enough). -/
def bitLength : Nat → Nat → Nat
  | 0, _ => 0
  | fuel + 1, n => if n = 0 then 0 else bitLength fuel (n / 2) + 1

/-- The exponent `e` with `2 ^ e ≤ n / d < 2 ^ (e + 1)`, for positive `n`
and `d`: it is the difference of the two bit lengths or one less. -/
def floorLog2 (n d : Nat) : Int :=
  let e0 : Int := (bitLength n n : Int) - (bitLength d d : Int)
  if 0 ≤ e0 then (if d * 2 ^ e0.toNat ≤ n then e0 else e0 - 1)
  else (if d ≤ n * 2 ^ (-e0).toNat then e0 else e0 - 1)

/-- The binary64 value nearest to the rational of magnitude `n / d` (`n` and
`d` positive) and of the given sign, ties to even: 53 significant bits for a
normal value, multiples of `2 ^ (-1074)` below `2 ^ (-1022)`, an infinity from
`2 ^ 1024` on. -/
def F64.ofMagnitude (n d : Nat) (negative : Bool) : F64 :=
  let e := max (floorLog2 n d) (-1022)
  let u := e - 52
  if 0 ≤ u then
    let m := roundHalfEven n (d * 2 ^ u.toNat)
    if 2 ^ 1024 ≤ m * 2 ^ u.toNat then .inf negative
    else .fin (if negative then -((m * 2 ^ u.toNat : Nat) : ℚ) else ((m * 2 ^ u.toNat : Nat) : ℚ))
  else
    let m := roundHalfEven (n * 2 ^ (-u).toNat) d
    if m = 0 then .zero negative
    else .fin (if negative then -(mkRat m (2 ^ (-u).toNat)) else mkRat m (2 ^ (-u).toNat))

/-- Rounding of an exact result to binary64; an exact zero is `+0`. -/
def F64.ofRat (q : ℚ) : F64 :=
  if q = 0 then .zero false else F64.ofMagnitude q.num.natAbs q.den (decide (q < 0))

/-- Is the sign bit of a non-`NaN` number set. -/
def F64.negative : F64 → Bool
  | .nan => false
  | .inf s => s
  | .zero s => s
  | .fin x => decide (x < 0)

/-- The rational a finite number denotes (0 for the others). -/
def F64.toRat : F64 → ℚ
  | .fin x => x
  | _ => 0

/-- Unary minus. -/
def F64.neg : F64 → F64
  | .nan => .nan
  | .inf s => .inf (!s)
  | .zero s => .zero (!s)
  | .fin x => .fin (-x)

/-- The operator `+` on numbers. -/
def F64.add : F64 → F64 → F64
  | .nan, _ => .nan
  | _, .nan => .nan
  | .inf a, .inf b => if a = b then .inf a else .nan
  | .inf a, _ => .inf a
  | _, .inf b => .inf b
  | .zero a, .zero b => .zero (a && b)
  | .zero _, .fin y => .fin y
  | .fin x, .zero _ => .fin x
  | .fin x, .fin y => F64.ofRat (x + y)

/-- The operator `-` on numbers. -/
def F64.sub (a b : F64) : F64 := F64.add a (F64.neg b)

/-- The operator `*` on numbers. -/
def F64.mul : F64 → F64 → F64
  | .nan, _ => .nan
  | _, .nan => .nan
  | .inf _, .zero _ => .nan
  | .zero _, .inf _ => .nan
  | .fin x, .fin y => F64.ofRat (x * y)
  | a, b =>
    if a matches .inf _ ∨ b matches .inf _ then .inf (a.negative != b.negative)
    else .zero (a.negative != b.negative)

/-- The operator `/` on numbers. -/
def F64.div : F64 → F64 → F64
  | .nan, _ => .nan
  | _, .nan => .nan
  | .inf _, .inf _ => .nan
  | .zero _, .zero _ => .nan
  | .inf a, b => .inf (a != b.negative)
  | a, .inf b => .zero (a.negative != b)
  | .zero a, b => .zero (a != b.negative)
  | a, .zero b => .inf (a.negative != b)
  | .fin x, .fin y => F64.ofRat (x / y)

/-- The operator `<` on numbers (false when an operand is `NaN`). -/
def F64.lt : F64 → F64 → Bool
  | .nan, _ => false
  | _, .nan => false
  | .inf a, .inf b => a && !b
  | .inf a, _ => a
  | _, .inf b => !b
  | a, b => decide (a.toRat < b.toRat)

/-- The operator `===` on numbers (`NaN` equals nothing, `+0` equals `-0`). -/
def F64.eq : F64 → F64 → Bool
  | .nan, _ => false
  | _, .nan => false
  | .inf a, .inf b => a == b
  | .inf _, _ => false
  | _, .inf _ => false
  | a, b => decide (a.toRat = b.toRat)

/-- The operator `<=` on numbers. -/
def F64.le (a b : F64) : Bool := F64.lt a b || F64.eq a b

/-- The function `Math.min` of two arguments. -/
def F64.min : F64 → F64 → F64
  | .nan, _ => .nan
  | _, .nan => .nan
  | .zero a, .zero b => .zero (a || b)
  | a, b => if F64.lt b a then b else a

/-- What `Array.prototype.sort` makes of the value of a comparator: its sign,
with `NaN` taken as `+0`. -/
def F64.sortSign : F64 → ℚ
  | .nan => 0
  | .inf s => if s then -1 else 1
  | .zero _ => 0
  | .fin x => x

/-- A numeric literal of the source: the binary64 value nearest to the decimal
it spells. -/
def F64.lit (q : ℚ) : F64 := F64.ofRat q

/-- The largest finite number, `Number.MAX_VALUE`. -/
def F64.maxValue : ℚ := (2 ^ 53 - 1) * 2 ^ 971

/-- Is the number finite and positive (at most `Number.MAX_VALUE`). -/
def F64.isPositiveFinite : F64 → Bool
  | .fin x => decide (0 < x) && decide (x ≤ F64.maxValue)
  | _ => false

/-! ## The programs in binary64

The classes and functions of the four programs once more, statement for
statement as in the first part of the file, with `F64` for `ℚ`, the rounded
operators for the exact ones and the comparisons of JavaScript (false on
`NaN`) for the order of `ℚ`. -/

/-! ### Order book in binary64 -/

/-- The object literal `{ price, quantity, trader }`, its numbers in binary64. -/
structure Order where
  price : F64
  quantity : F64
  trader : String
  deriving DecidableEq, Repr

/-- The object literal pushed onto `this.trades` (without its `timestamp`). -/
structure Trade where
  price : F64
  quantity : F64
  buyer : String
  seller : String
  deriving DecidableEq, Repr

/-- The fields of `class Orderbook`. -/
structure Orderbook where
  pair : String
  bids : List Order
  asks : List Order
  trades : List Trade
  deriving DecidableEq, Repr

/-- Comparator `(a, b) => b.price - a.price` as the sort reads it. -/
def cmpBid (a b : Order) : ℚ := (F64.sub b.price a.price).sortSign

/-- Comparator `(a, b) => a.price - b.price` as the sort reads it. -/
def cmpAsk (a b : Order) : ℚ := (F64.sub a.price b.price).sortSign

/-- The constructor `new Orderbook(pair)`. -/
def Orderbook.new (pair : String) : Orderbook :=
  { pair := pair, bids := [], asks := [], trades := [] }

/-- The guard of the `while` loop in `matchOrders`. -/
def Orderbook.crossed (b : Orderbook) : Bool :=
  match b.bids, b.asks with
  | bid :: _, ask :: _ => F64.le ask.price bid.price
  | _, _ => false

/-- One execution of the body of the `while` loop in `matchOrders`. -/
def Orderbook.matchStep (b : Orderbook) : Orderbook :=
  match b.bids, b.asks with
  | bid :: bs, ask :: as =>
    let tradePrice := ask.price
    let tradeQty := F64.min bid.quantity ask.quantity
    let trades := b.trades ++
      [{ price := tradePrice, quantity := tradeQty, buyer := bid.trader, seller := ask.trader }]
    let bid1 : Order := { bid with quantity := F64.sub bid.quantity tradeQty }
    let ask1 : Order := { ask with quantity := F64.sub ask.quantity tradeQty }
    let bids1 := if F64.eq bid1.quantity (F64.lit 0) then bs else bid1 :: bs
    let asks1 := if F64.eq ask1.quantity (F64.lit 0) then as else ask1 :: as
    { b with bids := bids1, asks := asks1, trades := trades }
  | _, _ => b

/-- The `while` loop of `matchOrders`, run for at most `fuel` iterations. -/
def Orderbook.matchLoop : Nat → Orderbook → Orderbook
  | 0, b => b
  | fuel + 1, b => if b.crossed then Orderbook.matchLoop fuel b.matchStep else b

/-- The method `matchOrders()` with one unit of fuel per resting order.  On a
book of positive finite quantities this fuel is enough for the loop to reach
its exit.  Where quantities overflow, the loop of the source may never reach
its exit and the call then does not return; the value here is the book after
that many iterations, and what is said of such a loop is said of `matchLoop`
with arbitrary fuel. -/
def Orderbook.matchOrders (b : Orderbook) : Orderbook :=
  Orderbook.matchLoop (b.bids.length + b.asks.length) b

/-- The first two statements of `addBid`: push, then sort. -/
def Orderbook.pushBid (b : Orderbook) (price quantity : F64) (trader : String) : Orderbook :=
  let pushed := b.bids ++ [{ price := price, quantity := quantity, trader := trader }]
  { b with bids := jsSort cmpBid pushed }

/-- The first two statements of `addAsk`: push, then sort. -/
def Orderbook.pushAsk (b : Orderbook) (price quantity : F64) (trader : String) : Orderbook :=
  let pushed := b.asks ++ [{ price := price, quantity := quantity, trader := trader }]
  { b with asks := jsSort cmpAsk pushed }

/-- The method `addBid(price, quantity, trader)`. -/
def Orderbook.addBid (b : Orderbook) (price quantity : F64) (trader : String) : Orderbook :=
  (b.pushBid price quantity trader).matchOrders

/-- The method `addAsk(price, quantity, trader)`. -/
def Orderbook.addAsk (b : Orderbook) (price quantity : F64) (trader : String) : Orderbook :=
  (b.pushAsk price quantity trader).matchOrders

/-! ### Liquidity pool in binary64 -/

/-- The fields of `class LiquidityPool`. -/
structure LiquidityPool where
  tokenA : String
  tokenB : String
  reserveA : F64
  reserveB : F64
  k : F64
  feePercent : F64
  deriving DecidableEq, Repr

/-- The object returned by `getAmountBForA`. -/
structure Quote where
  amountBIn : F64
  amountBWithFee : F64
  newReserveA : F64
  newReserveB : F64
  deriving DecidableEq, Repr

/-- The object returned by `swapBforA`. -/
structure SwapResult where
  amountBPaid : F64
  priceAfter : F64
  priceImpact : F64
  deriving DecidableEq, Repr

/-- The constructor `new LiquidityPool(tokenA, tokenB, reserveA, reserveB)`. -/
def LiquidityPool.new (tokenA tokenB : String) (reserveA reserveB : F64) : LiquidityPool :=
  { tokenA := tokenA, tokenB := tokenB, reserveA := reserveA, reserveB := reserveB,
    k := F64.mul reserveA reserveB, feePercent := F64.lit 0.003 }

/-- The method `getPriceAinB()`. -/
def LiquidityPool.getPriceAinB (p : LiquidityPool) : F64 := F64.div p.reserveB p.reserveA

/-- The method `getAmountBForA(amountAOut)`. -/
def LiquidityPool.getAmountBForA (p : LiquidityPool) (amountAOut : F64) : Except String Quote :=
  if F64.le p.reserveA amountAOut then .error "Not enough liquidity!"
  else
    let newReserveA := F64.sub p.reserveA amountAOut
    let newReserveB := F64.div p.k newReserveA
    let amountBIn := F64.sub newReserveB p.reserveB
    let amountBWithFee := F64.mul amountBIn (F64.add (F64.lit 1) p.feePercent)
    .ok { amountBIn := amountBIn, amountBWithFee := amountBWithFee,
          newReserveA := newReserveA, newReserveB := newReserveB }

/-- The method `swapBforA(amountAOut, trader)`: outcome and pool left behind. -/
def LiquidityPool.swapBforA (p : LiquidityPool) (amountAOut : F64) :
    Except String SwapResult × LiquidityPool :=
  match p.getAmountBForA amountAOut with
  | .error e => (.error e, p)
  | .ok q =>
    let priceBefore := p.getPriceAinB
    let p1 : LiquidityPool := { p with reserveA := q.newReserveA, reserveB := q.newReserveB }
    let priceAfter := p1.getPriceAinB
    let priceImpact :=
      F64.mul (F64.div (F64.sub priceAfter priceBefore) priceBefore) (F64.lit 100)
    (.ok { amountBPaid := q.amountBWithFee, priceAfter := priceAfter,
           priceImpact := priceImpact }, p1)

/-! ### Aggregator and manual quote in binary64 -/

/-- The fields of `class SimpleDEX`. -/
structure SimpleDEX where
  name : String
  tokenA : String
  tokenB : String
  reserveA : F64
  reserveB : F64
  k : F64
  fee : F64
  deriving DecidableEq, Repr

/-- The object returned by `quoteForA` (`priceImpact` before formatting). -/
structure DexQuote where
  dex : String
  amountAOut : F64
  amountBIn : F64
  effectivePrice : F64
  priceImpact : F64
  liquidity : F64
  deriving DecidableEq, Repr

/-- The constructor `new SimpleDEX(name, tokenA, tokenB, reserveA, reserveB)`. -/
def SimpleDEX.new (name tokenA tokenB : String) (reserveA reserveB : F64) : SimpleDEX :=
  { name := name, tokenA := tokenA, tokenB := tokenB, reserveA := reserveA,
    reserveB := reserveB, k := F64.mul reserveA reserveB, fee := F64.lit 0.003 }

/-- The method `quoteForA(amountA)`. -/
def SimpleDEX.quoteForA (d : SimpleDEX) (amountA : F64) : Option DexQuote :=
  if F64.le d.reserveA amountA then none
  else
    let newReserveA := F64.sub d.reserveA amountA
    let newReserveB := F64.div d.k newReserveA
    let amountBIn := F64.mul (F64.sub newReserveB d.reserveB) (F64.add (F64.lit 1) d.fee)
    let priceImpact :=
      F64.mul
        (F64.div (F64.sub (F64.div newReserveB newReserveA) (F64.div d.reserveB d.reserveA))
          (F64.div d.reserveB d.reserveA))
        (F64.lit 100)
    some { dex := d.name, amountAOut := amountA, amountBIn := amountBIn,
           effectivePrice := F64.div amountBIn amountA, priceImpact := priceImpact,
           liquidity := d.reserveA }

/-- An element of the constant `splits` of `aggregatorQuote`. -/
structure Split where
  dex : String
  share : F64
  amount : F64
  deriving DecidableEq, Repr

/-- The constant `totalLiquidity`: `dexes.reduce((sum, d) => sum + d.reserveA, 0)`. -/
def totalLiquidity (dexes : List SimpleDEX) : F64 :=
  dexes.foldl (fun sum d => F64.add sum d.reserveA) (F64.lit 0)

/-- The constant `splits` of `aggregatorQuote`. -/
def aggregatorSplits (dexes : List SimpleDEX) (totalAmountA : F64) : List Split :=
  dexes.map (fun dex =>
    Split.mk dex.name (F64.div dex.reserveA (totalLiquidity dexes))
      (F64.mul (F64.div dex.reserveA (totalLiquidity dexes)) totalAmountA))

/-- The body of the `splits.forEach` loop of `aggregatorQuote`. -/
def aggregatorStep (dexes : List SimpleDEX) (totalBIn : F64) (split : Split) :
    Except Thrown F64 :=
  match dexes.find? (fun d => d.name == split.dex) with
  | none => .error .typeError
  | some d =>
    match d.quoteForA split.amount with
    | some q => .ok (F64.add totalBIn q.amountBIn)
    | none => .ok totalBIn

/-- The function `aggregatorQuote(dexes, totalAmountA)`: the `totalBIn` it reports. -/
def aggregatorQuote (dexes : List SimpleDEX) (totalAmountA : F64) : Except Thrown F64 :=
  (aggregatorSplits dexes totalAmountA).foldlM (aggregatorStep dexes) (F64.lit 0)

/-- The numbers `getManualQuote` computes and reports. -/
structure ManualQuote where
  k : F64
  newReserveA : F64
  newReserveB : F64
  amountBIn : F64
  feeAmount : F64
  priceImpact : F64
  deriving DecidableEq, Repr

/-- The function `getManualQuote(reserveA, reserveB, tokenA, tokenB, amountAOut)`. -/
def getManualQuote (reserveA reserveB amountAOut : F64) : Option ManualQuote :=
  let k := F64.mul reserveA reserveB
  let newReserveA := F64.sub reserveA amountAOut
  if F64.le newReserveA (F64.lit 0) then none
  else
    let newReserveB := F64.div k newReserveA
    let amountBIn := F64.sub newReserveB reserveB
    let feeAmount := F64.mul amountBIn (F64.lit 0.003)
    let priceImpact :=
      F64.mul
        (F64.div (F64.sub (F64.div newReserveB newReserveA) (F64.div reserveB reserveA))
          (F64.div reserveB reserveA))
        (F64.lit 100)
    some { k := k, newReserveA := newReserveA, newReserveB := newReserveB,
           amountBIn := amountBIn, feeAmount := feeAmount, priceImpact := priceImpact }

/-! ### Vocabulary of the properties in binary64 -/

/-- The pool states reachable from the pool `p0` by successful swaps. -/
inductive LiquidityPool.ReachableFrom (p0 : LiquidityPool) : LiquidityPool → Prop
  | start : LiquidityPool.ReachableFrom p0 p0
  | swap (p : LiquidityPool) (amountAOut : F64) (r : SwapResult) :
      LiquidityPool.ReachableFrom p0 p → (p.swapBforA amountAOut).1 = .ok r →
      LiquidityPool.ReachableFrom p0 (p.swapBforA amountAOut).2

/-- Every quantity resting in the book is positive and finite. -/
def Orderbook.AllPositiveFinite (b : Orderbook) : Prop :=
  (∀ o ∈ b.bids, o.quantity.isPositiveFinite = true) ∧
  (∀ o ∈ b.asks, o.quantity.isPositiveFinite = true)

/-- The allocated amounts of a split added up in list order, as a `reduce`
with `+` from `0` does. -/
def splitAmountTotal (splits : List Split) : F64 :=
  splits.foldl (fun sum s => F64.add sum s.amount) (F64.lit 0)

end Ieee

/-! # Theorems -/

open Ieee (F64)

/-! ## Matching loop: termination within the fuel -/

theorem crossed_cons {b : Orderbook} (h : b.crossed = true) :
    ∃ bid bs ask as, b.bids = bid :: bs ∧ b.asks = ask :: as ∧ ask.price ≤ bid.price := by
  unfold Orderbook.crossed at h
  split at h
  · next bid bs ask as hb ha => exact ⟨bid, bs, ask, as, hb, ha, by simpa using h⟩
  · simp at h

theorem matchStep_length_lt {b : Orderbook} (h : b.crossed = true) :
    b.matchStep.bids.length + b.matchStep.asks.length < b.bids.length + b.asks.length := by
  obtain ⟨bid, bs, ask, as, hb, ha, -⟩ := crossed_cons h
  simp only [Orderbook.matchStep, hb, ha]
  rcases min_choice bid.quantity ask.quantity with hm | hm
  · simp only [hm, sub_self, if_true, List.length_cons]
    split_ifs <;> simp only [List.length_cons] at * <;> omega
  · simp only [hm, sub_self, if_true, List.length_cons]
    split_ifs <;> simp only [List.length_cons] at * <;> omega

theorem matchLoop_fuel (n : Nat) (b : Orderbook) (h : b.bids.length + b.asks.length ≤ n) :
    (Orderbook.matchLoop n b).crossed = false := by
  induction n generalizing b with
  | zero =>
    have hb : b.bids = [] := List.length_eq_zero.mp (by omega)
    simp [Orderbook.matchLoop, Orderbook.crossed, hb]
  | succ n ih =>
    unfold Orderbook.matchLoop
    by_cases hc : b.crossed = true
    · rw [if_pos hc]
      exact ih _ (by have := matchStep_length_lt hc; omega)
    · rw [if_neg hc]
      simpa using hc

theorem matchLoop_of_not_crossed (n : Nat) (b : Orderbook) (h : b.crossed = false) :
    Orderbook.matchLoop n b = b := by
  cases n with
  | zero => rfl
  | succ n => simp [Orderbook.matchLoop, h]

/-- Fuel beyond one unit per resting order is never used: the loop has already
reached its exit. -/
theorem matchLoop_more_fuel (n m : Nat) (b : Orderbook)
    (h : b.bids.length + b.asks.length ≤ n) :
    Orderbook.matchLoop (n + m) b = Orderbook.matchLoop n b := by
  induction n generalizing b with
  | zero =>
    have hb : b.bids = [] := List.length_eq_zero.mp (by omega)
    have hc : b.crossed = false := by simp [Orderbook.crossed, hb]
    rw [matchLoop_of_not_crossed _ b hc, matchLoop_of_not_crossed _ b hc]
  | succ n ih =>
    rw [Nat.add_right_comm]
    unfold Orderbook.matchLoop
    by_cases hc : b.crossed = true
    · rw [if_pos hc, if_pos hc]
      exact ih _ (by have := matchStep_length_lt hc; omega)
    · rw [if_neg hc, if_neg hc]

theorem uncrossed_of_not_crossed {b : Orderbook} (h : b.crossed = false) : b.Uncrossed := by
  unfold Orderbook.Uncrossed
  unfold Orderbook.crossed at h
  split at h
  · next bid bs ask as hb ha =>
    right; right
    refine ⟨bid, ask, by simp [hb], by simp [ha], ?_⟩
    simpa using h
  · next hne =>
    cases hb : b.bids with
    | nil => exact Or.inl rfl
    | cons bid bs =>
      cases ha : b.asks with
      | nil => exact Or.inr (Or.inl rfl)
      | cons ask as => exact absurd ha (hne bid bs ask as hb)

theorem matchOrders_uncrossed (b : Orderbook) : b.matchOrders.Uncrossed :=
  uncrossed_of_not_crossed (matchLoop_fuel _ b le_rfl)

theorem apply_uncrossed (b : Orderbook) (c : Call) : (b.apply c).Uncrossed := by
  cases c <;> exact matchOrders_uncrossed _

/-- Claim C1: for every sequence of `addBid` / `addAsk` calls applied to an
initially empty order book, the book the last call leaves behind has an empty
bid side, or an empty ask side, or `bids[0].price < asks[0].price`; as the
sequence is arbitrary this holds after each call. -/
theorem run_never_crossed (pair : String) (calls : List Call) :
    (Orderbook.run pair calls).bids = [] ∨ (Orderbook.run pair calls).asks = [] ∨
      ∃ bid ask, (Orderbook.run pair calls).bids.head? = some bid ∧
        (Orderbook.run pair calls).asks.head? = some ask ∧ bid.price < ask.price := by
  rcases List.eq_nil_or_concat calls with h | ⟨cs, c, h⟩
  · subst h
    exact Or.inl rfl
  · subst h
    have := apply_uncrossed (Orderbook.run pair cs) c
    simpa [Orderbook.run, List.foldl_append, Orderbook.Uncrossed] using this


/-! ## Trade tape -/

theorem matchStep_trades {b : Orderbook} {bid ask : Order} {bs as : List Order}
    (hb : b.bids = bid :: bs) (ha : b.asks = ask :: as) :
    b.matchStep.trades = b.trades ++
      [{ price := ask.price, quantity := min bid.quantity ask.quantity,
         buyer := bid.trader, seller := ask.trader }] := by
  simp only [Orderbook.matchStep, hb, ha]

theorem matchLoop_trades (n : Nat) (s : Orderbook) :
    ∃ new, (Orderbook.matchLoop n s).trades = s.trades ++ new ∧ TradesAtHeads s new := by
  induction n generalizing s with
  | zero => exact ⟨[], by simp [Orderbook.matchLoop], trivial⟩
  | succ n ih =>
    unfold Orderbook.matchLoop
    by_cases hc : s.crossed = true
    · rw [if_pos hc]
      obtain ⟨bid, bs, ask, as, hb, ha, hle⟩ := crossed_cons hc
      obtain ⟨new, hnew, hheads⟩ := ih s.matchStep
      refine ⟨{ price := ask.price, quantity := min bid.quantity ask.quantity,
                buyer := bid.trader, seller := ask.trader } :: new, ?_,
        ⟨⟨bid, ask, by simp [hb], by simp [ha], hle, rfl, rfl, rfl, rfl⟩, hheads⟩⟩
      rw [hnew, matchStep_trades hb ha]
      simp
    · rw [if_neg hc]
      exact ⟨[], by simp, trivial⟩

/-- Claim C4: for every book and every `addBid` / `addAsk` call the trade tape
after the call is the tape before it followed by the new trades, and the new
trades are the ones struck at the heads of the book, one per iteration of the
matching loop starting from the book with the order inserted: price of the
head ask, quantity the minimum of the two head quantities, buyer the head
bid's trader and seller the head ask's trader. -/
theorem trades_append_only (b : Orderbook) (price quantity : ℚ) (trader : String) :
    (∃ new, (b.addBid price quantity trader).trades = b.trades ++ new ∧
        TradesAtHeads (b.pushBid price quantity trader) new) ∧
    (∃ new, (b.addAsk price quantity trader).trades = b.trades ++ new ∧
        TradesAtHeads (b.pushAsk price quantity trader) new) :=
  ⟨matchLoop_trades _ (b.pushBid price quantity trader),
   matchLoop_trades _ (b.pushAsk price quantity trader)⟩

/-! ## The stable sort -/

theorem insertLast_eq_append (cmp : Order → Order → ℚ) (x : Order) (l : List Order)
    (h : ∀ y ∈ l, ¬ cmp x y < 0) : insertLast cmp x l = l ++ [x] := by
  induction l with
  | nil => rfl
  | cons y ys ih =>
    have hy : ¬ cmp x y < 0 := h y (List.mem_cons_self _ _)
    simp only [insertLast, if_neg hy, List.cons_append]
    rw [ih (fun z hz => h z (List.mem_cons_of_mem _ hz))]

theorem insertLast_split (cmp : Order → Order → ℚ) (x : Order) (l : List Order) :
    insertLast cmp x l =
      l.takeWhile (fun y => decide (¬ cmp x y < 0)) ++
        x :: l.dropWhile (fun y => decide (¬ cmp x y < 0)) := by
  induction l with
  | nil => rfl
  | cons y ys ih =>
    by_cases hy : cmp x y < 0
    · simp [insertLast, hy, List.takeWhile, List.dropWhile]
    · simp [insertLast, hy, List.takeWhile, List.dropWhile, ih]

theorem foldl_insertLast_sorted (cmp : Order → Order → ℚ) (acc xs : List Order)
    (h : (acc ++ xs).Pairwise (fun a b => ¬ cmp b a < 0)) :
    xs.foldl (fun a x => insertLast cmp x a) acc = acc ++ xs := by
  induction xs generalizing acc with
  | nil => simp
  | cons x xs ih =>
    have h1 : ∀ y ∈ acc, ¬ cmp x y < 0 := by
      intro y hy
      rw [List.pairwise_append] at h
      exact h.2.2 y hy x (List.mem_cons_self _ _)
    simp only [List.foldl_cons]
    rw [insertLast_eq_append cmp x acc h1, ih]
    · simp
    · simpa using h

theorem jsSort_of_sorted (cmp : Order → Order → ℚ) (xs : List Order)
    (h : xs.Pairwise (fun a b => ¬ cmp b a < 0)) : jsSort cmp xs = xs := by
  have := foldl_insertLast_sorted cmp [] xs (by simpa using h)
  simpa [jsSort] using this

theorem jsSort_push (cmp : Order → Order → ℚ) (xs : List Order) (o : Order)
    (h : xs.Pairwise (fun a b => ¬ cmp b a < 0)) :
    jsSort cmp (xs ++ [o]) = insertLast cmp o xs := by
  unfold jsSort
  rw [List.foldl_append]
  have := jsSort_of_sorted cmp xs h
  unfold jsSort at this
  rw [this]
  rfl


theorem mem_insertLast {α : Type} (cmp : α → α → ℚ) (x z : α) (l : List α) :
    z ∈ insertLast cmp x l ↔ z = x ∨ z ∈ l := by
  induction l with
  | nil => simp [insertLast]
  | cons y ys ih =>
    unfold insertLast
    split_ifs
    · simp
    · simp only [List.mem_cons, ih]
      tauto

theorem sortedDesc_insertLast (x : Order) (l : List Order) (h : SortedDesc l) :
    SortedDesc (insertLast cmpBid x l) := by
  unfold SortedDesc at *
  induction l with
  | nil => simp [insertLast]
  | cons y ys ih =>
    rw [List.pairwise_cons] at h
    unfold insertLast
    split_ifs with hc
    · simp only [cmpBid, sub_neg] at hc
      refine List.pairwise_cons.mpr ⟨?_, List.pairwise_cons.mpr h⟩
      intro z hz
      rcases List.mem_cons.mp hz with rfl | hz
      · exact hc.le
      · exact (h.1 z hz).trans hc.le
    · simp only [cmpBid, sub_neg, not_lt] at hc
      refine List.pairwise_cons.mpr ⟨?_, ih h.2⟩
      intro z hz
      rcases (mem_insertLast _ _ _ _).mp hz with rfl | hz
      · exact hc
      · exact h.1 z hz

theorem sortedAsc_insertLast (x : Order) (l : List Order) (h : SortedAsc l) :
    SortedAsc (insertLast cmpAsk x l) := by
  unfold SortedAsc at *
  induction l with
  | nil => simp [insertLast]
  | cons y ys ih =>
    rw [List.pairwise_cons] at h
    unfold insertLast
    split_ifs with hc
    · simp only [cmpAsk, sub_neg] at hc
      refine List.pairwise_cons.mpr ⟨?_, List.pairwise_cons.mpr h⟩
      intro z hz
      rcases List.mem_cons.mp hz with rfl | hz
      · exact hc.le
      · exact hc.le.trans (h.1 z hz)
    · simp only [cmpAsk, sub_neg, not_lt] at hc
      refine List.pairwise_cons.mpr ⟨?_, ih h.2⟩
      intro z hz
      rcases (mem_insertLast _ _ _ _).mp hz with rfl | hz
      · exact hc
      · exact h.1 z hz

theorem sortedDesc_jsSort (xs : List Order) : SortedDesc (jsSort cmpBid xs) := by
  have key : ∀ (ys acc : List Order), SortedDesc acc →
      SortedDesc (ys.foldl (fun a x => insertLast cmpBid x a) acc) := by
    intro ys
    induction ys with
    | nil => intro acc h; simpa using h
    | cons y ys ih => intro acc h; exact ih _ (sortedDesc_insertLast y acc h)
  exact key xs [] List.Pairwise.nil

theorem sortedAsc_jsSort (xs : List Order) : SortedAsc (jsSort cmpAsk xs) := by
  have key : ∀ (ys acc : List Order), SortedAsc acc →
      SortedAsc (ys.foldl (fun a x => insertLast cmpAsk x a) acc) := by
    intro ys
    induction ys with
    | nil => intro acc h; simpa using h
    | cons y ys ih => intro acc h; exact ih _ (sortedAsc_insertLast y acc h)
  exact key xs [] List.Pairwise.nil

theorem matchStep_sorted (b : Orderbook) (hb : SortedDesc b.bids) (ha : SortedAsc b.asks) :
    SortedDesc b.matchStep.bids ∧ SortedAsc b.matchStep.asks := by
  unfold Orderbook.matchStep
  split
  · next bid bs ask as hbe hae =>
    rw [hbe] at hb
    rw [hae] at ha
    unfold SortedDesc SortedAsc at *
    rw [List.pairwise_cons] at hb ha
    constructor
    · dsimp only
      split_ifs
      · exact hb.2
      · exact List.pairwise_cons.mpr ⟨hb.1, hb.2⟩
    · dsimp only
      split_ifs
      · exact ha.2
      · exact List.pairwise_cons.mpr ⟨ha.1, ha.2⟩
  · exact ⟨hb, ha⟩

theorem matchLoop_sorted (n : Nat) (b : Orderbook) (hb : SortedDesc b.bids)
    (ha : SortedAsc b.asks) :
    SortedDesc (Orderbook.matchLoop n b).bids ∧ SortedAsc (Orderbook.matchLoop n b).asks := by
  induction n generalizing b with
  | zero => exact ⟨hb, ha⟩
  | succ n ih =>
    unfold Orderbook.matchLoop
    split_ifs
    · exact ih _ (matchStep_sorted b hb ha).1 (matchStep_sorted b hb ha).2
    · exact ⟨hb, ha⟩

theorem apply_sorted (b : Orderbook) (c : Call) (hb : SortedDesc b.bids)
    (ha : SortedAsc b.asks) :
    SortedDesc (b.apply c).bids ∧ SortedAsc (b.apply c).asks := by
  cases c with
  | bid p q t => exact matchLoop_sorted _ _ (sortedDesc_jsSort _) ha
  | ask p q t => exact matchLoop_sorted _ _ hb (sortedAsc_jsSort _)

theorem foldl_apply_sorted (calls : List Call) (b : Orderbook) (hb : SortedDesc b.bids)
    (ha : SortedAsc b.asks) :
    SortedDesc (calls.foldl Orderbook.apply b).bids ∧
      SortedAsc (calls.foldl Orderbook.apply b).asks := by
  induction calls generalizing b with
  | nil => exact ⟨hb, ha⟩
  | cons c cs ih => exact ih _ (apply_sorted b c hb ha).1 (apply_sorted b c hb ha).2

/-- Claim C5: for every sequence of `addBid` / `addAsk` calls applied to an
initially empty order book, the bid side is ordered by price from high to low
and the ask side by price from low to high after the last call, hence after
each call. -/
theorem run_sides_sorted (pair : String) (calls : List Call) :
    SortedDesc (Orderbook.run pair calls).bids ∧ SortedAsc (Orderbook.run pair calls).asks :=
  foldl_apply_sorted calls (Orderbook.new pair) List.Pairwise.nil List.Pairwise.nil


/-! ## Price-time priority -/

theorem insertLast_front (cmp : Order → Order → ℚ) (o : Order) (l : List Order)
    (h : ∀ z ∈ l, cmp o z < 0) : insertLast cmp o l = o :: l := by
  cases l with
  | nil => rfl
  | cons y ys => simp [insertLast, h y (List.mem_cons_self _ _)]

theorem insertLast_eq_placeAfterLast (cmp : Order → Order → ℚ) (o : Order) (l : List Order)
    (h : l.Pairwise (fun a b => ¬ cmp o b < 0 → ¬ cmp o a < 0)) :
    insertLast cmp o l = placeAfterLast (fun x => decide (¬ cmp o x < 0)) o l := by
  induction l with
  | nil => rfl
  | cons x xs ih =>
    rw [List.pairwise_cons] at h
    unfold placeAfterLast
    by_cases hany : xs.any (fun x => decide (¬ cmp o x < 0)) = true
    · rw [if_pos hany]
      obtain ⟨z, hz, hkz⟩ := List.any_eq_true.mp hany
      have hx : ¬ cmp o x < 0 := h.1 z hz (by simpa using hkz)
      simp only [insertLast, if_neg hx]
      rw [ih h.2]
    · rw [if_neg hany]
      have hall : ∀ z ∈ xs, cmp o z < 0 := by
        intro z hz
        by_contra hc
        exact hany (List.any_eq_true.mpr ⟨z, hz, by simpa using hc⟩)
      by_cases hx : cmp o x < 0
      · simp [insertLast, hx]
      · simp only [insertLast, if_neg hx]
        rw [insertLast_front cmp o xs hall]
        simp [hx]

theorem dropWhile_all_false (keep : Order → Bool) (l : List Order)
    (h : l.Pairwise (fun a b => keep b = true → keep a = true)) :
    ∀ x ∈ l.dropWhile keep, keep x = false := by
  induction l with
  | nil => simp
  | cons y ys ih =>
    rw [List.pairwise_cons] at h
    by_cases hy : keep y = true
    · simpa [List.dropWhile, hy] using ih h.2
    · intro x hx
      simp only [List.dropWhile, hy] at hx
      rcases List.mem_cons.mp hx with rfl | hx
      · simpa using hy
      · by_contra hc
        exact hy (h.1 x hx (by simpa using hc))

theorem pushBid_bids (b : Orderbook) (p q : ℚ) (t : String) (hb : SortedDesc b.bids) :
    (b.pushBid p q t).bids = insertLast cmpBid { price := p, quantity := q, trader := t } b.bids := by
  unfold Orderbook.pushBid
  refine jsSort_push cmpBid b.bids _ ?_
  refine List.Pairwise.imp ?_ hb
  intro x y hxy
  simpa [cmpBid] using hxy

theorem pushAsk_asks (b : Orderbook) (p q : ℚ) (t : String) (ha : SortedAsc b.asks) :
    (b.pushAsk p q t).asks = insertLast cmpAsk { price := p, quantity := q, trader := t } b.asks := by
  unfold Orderbook.pushAsk
  refine jsSort_push cmpAsk b.asks _ ?_
  refine List.Pairwise.imp ?_ ha
  intro x y hxy
  simpa [cmpAsk] using hxy

/-- Claim C6 (price-time priority): on a book whose sides are ordered, the
push-then-sort step of `addBid(p, q)` places the new bid immediately after the
last resting bid whose price is at least `p`, and that of `addAsk(p, q)`
places the new ask immediately after the last resting ask whose price is at
most `p`.  The resting orders keep their relative order; every order in front
of the new one has a price at least as good, equal prices included, and every
order behind it a strictly worse one, so the earlier of two orders at one
price is nearer the head, where matching takes place. -/
theorem price_time_priority (b : Orderbook) (p q : ℚ) (t : String)
    (hb : SortedDesc b.bids) (ha : SortedAsc b.asks) :
    ((b.pushBid p q t).bids =
        placeAfterLast (fun x => decide (p ≤ x.price)) { price := p, quantity := q, trader := t }
          b.bids ∧
      ∃ l1 l2, b.bids = l1 ++ l2 ∧
        (b.pushBid p q t).bids = l1 ++ { price := p, quantity := q, trader := t } :: l2 ∧
        (∀ x ∈ l1, p ≤ x.price) ∧ (∀ x ∈ l2, x.price < p)) ∧
    ((b.pushAsk p q t).asks =
        placeAfterLast (fun x => decide (x.price ≤ p)) { price := p, quantity := q, trader := t }
          b.asks ∧
      ∃ l1 l2, b.asks = l1 ++ l2 ∧
        (b.pushAsk p q t).asks = l1 ++ { price := p, quantity := q, trader := t } :: l2 ∧
        (∀ x ∈ l1, x.price ≤ p) ∧ (∀ x ∈ l2, p < x.price)) := by
  have kb : (fun x : Order => decide (¬ cmpBid { price := p, quantity := q, trader := t } x < 0))
      = fun x => decide (p ≤ x.price) := by
    funext x; simp [cmpBid]
  have ka : (fun x : Order => decide (¬ cmpAsk { price := p, quantity := q, trader := t } x < 0))
      = fun x => decide (x.price ≤ p) := by
    funext x; simp [cmpAsk]
  refine ⟨⟨?_, ?_⟩, ⟨?_, ?_⟩⟩
  · rw [pushBid_bids b p q t hb, insertLast_eq_placeAfterLast, kb]
    refine List.Pairwise.imp ?_ hb
    intro x y hxy hy
    simp only [cmpBid, sub_neg, not_lt] at *
    exact hy.trans hxy
  · refine ⟨b.bids.takeWhile (fun x => decide (p ≤ x.price)),
      b.bids.dropWhile (fun x => decide (p ≤ x.price)), (List.takeWhile_append_dropWhile _ _).symm,
      ?_, ?_, ?_⟩
    · rw [pushBid_bids b p q t hb, insertLast_split, kb]
    · intro x hx
      simpa using List.mem_takeWhile_imp hx
    · intro x hx
      have := dropWhile_all_false (fun x => decide (p ≤ x.price)) b.bids
        (List.Pairwise.imp (fun {x y} hxy hy => by
          simp only [decide_eq_true_eq] at *
          exact hy.trans hxy) hb) x hx
      simpa using this
  · rw [pushAsk_asks b p q t ha, insertLast_eq_placeAfterLast, ka]
    refine List.Pairwise.imp ?_ ha
    intro x y hxy hy
    simp only [cmpAsk, sub_neg, not_lt] at *
    exact hxy.trans hy
  · refine ⟨b.asks.takeWhile (fun x => decide (x.price ≤ p)),
      b.asks.dropWhile (fun x => decide (x.price ≤ p)), (List.takeWhile_append_dropWhile _ _).symm,
      ?_, ?_, ?_⟩
    · rw [pushAsk_asks b p q t ha, insertLast_split, ka]
    · intro x hx
      simpa using List.mem_takeWhile_imp hx
    · intro x hx
      have := dropWhile_all_false (fun x => decide (x.price ≤ p)) b.asks
        (List.Pairwise.imp (fun {x y} hxy hy => by
          simp only [decide_eq_true_eq] at *
          exact hxy.trans hy) ha) x hx
      simpa using this


/-! ## Quantity conservation -/

theorem restingQty_cons (x : Order) (l : List Order) :
    restingQty (x :: l) = x.quantity + restingQty l := by
  simp [restingQty]

theorem restingQty_insertLast (cmp : Order → Order → ℚ) (x : Order) (l : List Order) :
    restingQty (insertLast cmp x l) = restingQty l + x.quantity := by
  induction l with
  | nil => simp [insertLast, restingQty]
  | cons y ys ih =>
    unfold insertLast
    split_ifs
    · rw [restingQty_cons]; ring
    · rw [restingQty_cons, restingQty_cons, ih]; ring

theorem restingQty_jsSort (cmp : Order → Order → ℚ) (xs : List Order) :
    restingQty (jsSort cmp xs) = restingQty xs := by
  have key : ∀ (ys acc : List Order),
      restingQty (ys.foldl (fun a x => insertLast cmp x a) acc) = restingQty acc + restingQty ys := by
    intro ys
    induction ys with
    | nil => intro acc; simp [restingQty]
    | cons y ys ih =>
      intro acc
      rw [List.foldl_cons, ih, restingQty_insertLast, restingQty_cons]; ring
  simpa [jsSort, restingQty] using key xs []

theorem matchStep_qty (b : Orderbook) (hc : b.crossed = true) :
    restingQty b.matchStep.bids + tradedQty b.matchStep.trades
        = restingQty b.bids + tradedQty b.trades ∧
    restingQty b.matchStep.asks + tradedQty b.matchStep.trades
        = restingQty b.asks + tradedQty b.trades := by
  obtain ⟨bid, bs, ask, as, hb, ha, -⟩ := crossed_cons hc
  simp only [Orderbook.matchStep, hb, ha]
  constructor
  · split_ifs with h1 <;>
      simp only [restingQty, tradedQty, List.map_cons, List.sum_cons, List.map_append,
        List.sum_append, List.map_nil, List.sum_nil] at * <;> linarith
  · split_ifs with h1 <;>
      simp only [restingQty, tradedQty, List.map_cons, List.sum_cons, List.map_append,
        List.sum_append, List.map_nil, List.sum_nil] at * <;> linarith

theorem matchLoop_qty (n : Nat) (b : Orderbook) :
    restingQty (Orderbook.matchLoop n b).bids + tradedQty (Orderbook.matchLoop n b).trades
        = restingQty b.bids + tradedQty b.trades ∧
    restingQty (Orderbook.matchLoop n b).asks + tradedQty (Orderbook.matchLoop n b).trades
        = restingQty b.asks + tradedQty b.trades := by
  induction n generalizing b with
  | zero => exact ⟨rfl, rfl⟩
  | succ n ih =>
    unfold Orderbook.matchLoop
    by_cases hc : b.crossed = true
    · rw [if_pos hc]
      have h1 := ih b.matchStep
      have h2 := matchStep_qty b hc
      exact ⟨h1.1.trans h2.1, h1.2.trans h2.2⟩
    · rw [if_neg hc]
      exact ⟨rfl, rfl⟩

theorem tradedQty_append (l1 l2 : List Trade) :
    tradedQty (l1 ++ l2) = tradedQty l1 + tradedQty l2 := by
  simp [tradedQty]

theorem matchOrders_conservation (s : Orderbook) :
    ∃ T, s.matchOrders.trades = s.trades ++ T ∧
      restingQty s.matchOrders.bids + tradedQty T = restingQty s.bids ∧
      restingQty s.matchOrders.asks + tradedQty T = restingQty s.asks := by
  obtain ⟨T, hT, -⟩ := matchLoop_trades (s.bids.length + s.asks.length) s
  have hq := matchLoop_qty (s.bids.length + s.asks.length) s
  refine ⟨T, hT, ?_, ?_⟩
  · have h1 := hq.1
    rw [hT, tradedQty_append] at h1
    unfold Orderbook.matchOrders
    linarith
  · have h1 := hq.2
    rw [hT, tradedQty_append] at h1
    unfold Orderbook.matchOrders
    linarith

theorem pushBid_restingQty (b : Orderbook) (p q : ℚ) (t : String) :
    restingQty (b.pushBid p q t).bids = restingQty b.bids + q := by
  show restingQty (jsSort cmpBid _) = _
  rw [restingQty_jsSort]
  simp [restingQty]

theorem pushAsk_restingQty (b : Orderbook) (p q : ℚ) (t : String) :
    restingQty (b.pushAsk p q t).asks = restingQty b.asks + q := by
  show restingQty (jsSort cmpAsk _) = _
  rw [restingQty_jsSort]
  simp [restingQty]

theorem mem_jsSort {α : Type} (cmp : α → α → ℚ) (z : α) (xs : List α) :
    z ∈ jsSort cmp xs ↔ z ∈ xs := by
  have key : ∀ (ys acc : List α),
      z ∈ ys.foldl (fun a x => insertLast cmp x a) acc ↔ z ∈ acc ∨ z ∈ ys := by
    intro ys
    induction ys with
    | nil => intro acc; simp
    | cons y ys ih =>
      intro acc
      rw [List.foldl_cons, ih, mem_insertLast, List.mem_cons]
      tauto
  simpa [jsSort] using key xs []

theorem matchStep_allPositive (b : Orderbook) (h : b.AllPositive) : b.matchStep.AllPositive := by
  unfold Orderbook.matchStep
  split
  · next bid bs ask as hb ha =>
    obtain ⟨h1, h2⟩ := h
    rw [hb] at h1
    rw [ha] at h2
    have hbid := h1 bid (List.mem_cons_self _ _)
    have hask := h2 ask (List.mem_cons_self _ _)
    constructor
    · dsimp only
      split_ifs with h0
      · exact fun o ho => h1 o (List.mem_cons_of_mem _ ho)
      · intro o ho
        rcases List.mem_cons.mp ho with rfl | ho
        · exact lt_of_le_of_ne (sub_nonneg.mpr (min_le_left _ _)) (Ne.symm h0)
        · exact h1 o (List.mem_cons_of_mem _ ho)
    · dsimp only
      split_ifs with h0
      · exact fun o ho => h2 o (List.mem_cons_of_mem _ ho)
      · intro o ho
        rcases List.mem_cons.mp ho with rfl | ho
        · exact lt_of_le_of_ne (sub_nonneg.mpr (min_le_right _ _)) (Ne.symm h0)
        · exact h2 o (List.mem_cons_of_mem _ ho)
  · exact h

theorem matchLoop_allPositive (n : Nat) (b : Orderbook) (h : b.AllPositive) :
    (Orderbook.matchLoop n b).AllPositive := by
  induction n generalizing b with
  | zero => exact h
  | succ n ih =>
    unfold Orderbook.matchLoop
    split_ifs
    · exact ih _ (matchStep_allPositive b h)
    · exact h

theorem pushBid_allPositive (b : Orderbook) (p q : ℚ) (t : String) (h : b.AllPositive)
    (hq : 0 < q) : (b.pushBid p q t).AllPositive := by
  refine ⟨?_, h.2⟩
  intro o ho
  have ho' : o ∈ b.bids ++ [{ price := p, quantity := q, trader := t }] :=
    (mem_jsSort cmpBid o _).mp ho
  rcases List.mem_append.mp ho' with ho | ho
  · exact h.1 o ho
  · rw [List.mem_singleton.mp ho]; exact hq

theorem pushAsk_allPositive (b : Orderbook) (p q : ℚ) (t : String) (h : b.AllPositive)
    (hq : 0 < q) : (b.pushAsk p q t).AllPositive := by
  refine ⟨h.1, ?_⟩
  intro o ho
  have ho' : o ∈ b.asks ++ [{ price := p, quantity := q, trader := t }] :=
    (mem_jsSort cmpAsk o _).mp ho
  rcases List.mem_append.mp ho' with ho | ho
  · exact h.2 o ho
  · rw [List.mem_singleton.mp ho]; exact hq

/-! ## Liquidity pool -/

theorem getAmountBForA_ok (p : LiquidityPool) (a : ℚ) (h : a < p.reserveA) :
    p.getAmountBForA a = .ok
      { amountBIn := p.k / (p.reserveA - a) - p.reserveB,
        amountBWithFee := (p.k / (p.reserveA - a) - p.reserveB) * (1 + p.feePercent),
        newReserveA := p.reserveA - a,
        newReserveB := p.k / (p.reserveA - a) } := by
  unfold LiquidityPool.getAmountBForA
  rw [if_neg (not_le.mpr h)]

theorem getAmountBForA_error (p : LiquidityPool) (a : ℚ) (h : p.reserveA ≤ a) :
    p.getAmountBForA a = .error "Not enough liquidity!" := by
  unfold LiquidityPool.getAmountBForA
  rw [if_pos h]

theorem swapBforA_ok (p : LiquidityPool) (a : ℚ) (h : a < p.reserveA) :
    p.swapBforA a =
      (.ok { amountBPaid := (p.k / (p.reserveA - a) - p.reserveB) * (1 + p.feePercent),
             priceAfter := p.k / (p.reserveA - a) / (p.reserveA - a),
             priceImpact :=
               ((p.k / (p.reserveA - a) / (p.reserveA - a) - p.reserveB / p.reserveA) /
                 (p.reserveB / p.reserveA)) * 100 },
       { p with reserveA := p.reserveA - a, reserveB := p.k / (p.reserveA - a) }) := by
  unfold LiquidityPool.swapBforA
  rw [getAmountBForA_ok p a h]
  rfl

theorem swapBforA_error (p : LiquidityPool) (a : ℚ) (h : p.reserveA ≤ a) :
    p.swapBforA a = (.error "Not enough liquidity!", p) := by
  unfold LiquidityPool.swapBforA
  rw [getAmountBForA_error p a h]

/-- The invariant kept by every reachable pool. -/
theorem reachable_inv {p : LiquidityPool} (h : p.Reachable) :
    p.k = p.reserveA * p.reserveB ∧ p.feePercent = 0.003 := by
  induction h with
  | init tokenA tokenB reserveA reserveB => exact ⟨rfl, rfl⟩
  | swap p a r _ hok ih =>
    by_cases ha : a < p.reserveA
    · rw [swapBforA_ok p a ha]
      refine ⟨?_, ih.2⟩
      have hne : p.reserveA - a ≠ 0 := (sub_pos.mpr ha).ne'
      simp only
      field_simp
    · rw [swapBforA_error p a (not_lt.mp ha)] at hok
      cases hok

/-- Claim C2: on a pool built by the constructor (more generally, reached from
it by successful swaps) and for `amountAOut < reserveA`, `swapBforA` succeeds,
the product `reserveA * reserveB` after the swap equals the product before it
and equals the stored field `k`, and the swap does not change `k`. -/
theorem swap_conserves_product (p : LiquidityPool) (amountAOut : ℚ) (hp : p.Reachable)
    (h : amountAOut < p.reserveA) :
    (∃ r, (p.swapBforA amountAOut).1 = .ok r) ∧
    (p.swapBforA amountAOut).2.reserveA * (p.swapBforA amountAOut).2.reserveB
      = p.reserveA * p.reserveB ∧
    (p.swapBforA amountAOut).2.reserveA * (p.swapBforA amountAOut).2.reserveB
      = (p.swapBforA amountAOut).2.k ∧
    (p.swapBforA amountAOut).2.k = p.k := by
  have hinv := (reachable_inv hp).1
  have hne : p.reserveA - amountAOut ≠ 0 := (sub_pos.mpr h).ne'
  rw [swapBforA_ok p amountAOut h]
  refine ⟨⟨_, rfl⟩, ?_, ?_, rfl⟩
  · simp only
    rw [← hinv]
    field_simp
  · simp only
    field_simp

/-- Claim C8: `getAmountBForA(a)` throws exactly when `a ≥ reserveA` and
returns a quote exactly when `a < reserveA`; `quoteForA(a)` returns `null`
exactly when `a ≥ reserveA` and a quote exactly when `a < reserveA`. -/
theorem liquidity_guard (p : LiquidityPool) (d : SimpleDEX) (a : ℚ) :
    ((∃ e, p.getAmountBForA a = .error e) ↔ p.reserveA ≤ a) ∧
    ((∃ q, p.getAmountBForA a = .ok q) ↔ a < p.reserveA) ∧
    (d.quoteForA a = none ↔ d.reserveA ≤ a) ∧
    ((∃ q, d.quoteForA a = some q) ↔ a < d.reserveA) := by
  refine ⟨?_, ?_, ?_, ?_⟩
  · by_cases h : p.reserveA ≤ a
    · simp [getAmountBForA_error p a h, h]
    · simp [getAmountBForA_ok p a (not_le.mp h), h]
  · by_cases h : p.reserveA ≤ a
    · simp [getAmountBForA_error p a h, h]
    · simp [getAmountBForA_ok p a (not_le.mp h), not_le.mp h]
  · by_cases h : d.reserveA ≤ a
    · simp [SimpleDEX.quoteForA, h]
    · simp [SimpleDEX.quoteForA, h]
  · by_cases h : d.reserveA ≤ a
    · simp [SimpleDEX.quoteForA, h]
    · simp [SimpleDEX.quoteForA, h, not_le.mp h]

/-- Claim C9 (atomicity on failure): for `amountAOut ≥ reserveA` the call
`swapBforA(amountAOut)` fails with the liquidity error and the pool it leaves
behind is the pool it was called on, every field included. -/
theorem failed_swap_is_atomic (p : LiquidityPool) (amountAOut : ℚ)
    (h : p.reserveA ≤ amountAOut) :
    (p.swapBforA amountAOut).1 = .error "Not enough liquidity!" ∧
    (p.swapBforA amountAOut).2 = p := by
  rw [swapBforA_error p amountAOut h]
  exact ⟨rfl, rfl⟩


/-! ## Orders of any sign are accepted -/

theorem length_insertLast (cmp : Order → Order → ℚ) (x : Order) (l : List Order) :
    (insertLast cmp x l).length = l.length + 1 := by
  induction l with
  | nil => rfl
  | cons y ys ih =>
    unfold insertLast
    split_ifs
    · rfl
    · simp [ih]

theorem length_jsSort (cmp : Order → Order → ℚ) (xs : List Order) :
    (jsSort cmp xs).length = xs.length := by
  have key : ∀ (ys acc : List Order),
      (ys.foldl (fun a x => insertLast cmp x a) acc).length = acc.length + ys.length := by
    intro ys
    induction ys with
    | nil => intro acc; simp
    | cons y ys ih =>
      intro acc
      rw [List.foldl_cons, ih, length_insertLast, List.length_cons]
      omega
  simpa [jsSort] using key xs []

theorem matchStep_count (b : Orderbook) (hc : b.crossed = true) :
    b.bids.length + b.trades.length ≤ b.matchStep.bids.length + b.matchStep.trades.length ∧
    b.asks.length + b.trades.length ≤ b.matchStep.asks.length + b.matchStep.trades.length := by
  obtain ⟨bid, bs, ask, as, hb, ha, -⟩ := crossed_cons hc
  simp only [Orderbook.matchStep, hb, ha]
  constructor
  · split_ifs <;> simp only [List.length_cons, List.length_append, List.length_nil] <;> omega
  · split_ifs <;> simp only [List.length_cons, List.length_append, List.length_nil] <;> omega

theorem matchLoop_count (n : Nat) (b : Orderbook) :
    b.bids.length + b.trades.length ≤
      (Orderbook.matchLoop n b).bids.length + (Orderbook.matchLoop n b).trades.length ∧
    b.asks.length + b.trades.length ≤
      (Orderbook.matchLoop n b).asks.length + (Orderbook.matchLoop n b).trades.length := by
  induction n generalizing b with
  | zero => exact ⟨le_rfl, le_rfl⟩
  | succ n ih =>
    unfold Orderbook.matchLoop
    by_cases hc : b.crossed = true
    · rw [if_pos hc]
      have h1 := ih b.matchStep
      have h2 := matchStep_count b hc
      exact ⟨h2.1.trans h1.1, h2.2.trans h1.2⟩
    · rw [if_neg hc]
      exact ⟨le_rfl, le_rfl⟩

/-- Claim C10, refuted as stated: `addBid(0, -1)` on the empty book does not
leave `bids`, `asks` and `trades` unchanged. -/
theorem nonpositive_order_not_rejected :
    ¬ (((Orderbook.new "ETH/USDT").addBid 0 (-1) "t").bids = (Orderbook.new "ETH/USDT").bids ∧
       ((Orderbook.new "ETH/USDT").addBid 0 (-1) "t").asks = (Orderbook.new "ETH/USDT").asks ∧
       ((Orderbook.new "ETH/USDT").addBid 0 (-1) "t").trades
         = (Orderbook.new "ETH/USDT").trades) := by
  intro h
  have h1 := h.1
  simp [Orderbook.addBid, Orderbook.pushBid, Orderbook.new, jsSort, insertLast,
    Orderbook.matchOrders, Orderbook.matchLoop, Orderbook.crossed] at h1

/-- Claim C10, amended: `addBid` and `addAsk` have no failure path.  Whatever
the sign of price and quantity, the order is pushed onto its side, and after
the call the number of orders resting on that side plus the number of
recorded trades has grown, so the book is never left unchanged. -/
theorem order_always_accepted (b : Orderbook) (p q : ℚ) (t : String) :
    ({ price := p, quantity := q, trader := t } ∈ (b.pushBid p q t).bids ∧
      b.bids.length + b.trades.length <
        (b.addBid p q t).bids.length + (b.addBid p q t).trades.length) ∧
    ({ price := p, quantity := q, trader := t } ∈ (b.pushAsk p q t).asks ∧
      b.asks.length + b.trades.length <
        (b.addAsk p q t).asks.length + (b.addAsk p q t).trades.length) := by
  refine ⟨⟨?_, ?_⟩, ⟨?_, ?_⟩⟩
  · exact (mem_jsSort cmpBid _ _).mpr (by simp)
  · have h1 := (matchLoop_count
      ((b.pushBid p q t).bids.length + (b.pushBid p q t).asks.length) (b.pushBid p q t)).1
    have h2 : (b.pushBid p q t).bids.length = b.bids.length + 1 := by
      show (jsSort cmpBid _).length = _
      rw [length_jsSort]; simp
    have h3 : (b.pushBid p q t).trades.length = b.trades.length := rfl
    unfold Orderbook.addBid Orderbook.matchOrders
    omega
  · exact (mem_jsSort cmpAsk _ _).mpr (by simp)
  · have h1 := (matchLoop_count
      ((b.pushAsk p q t).bids.length + (b.pushAsk p q t).asks.length) (b.pushAsk p q t)).2
    have h2 : (b.pushAsk p q t).asks.length = b.asks.length + 1 := by
      show (jsSort cmpAsk _).length = _
      rw [length_jsSort]; simp
    have h3 : (b.pushAsk p q t).trades.length = b.trades.length := rfl
    unfold Orderbook.addAsk Orderbook.matchOrders
    omega

/-! ## Instances -/

theorem swap_conserves_product_witness :
    (10 : ℚ) < (LiquidityPool.new "ETH" "USDT" 100 10000).reserveA ∧
    ((∃ r, ((LiquidityPool.new "ETH" "USDT" 100 10000).swapBforA 10).1 = .ok r) ∧
     ((LiquidityPool.new "ETH" "USDT" 100 10000).swapBforA 10).2.reserveA *
       ((LiquidityPool.new "ETH" "USDT" 100 10000).swapBforA 10).2.reserveB
       = (LiquidityPool.new "ETH" "USDT" 100 10000).reserveA *
         (LiquidityPool.new "ETH" "USDT" 100 10000).reserveB ∧
     ((LiquidityPool.new "ETH" "USDT" 100 10000).swapBforA 10).2.reserveA *
       ((LiquidityPool.new "ETH" "USDT" 100 10000).swapBforA 10).2.reserveB
       = ((LiquidityPool.new "ETH" "USDT" 100 10000).swapBforA 10).2.k ∧
     ((LiquidityPool.new "ETH" "USDT" 100 10000).swapBforA 10).2.k
       = (LiquidityPool.new "ETH" "USDT" 100 10000).k) :=
  ⟨by norm_num [LiquidityPool.new],
   swap_conserves_product (LiquidityPool.new "ETH" "USDT" 100 10000) 10
     (LiquidityPool.Reachable.init "ETH" "USDT" 100 10000) (by norm_num [LiquidityPool.new])⟩

theorem failed_swap_is_atomic_witness :
    (((LiquidityPool.new "ETH" "USDT" 10 1000).swapBforA 10).1 = .error "Not enough liquidity!" ∧
      ((LiquidityPool.new "ETH" "USDT" 10 1000).swapBforA 10).2
        = LiquidityPool.new "ETH" "USDT" 10 1000) ∧
    (((LiquidityPool.new "ETH" "USDT" 10 1000).swapBforA 15).1 = .error "Not enough liquidity!" ∧
      ((LiquidityPool.new "ETH" "USDT" 10 1000).swapBforA 15).2
        = LiquidityPool.new "ETH" "USDT" 10 1000) :=
  ⟨failed_swap_is_atomic (LiquidityPool.new "ETH" "USDT" 10 1000) 10
     (by norm_num [LiquidityPool.new]),
   failed_swap_is_atomic (LiquidityPool.new "ETH" "USDT" 10 1000) 15
     (by norm_num [LiquidityPool.new])⟩

theorem price_time_priority_witness :
    SortedDesc [({ price := 134, quantity := 5, trader := "early" } : Order),
                { price := 133, quantity := 1, trader := "low" }] ∧
    SortedAsc [({ price := 135, quantity := 2, trader := "maker" } : Order)] ∧
    (Orderbook.pushBid
        { pair := "ETH/USDT",
          bids := [{ price := 134, quantity := 5, trader := "early" },
                   { price := 133, quantity := 1, trader := "low" }],
          asks := [{ price := 135, quantity := 2, trader := "maker" }],
          trades := [] } 134 3 "late").bids =
      [{ price := 134, quantity := 5, trader := "early" },
       { price := 134, quantity := 3, trader := "late" },
       { price := 133, quantity := 1, trader := "low" }] := by
  have hb : SortedDesc [({ price := 134, quantity := 5, trader := "early" } : Order),
      { price := 133, quantity := 1, trader := "low" }] := by
    simp [SortedDesc]; norm_num
  have ha : SortedAsc [({ price := 135, quantity := 2, trader := "maker" } : Order)] := by
    simp [SortedAsc]
  refine ⟨hb, ha, ?_⟩
  rw [(price_time_priority
    { pair := "ETH/USDT",
      bids := [{ price := 134, quantity := 5, trader := "early" },
               { price := 133, quantity := 1, trader := "low" }],
      asks := [{ price := 135, quantity := 2, trader := "maker" }],
      trades := [] } 134 3 "late" hb ha).1.1]
  simp [placeAfterLast]
  norm_num

/-! ## Swap against quote, price movement -/

/-- Claim C11: on a pool with positive reserves and for `amountAOut < reserveA`,
`swapBforA(amountAOut)` sets `reserveA` and `reserveB` to the `newReserveA` and
`newReserveB` that `getAmountBForA(amountAOut)` computes on the pool before the
swap, leaves `tokenA`, `tokenB`, `k` and `feePercent` as they were, and returns
`amountBPaid` equal to the quote's `amountBWithFee`, `priceAfter` equal to
`newReserveB / newReserveA` and `priceImpact` equal to
`(priceAfter - priceBefore) / priceBefore * 100` with `priceBefore` the old
`reserveB / reserveA`; on the pool (100, 10000) buying 10 the price goes from
100 to 10000/81. -/
theorem swap_commits_quote (p : LiquidityPool) (amountAOut : ℚ)
    (_hA : 0 < p.reserveA) (_hB : 0 < p.reserveB) (h : amountAOut < p.reserveA) :
    (∃ q, p.getAmountBForA amountAOut = .ok q ∧
      (p.swapBforA amountAOut).2.reserveA = q.newReserveA ∧
      (p.swapBforA amountAOut).2.reserveB = q.newReserveB ∧
      (p.swapBforA amountAOut).2.tokenA = p.tokenA ∧
      (p.swapBforA amountAOut).2.tokenB = p.tokenB ∧
      (p.swapBforA amountAOut).2.k = p.k ∧
      (p.swapBforA amountAOut).2.feePercent = p.feePercent ∧
      (p.swapBforA amountAOut).1 = .ok
        { amountBPaid := q.amountBWithFee,
          priceAfter := q.newReserveB / q.newReserveA,
          priceImpact :=
            (q.newReserveB / q.newReserveA - p.reserveB / p.reserveA) /
              (p.reserveB / p.reserveA) * 100 }) ∧
    (LiquidityPool.new "ETH" "USDT" 100 10000).getPriceAinB = 100 ∧
    ((LiquidityPool.new "ETH" "USDT" 100 10000).swapBforA 10).1 = .ok
      { amountBPaid := 10030 / 9, priceAfter := 10000 / 81, priceImpact := 1900 / 81 } := by
  refine ⟨⟨_, getAmountBForA_ok p amountAOut h, ?_⟩, ?_, ?_⟩
  · rw [swapBforA_ok p amountAOut h]
    exact ⟨rfl, rfl, rfl, rfl, rfl, rfl, rfl⟩
  · norm_num [LiquidityPool.new, LiquidityPool.getPriceAinB]
  · rw [swapBforA_ok _ _ (by norm_num [LiquidityPool.new])]
    norm_num [LiquidityPool.new]

theorem priceAfter_gt (rA rB a : ℚ) (hA : 0 < rA) (hB : 0 < rB) (h0 : 0 < a) (h : a < rA) :
    rB / rA < rA * rB / (rA - a) / (rA - a) := by
  have hd : 0 < rA - a := sub_pos.mpr h
  rw [div_div, div_lt_div_iff₀ hA (mul_pos hd hd)]
  have h1 : (rA - a) * (rA - a) < rA * rA := by nlinarith
  nlinarith [mul_lt_mul_of_pos_left h1 hB]

theorem priceAfter_lt (rA rB a : ℚ) (hA : 0 < rA) (hB : 0 < rB) (h0 : a < 0) :
    rA * rB / (rA - a) / (rA - a) < rB / rA := by
  have hd : 0 < rA - a := by linarith
  rw [div_div, div_lt_div_iff₀ (mul_pos hd hd) hA]
  have h1 : rA * rA < (rA - a) * (rA - a) := by nlinarith
  nlinarith [mul_lt_mul_of_pos_left h1 hB]

/-- Claim C12, amended (price monotonicity): in exact arithmetic, on a pool with
positive reserves, a swap with `0 < amountAOut < reserveA` returns a
`priceAfter` above the price before it, with a positive `priceImpact`, and a
swap with `amountAOut < 0` returns a `priceAfter` below the price before it;
`priceAfter` is the price the pool quotes once the swap is done. -/
theorem price_monotone (p : LiquidityPool) (amountAOut : ℚ) (hp : p.Reachable)
    (hA : 0 < p.reserveA) (hB : 0 < p.reserveB) :
    (0 < amountAOut → amountAOut < p.reserveA →
      ∃ r, (p.swapBforA amountAOut).1 = .ok r ∧
        r.priceAfter = (p.swapBforA amountAOut).2.getPriceAinB ∧
        p.getPriceAinB < r.priceAfter ∧ 0 < r.priceImpact) ∧
    (amountAOut < 0 →
      ∃ r, (p.swapBforA amountAOut).1 = .ok r ∧
        r.priceAfter = (p.swapBforA amountAOut).2.getPriceAinB ∧
        r.priceAfter < p.getPriceAinB ∧ r.priceImpact < 0) := by
  have hk := (reachable_inv hp).1
  have hbefore : 0 < p.reserveB / p.reserveA := div_pos hB hA
  constructor
  · intro h0 h
    rw [swapBforA_ok p amountAOut h]
    refine ⟨_, rfl, rfl, ?_, ?_⟩
    · simp only [LiquidityPool.getPriceAinB, hk]
      exact priceAfter_gt _ _ _ hA hB h0 h
    · simp only [hk]
      have := priceAfter_gt _ _ _ hA hB h0 h
      exact mul_pos (div_pos (sub_pos.mpr this) hbefore) (by norm_num)
  · intro h0
    have h : amountAOut < p.reserveA := by linarith
    rw [swapBforA_ok p amountAOut h]
    refine ⟨_, rfl, rfl, ?_, ?_⟩
    · simp only [LiquidityPool.getPriceAinB, hk]
      exact priceAfter_lt _ _ _ hA hB h0
    · simp only [hk]
      have := priceAfter_lt _ _ _ hA hB h0
      exact mul_neg_of_neg_of_pos (div_neg_of_neg_of_pos (sub_neg.mpr this) hbefore) (by norm_num)

/-! ## Positive quantities -/

/-- Every recorded trade has a positive quantity. -/
theorem matchStep_trades_pos (b : Orderbook) (h : b.AllPositive)
    (ht : ∀ t ∈ b.trades, 0 < t.quantity) : ∀ t ∈ b.matchStep.trades, 0 < t.quantity := by
  unfold Orderbook.matchStep
  split
  · next bid bs ask as hb ha =>
    intro t htm
    simp only [List.mem_append, List.mem_singleton] at htm
    rcases htm with htm | rfl
    · exact ht t htm
    · exact lt_min (h.1 bid (by simp [hb])) (h.2 ask (by simp [ha]))
  · exact ht

theorem matchLoop_trades_pos (n : Nat) (b : Orderbook) (h : b.AllPositive)
    (ht : ∀ t ∈ b.trades, 0 < t.quantity) :
    ∀ t ∈ (Orderbook.matchLoop n b).trades, 0 < t.quantity := by
  induction n generalizing b with
  | zero => exact ht
  | succ n ih =>
    unfold Orderbook.matchLoop
    split_ifs
    · exact ih _ (matchStep_allPositive b h) (matchStep_trades_pos b h ht)
    · exact ht

theorem apply_positive (b : Orderbook) (c : Call) (hq : 0 < c.quantity) (h : b.AllPositive)
    (ht : ∀ t ∈ b.trades, 0 < t.quantity) :
    (b.apply c).AllPositive ∧ ∀ t ∈ (b.apply c).trades, 0 < t.quantity := by
  cases c with
  | bid p q tr =>
    exact ⟨matchLoop_allPositive _ _ (pushBid_allPositive b p q tr h hq),
      matchLoop_trades_pos _ _ (pushBid_allPositive b p q tr h hq) ht⟩
  | ask p q tr =>
    exact ⟨matchLoop_allPositive _ _ (pushAsk_allPositive b p q tr h hq),
      matchLoop_trades_pos _ _ (pushAsk_allPositive b p q tr h hq) ht⟩

theorem foldl_apply_positive (calls : List Call) (b : Orderbook)
    (hq : ∀ c ∈ calls, 0 < c.quantity) (h : b.AllPositive)
    (ht : ∀ t ∈ b.trades, 0 < t.quantity) :
    (calls.foldl Orderbook.apply b).AllPositive ∧
      ∀ t ∈ (calls.foldl Orderbook.apply b).trades, 0 < t.quantity := by
  induction calls generalizing b with
  | nil => exact ⟨h, ht⟩
  | cons c cs ih =>
    have hc := apply_positive b c (hq c (List.mem_cons_self _ _)) h ht
    exact ih _ (fun c' hc' => hq c' (List.mem_cons_of_mem _ hc')) hc.1 hc.2

/-- Claim C14: for every sequence of `addBid` / `addAsk` calls with strictly
positive quantities applied to an initially empty order book, every order
resting on either side after the last call has a positive quantity and every
recorded trade has a positive quantity; as the sequence is arbitrary this
holds after each call. -/
theorem run_quantities_positive (pair : String) (calls : List Call)
    (hq : ∀ c ∈ calls, 0 < c.quantity) :
    (∀ o ∈ (Orderbook.run pair calls).bids, 0 < o.quantity) ∧
    (∀ o ∈ (Orderbook.run pair calls).asks, 0 < o.quantity) ∧
    (∀ t ∈ (Orderbook.run pair calls).trades, 0 < t.quantity) := by
  have h := foldl_apply_positive calls (Orderbook.new pair) hq
    ⟨by simp [Orderbook.new], by simp [Orderbook.new]⟩ (by simp [Orderbook.new])
  exact ⟨h.1.1, h.1.2, h.2⟩

/-! ## Spread -/

/-- Claim C15: `getSpread()` returns `null` exactly when `bids` or `asks` is
empty; otherwise it returns `highestBid = bids[0].price`,
`lowestAsk = asks[0].price` and `spread = lowestAsk - highestBid`; the call
leaves the book unchanged, so a second call right after the first returns the
same result. -/
theorem getSpread_spec (b : Orderbook) :
    (b.getSpread = none ↔ b.bids = [] ∨ b.asks = []) ∧
    (∀ bid bs ask as, b.bids = bid :: bs → b.asks = ask :: as →
      ∃ s, b.getSpread = some s ∧ s.highestBid = bid.price ∧ s.lowestAsk = ask.price ∧
        s.spread = s.lowestAsk - s.highestBid) ∧
    (b.callGetSpread.2 = b ∧ b.callGetSpread.2.callGetSpread.1 = b.callGetSpread.1) := by
  refine ⟨?_, ?_, rfl, rfl⟩
  · cases hb : b.bids with
    | nil => simp [Orderbook.getSpread, hb]
    | cons bid bs =>
      cases ha : b.asks with
      | nil => simp [Orderbook.getSpread, hb, ha]
      | cons ask as => simp [Orderbook.getSpread, hb, ha]
  · intro bid bs ask as hb ha
    refine ⟨{ highestBid := bid.price, lowestAsk := ask.price,
              spread := ask.price - bid.price,
              spreadPercent := (ask.price - bid.price) / ask.price * 100 }, ?_, rfl, rfl, rfl⟩
    simp only [Orderbook.getSpread, hb, ha]


/-! ## Best single venue -/

theorem pairwise_insertLast_key {α : Type} (key : α → ℚ) (x : α) (l : List α)
    (h : l.Pairwise (fun a b => key a ≤ key b)) :
    (insertLast (fun a b => key a - key b) x l).Pairwise (fun a b => key a ≤ key b) := by
  induction l with
  | nil => simp [insertLast]
  | cons y ys ih =>
    rw [List.pairwise_cons] at h
    unfold insertLast
    split_ifs with hc
    · rw [sub_neg] at hc
      refine List.pairwise_cons.mpr ⟨?_, List.pairwise_cons.mpr h⟩
      intro z hz
      rcases List.mem_cons.mp hz with rfl | hz
      · exact hc.le
      · exact hc.le.trans (h.1 z hz)
    · rw [sub_neg, not_lt] at hc
      refine List.pairwise_cons.mpr ⟨?_, ih h.2⟩
      intro z hz
      rcases (mem_insertLast _ _ _ _).mp hz with rfl | hz
      · exact hc
      · exact h.1 z hz

theorem pairwise_jsSort_key {α : Type} (key : α → ℚ) (xs : List α) :
    (jsSort (fun a b => key a - key b) xs).Pairwise (fun a b => key a ≤ key b) := by
  have main : ∀ (ys acc : List α), acc.Pairwise (fun a b => key a ≤ key b) →
      (ys.foldl (fun a x => insertLast (fun a b => key a - key b) x a) acc).Pairwise
        (fun a b => key a ≤ key b) := by
    intro ys
    induction ys with
    | nil => intro acc h; simpa using h
    | cons y ys ih => intro acc h; exact ih _ (pairwise_insertLast_key key y acc h)
  exact main xs [] List.Pairwise.nil

theorem mem_quotes (dexes : List SimpleDEX) (amount : ℚ) (q : DexQuote) :
    q ∈ quotes dexes amount ↔ ∃ d ∈ dexes, d.quoteForA amount = some q := by
  unfold quotes
  rw [mem_jsSort, List.reduceOption_mem_iff, List.mem_map]

theorem quotes_sorted (dexes : List SimpleDEX) (amount : ℚ) :
    (quotes dexes amount).Pairwise (fun a b => a.amountBIn ≤ b.amountBIn) :=
  pairwise_jsSort_key DexQuote.amountBIn _

theorem quoteForA_none (d : SimpleDEX) (amount : ℚ) (h : d.reserveA ≤ amount) :
    d.quoteForA amount = none := by
  simp [SimpleDEX.quoteForA, h]

theorem quoteForA_isSome (d : SimpleDEX) (amount : ℚ) (h : amount < d.reserveA) :
    ∃ q, d.quoteForA amount = some q := by
  simp [SimpleDEX.quoteForA, not_le.mpr h]

theorem quoteForA_some_lt (d : SimpleDEX) (amount : ℚ) (q : DexQuote)
    (h : d.quoteForA amount = some q) : amount < d.reserveA := by
  by_contra hc
  rw [quoteForA_none d amount (not_lt.mp hc)] at h
  cases h

/-- Claim C16 (best single venue): when at least one venue has
`reserveA > amount`, the selection `quotes[0]` exists, it is the quote of a
venue with `reserveA > amount`, its fee-inclusive `amountBIn` is at most the
one quoted by every venue with `reserveA > amount`, and it is not the quote of
a venue with `reserveA ≤ amount` (such a venue returns `null`). -/
theorem best_single_is_cheapest (dexes : List SimpleDEX) (amount : ℚ)
    (h : ∃ d ∈ dexes, amount < d.reserveA) :
    ∃ q, bestSingle dexes amount = some q ∧ bestSingleVenue dexes amount = .ok q ∧
      (∃ d ∈ dexes, amount < d.reserveA ∧ d.quoteForA amount = some q) ∧
      (∀ d ∈ dexes, amount < d.reserveA →
        ∃ q1, d.quoteForA amount = some q1 ∧ q.amountBIn ≤ q1.amountBIn) ∧
      (∀ d ∈ dexes, d.reserveA ≤ amount → d.quoteForA amount ≠ some q) := by
  obtain ⟨d0, hd0, hlt0⟩ := h
  obtain ⟨q0, hq0⟩ := quoteForA_isSome d0 amount hlt0
  have hmem0 : q0 ∈ quotes dexes amount := (mem_quotes _ _ _).mpr ⟨d0, hd0, hq0⟩
  cases hqs : quotes dexes amount with
  | nil => rw [hqs] at hmem0; cases hmem0
  | cons q qs =>
    have hsorted := quotes_sorted dexes amount
    rw [hqs, List.pairwise_cons] at hsorted
    have hq : q ∈ quotes dexes amount := by rw [hqs]; exact List.mem_cons_self _ _
    obtain ⟨d, hd, hdq⟩ := (mem_quotes _ _ _).mp hq
    have hbest : bestSingle dexes amount = some q := by simp [bestSingle, hqs]
    refine ⟨q, hbest, by simp [bestSingleVenue, hbest],
      ⟨d, hd, quoteForA_some_lt d amount q hdq, hdq⟩, ?_, ?_⟩
    · intro d1 hd1 hlt1
      obtain ⟨q1, hq1⟩ := quoteForA_isSome d1 amount hlt1
      refine ⟨q1, hq1, ?_⟩
      have hm : q1 ∈ quotes dexes amount := (mem_quotes _ _ _).mpr ⟨d1, hd1, hq1⟩
      rw [hqs] at hm
      rcases List.mem_cons.mp hm with rfl | hm
      · exact le_rfl
      · exact hsorted.1 q1 hm
    · intro d1 _ hle1
      rw [quoteForA_none d1 amount hle1]
      simp

/-- Claim C17, refuted as stated: with the single venue ORCA (`reserveA = 200`)
and the amount 200 no venue has enough liquidity, and the selection ends in the
engine's `TypeError` on reading `bestSingle.dex`, not in an error raised by the
program for insufficient liquidity. -/
theorem empty_selection_is_typeError :
    (200 : ℚ) ≤ (SimpleDEX.new "ORCA" "SOL" "USDC" 200 29000).reserveA ∧
    bestSingleVenue [SimpleDEX.new "ORCA" "SOL" "USDC" 200 29000] 200 = .error Thrown.typeError ∧
    ¬ ∃ message,
      bestSingleVenue [SimpleDEX.new "ORCA" "SOL" "USDC" 200 29000] 200
        = .error (Thrown.error message) := by
  have h : bestSingleVenue [SimpleDEX.new "ORCA" "SOL" "USDC" 200 29000] 200
      = .error Thrown.typeError := by
    simp [bestSingleVenue, bestSingle, quotes, SimpleDEX.quoteForA, SimpleDEX.new, jsSort]
  refine ⟨by simp [SimpleDEX.new], h, ?_⟩
  rintro ⟨message, hm⟩
  rw [h] at hm
  cases hm

/-- Claim C17, amended: when no venue has `reserveA > amount`, every
`quoteForA(amount)` returns `null`, the list `quotes` is empty and
`bestSingle = quotes[0]` is `undefined`: no quote is selected. -/
theorem no_venue_no_quote (dexes : List SimpleDEX) (amount : ℚ)
    (h : ∀ d ∈ dexes, d.reserveA ≤ amount) :
    (∀ d ∈ dexes, d.quoteForA amount = none) ∧ quotes dexes amount = [] ∧
      bestSingle dexes amount = none := by
  have h1 : ∀ d ∈ dexes, d.quoteForA amount = none :=
    fun d hd => quoteForA_none d amount (h d hd)
  have h2 : quotes dexes amount = [] := by
    apply List.eq_nil_iff_forall_not_mem.mpr
    intro q hq
    obtain ⟨d, hd, hdq⟩ := (mem_quotes _ _ _).mp hq
    rw [h1 d hd] at hdq
    cases hdq
  exact ⟨h1, h2, by simp [bestSingle, h2]⟩


/-! ## Proportional split -/

theorem foldl_reserveA (l : List SimpleDEX) (acc : ℚ) :
    l.foldl (fun sum d => sum + d.reserveA) acc = acc + (l.map SimpleDEX.reserveA).sum := by
  induction l generalizing acc with
  | nil => simp
  | cons d ds ih => rw [List.foldl_cons, ih, List.map_cons, List.sum_cons]; ring

theorem totalLiquidity_eq_sum (dexes : List SimpleDEX) :
    totalLiquidity dexes = (dexes.map SimpleDEX.reserveA).sum := by
  rw [totalLiquidity, foldl_reserveA, zero_add]

theorem totalLiquidity_pos (dexes : List SimpleDEX) (hne : dexes ≠ [])
    (hpos : ∀ d ∈ dexes, 0 < d.reserveA) : 0 < totalLiquidity dexes := by
  rw [totalLiquidity_eq_sum]
  cases dexes with
  | nil => exact absurd rfl hne
  | cons d ds =>
    rw [List.map_cons, List.sum_cons]
    have h1 : 0 < d.reserveA := hpos d (List.mem_cons_self _ _)
    have h2 : 0 ≤ (ds.map SimpleDEX.reserveA).sum := by
      apply List.sum_nonneg
      intro x hx
      obtain ⟨e, he, rfl⟩ := List.mem_map.mp hx
      exact (hpos e (List.mem_cons_of_mem _ he)).le
    linarith

theorem sum_map_scaled (l : List SimpleDEX) (t c : ℚ) :
    (l.map (fun d => d.reserveA / t * c)).sum = (l.map SimpleDEX.reserveA).sum / t * c := by
  induction l with
  | nil => simp
  | cons d ds ih => simp only [List.map_cons, List.sum_cons, ih]; ring

/-! ## Total of the split -/

theorem find_by_name (dexes : List SimpleDEX)
    (hn : dexes.Pairwise (fun a b => a.name ≠ b.name)) :
    ∀ d ∈ dexes, dexes.find? (fun x => x.name == d.name) = some d := by
  induction dexes with
  | nil => intro d hd; cases hd
  | cons e es ih =>
    rw [List.pairwise_cons] at hn
    intro d hd
    rcases List.mem_cons.mp hd with rfl | hd
    · simp [List.find?]
    · have hne : e.name ≠ d.name := hn.1 d hd
      have hb : (e.name == d.name) = false := by simpa using hne
      rw [List.find?_cons, hb]
      exact ih hn.2 d hd

theorem foldlM_aggregatorStep (dexes ds : List SimpleDEX) (t c acc : ℚ)
    (hfind : ∀ d ∈ ds, dexes.find? (fun x => x.name == d.name) = some d) :
    (ds.map (fun dex => Split.mk dex.name (dex.reserveA / t) (dex.reserveA / t * c))).foldlM
        (aggregatorStep dexes) acc
      = .ok (acc + (ds.map (fun dex =>
          match dex.quoteForA ((dex.reserveA / t) * c) with
          | some q => q.amountBIn
          | none => 0)).sum) := by
  induction ds generalizing acc with
  | nil => simp [List.foldlM]; rfl
  | cons d ds ih =>
    have hd := hfind d (List.mem_cons_self _ _)
    have ih1 := fun a => ih a (fun e he => hfind e (List.mem_cons_of_mem _ he))
    simp only [List.map_cons, List.foldlM_cons, List.sum_cons]
    simp only [aggregatorStep, hd]
    cases hq : d.quoteForA (d.reserveA / t * c) with
    | none =>
      have hbind : ∀ (a : ℚ) (f : ℚ → Except Thrown ℚ), (Except.ok a >>= f) = f a :=
        fun _ _ => rfl
      simp only [hbind, ih1]
      simp
    | some q =>
      have hbind : ∀ (a : ℚ) (f : ℚ → Except Thrown ℚ), (Except.ok a >>= f) = f a :=
        fun _ _ => rfl
      simp only [hbind, ih1]
      simp [add_assoc]

/-- Claim C19, amended: for every list of venues with pairwise distinct names
and every `totalAmountA`, `aggregatorQuote` ends normally and its `totalBIn` is
the sum over the venues of the fee-inclusive `amountBIn` that the venue itself
quotes for its own allocated amount. -/
theorem split_total_is_own_quotes (dexes : List SimpleDEX) (totalAmountA : ℚ)
    (hn : dexes.Pairwise (fun a b => a.name ≠ b.name)) :
    aggregatorQuote dexes totalAmountA = .ok (ownQuoteTotal dexes totalAmountA) := by
  have h := foldlM_aggregatorStep dexes dexes (totalLiquidity dexes) totalAmountA 0
    (find_by_name dexes hn)
  rw [zero_add] at h
  exact h


theorem aggregatorQuote_same_name :
    aggregatorQuote [SimpleDEX.new "X" "A" "B" 1 1, SimpleDEX.new "X" "A" "B" 1 2] 1
      = .ok (1003 / 500) := by
  have hbind : ∀ (a : ℚ) (f : ℚ → Except Thrown ℚ), (Except.ok a >>= f) = f a :=
    fun _ _ => rfl
  simp only [aggregatorQuote, aggregatorSplits, totalLiquidity, SimpleDEX.new, List.map_cons,
    List.map_nil, List.foldl_cons, List.foldl_nil, List.foldlM_cons, List.foldlM_nil,
    aggregatorStep, List.find?_cons, beq_self_eq_true, SimpleDEX.quoteForA]
  norm_num [hbind]
  rfl

/-- Claim C19, refuted as stated: for two venues that carry the same name, with
reserves (1, 1) and (1, 2), and `totalAmountA = 1` the total computed by
`aggregatorQuote` (1003/500, both allocations quoted by the first venue) is
not the sum of what each venue quotes for its own allocation (3009/1000). -/
theorem split_total_uses_first_name :
    aggregatorQuote [SimpleDEX.new "X" "A" "B" 1 1, SimpleDEX.new "X" "A" "B" 1 2] 1
      ≠ .ok (ownQuoteTotal [SimpleDEX.new "X" "A" "B" 1 1, SimpleDEX.new "X" "A" "B" 1 2] 1) := by
  have h2 : ownQuoteTotal [SimpleDEX.new "X" "A" "B" 1 1, SimpleDEX.new "X" "A" "B" 1 2] 1
      = 3009 / 1000 := by
    simp only [ownQuoteTotal, totalLiquidity, SimpleDEX.new, List.map_cons, List.map_nil,
      List.foldl_cons, List.foldl_nil, SimpleDEX.quoteForA, List.sum_cons, List.sum_nil]
    norm_num
  rw [aggregatorQuote_same_name, h2]
  intro h
  injection h with h
  norm_num at h


theorem bestSingle_two :
    bestSingle [SimpleDEX.new "Cheap" "A" "B" 2 2, SimpleDEX.new "Dear" "A" "B" 2 200] 1
      = some { dex := "Cheap", amountAOut := 1, amountBIn := 1003 / 500,
               effectivePrice := 1003 / 500, priceImpact := 300, liquidity := 2 } := by
  simp only [bestSingle, quotes, SimpleDEX.new, List.map_cons, List.map_nil,
    SimpleDEX.quoteForA, List.reduceOption_cons_of_some, List.reduceOption_nil]
  norm_num [jsSort, insertLast, cmpQuote]

theorem aggregatorQuote_two :
    aggregatorQuote [SimpleDEX.new "Cheap" "A" "B" 2 2, SimpleDEX.new "Dear" "A" "B" 2 200] 1
      = .ok (101303 / 1500) := by
  have hbind : ∀ (a : ℚ) (f : ℚ → Except Thrown ℚ), (Except.ok a >>= f) = f a :=
    fun _ _ => rfl
  have hne : ("Cheap" == "Dear") = false := by decide
  simp only [aggregatorQuote, aggregatorSplits, totalLiquidity, SimpleDEX.new, List.map_cons,
    List.map_nil, List.foldl_cons, List.foldl_nil, List.foldlM_cons, List.foldlM_nil,
    aggregatorStep, List.find?_cons, beq_self_eq_true, hne, SimpleDEX.quoteForA]
  norm_num [hbind]
  rfl

/-- Claim C20 (the split is not cost-optimal): there are venues with positive
reserves and distinct names, here (2, 2) and (2, 200), and an amount a single
venue can serve, here 1, for which the total paid under the proportional split
is strictly greater than the best single-venue fee-inclusive cost. -/
theorem split_not_optimal :
    ∃ (dexes : List SimpleDEX) (amount : ℚ) (q : DexQuote) (total : ℚ),
      (∀ d ∈ dexes, 0 < d.reserveA ∧ 0 < d.reserveB ∧ d.k = d.reserveA * d.reserveB) ∧
      dexes.Pairwise (fun a b => a.name ≠ b.name) ∧
      (∃ d ∈ dexes, amount < d.reserveA) ∧
      bestSingle dexes amount = some q ∧
      aggregatorQuote dexes amount = .ok total ∧
      q.amountBIn < total := by
  refine ⟨[SimpleDEX.new "Cheap" "A" "B" 2 2, SimpleDEX.new "Dear" "A" "B" 2 200], 1, _, _,
    ?_, ?_, ?_, bestSingle_two, aggregatorQuote_two, ?_⟩
  · intro d hd
    simp only [List.mem_cons, List.mem_singleton, List.not_mem_nil, or_false] at hd
    rcases hd with rfl | rfl <;> norm_num [SimpleDEX.new]
  · simp [SimpleDEX.new]
  · exact ⟨_, List.mem_cons_self _ _, by norm_num [SimpleDEX.new]⟩
  · norm_num


/-! ## Instances (second part) -/

theorem swap_commits_quote_witness :
    (0 : ℚ) < (LiquidityPool.new "ETH" "USDT" 10 1000).reserveA ∧
    (0 : ℚ) < (LiquidityPool.new "ETH" "USDT" 10 1000).reserveB ∧
    (1 : ℚ) < (LiquidityPool.new "ETH" "USDT" 10 1000).reserveA ∧
    ((LiquidityPool.new "ETH" "USDT" 10 1000).swapBforA 1).2.reserveA = 9 ∧
    ((LiquidityPool.new "ETH" "USDT" 10 1000).swapBforA 1).2.reserveB = 10000 / 9 := by
  have h1 : (0 : ℚ) < (LiquidityPool.new "ETH" "USDT" 10 1000).reserveA := by
    norm_num [LiquidityPool.new]
  have h2 : (0 : ℚ) < (LiquidityPool.new "ETH" "USDT" 10 1000).reserveB := by
    norm_num [LiquidityPool.new]
  have h3 : (1 : ℚ) < (LiquidityPool.new "ETH" "USDT" 10 1000).reserveA := by
    norm_num [LiquidityPool.new]
  obtain ⟨q, hq, hrA, hrB, -⟩ :=
    (swap_commits_quote (LiquidityPool.new "ETH" "USDT" 10 1000) 1 h1 h2 h3).1
  rw [getAmountBForA_ok _ _ h3] at hq
  injection hq with hq
  subst hq
  refine ⟨h1, h2, h3, ?_, ?_⟩
  · rw [hrA]; norm_num [LiquidityPool.new]
  · rw [hrB]; norm_num [LiquidityPool.new]

theorem price_monotone_witness :
    (0 : ℚ) < (LiquidityPool.new "ETH" "USDT" 100 10000).reserveA ∧
    (0 : ℚ) < (LiquidityPool.new "ETH" "USDT" 100 10000).reserveB ∧
    (0 : ℚ) < 10 ∧ (10 : ℚ) < (LiquidityPool.new "ETH" "USDT" 100 10000).reserveA ∧
    (-10 : ℚ) < 0 ∧
    (∃ r, ((LiquidityPool.new "ETH" "USDT" 100 10000).swapBforA 10).1 = .ok r ∧
      (LiquidityPool.new "ETH" "USDT" 100 10000).getPriceAinB < r.priceAfter) ∧
    (∃ r, ((LiquidityPool.new "ETH" "USDT" 100 10000).swapBforA (-10)).1 = .ok r ∧
      r.priceAfter < (LiquidityPool.new "ETH" "USDT" 100 10000).getPriceAinB) := by
  have h1 : (0 : ℚ) < (LiquidityPool.new "ETH" "USDT" 100 10000).reserveA := by
    norm_num [LiquidityPool.new]
  have h2 : (0 : ℚ) < (LiquidityPool.new "ETH" "USDT" 100 10000).reserveB := by
    norm_num [LiquidityPool.new]
  have h4 : (10 : ℚ) < (LiquidityPool.new "ETH" "USDT" 100 10000).reserveA := by
    norm_num [LiquidityPool.new]
  obtain ⟨r, hr, -, hlt, -⟩ :=
    (price_monotone (LiquidityPool.new "ETH" "USDT" 100 10000) 10
      (LiquidityPool.Reachable.init "ETH" "USDT" 100 10000) h1 h2).1 (by norm_num) h4
  obtain ⟨r1, hr1, -, hlt1, -⟩ :=
    (price_monotone (LiquidityPool.new "ETH" "USDT" 100 10000) (-10)
      (LiquidityPool.Reachable.init "ETH" "USDT" 100 10000) h1 h2).2 (by norm_num)
  exact ⟨h1, h2, by norm_num, h4, by norm_num, ⟨r, hr, hlt⟩, ⟨r1, hr1, hlt1⟩⟩

theorem run_quantities_positive_witness :
    (∀ c ∈ [Call.ask 135 10 "a", Call.ask 134 5 "b", Call.bid 134 3 "c"], 0 < c.quantity) ∧
    (∀ o ∈ (Orderbook.run "ETH/USDT"
        [Call.ask 135 10 "a", Call.ask 134 5 "b", Call.bid 134 3 "c"]).bids, 0 < o.quantity) ∧
    (∀ o ∈ (Orderbook.run "ETH/USDT"
        [Call.ask 135 10 "a", Call.ask 134 5 "b", Call.bid 134 3 "c"]).asks, 0 < o.quantity) ∧
    (∀ t ∈ (Orderbook.run "ETH/USDT"
        [Call.ask 135 10 "a", Call.ask 134 5 "b", Call.bid 134 3 "c"]).trades,
      0 < t.quantity) := by
  have hq : ∀ c ∈ [Call.ask 135 10 "a", Call.ask 134 5 "b", Call.bid 134 3 "c"],
      0 < c.quantity := by
    intro c hc
    simp only [List.mem_cons, List.mem_singleton, List.not_mem_nil, or_false] at hc
    rcases hc with rfl | rfl | rfl <;> norm_num [Call.quantity]
  exact ⟨hq, run_quantities_positive "ETH/USDT" _ hq⟩

theorem getSpread_spec_witness :
    ∃ s, Orderbook.getSpread
        { pair := "ETH/USDT", bids := [{ price := 133, quantity := 12, trader := "m1" }],
          asks := [{ price := 134, quantity := 15, trader := "m2" }], trades := [] } = some s ∧
      s.highestBid = 133 ∧ s.lowestAsk = 134 ∧ s.spread = s.lowestAsk - s.highestBid :=
  (getSpread_spec
    { pair := "ETH/USDT", bids := [{ price := 133, quantity := 12, trader := "m1" }],
      asks := [{ price := 134, quantity := 15, trader := "m2" }], trades := [] }).2.1
    _ _ _ _ rfl rfl

theorem scriptDexes_liquid : ∃ d ∈ scriptDexes, (10 : ℚ) < d.reserveA :=
  ⟨SimpleDEX.new "Raydium" "SOL" "USDC" 500 75000, by simp [scriptDexes],
    by norm_num [SimpleDEX.new]⟩

theorem best_single_is_cheapest_witness :
    (∃ d ∈ scriptDexes, (10 : ℚ) < d.reserveA) ∧
    ∃ q, bestSingle scriptDexes 10 = some q ∧ bestSingleVenue scriptDexes 10 = .ok q ∧
      ∃ d ∈ scriptDexes, (10 : ℚ) < d.reserveA ∧ d.quoteForA 10 = some q := by
  obtain ⟨q, h1, h2, h3, -⟩ := best_single_is_cheapest scriptDexes 10 scriptDexes_liquid
  exact ⟨scriptDexes_liquid, q, h1, h2, h3⟩

theorem scriptDexes_small : ∀ d ∈ scriptDexes, d.reserveA ≤ 2000 := by
  intro d hd
  simp only [scriptDexes, List.mem_cons, List.mem_singleton, List.not_mem_nil, or_false] at hd
  rcases hd with rfl | rfl | rfl <;> norm_num [SimpleDEX.new]

theorem no_venue_no_quote_witness :
    (∀ d ∈ scriptDexes, d.reserveA ≤ 2000) ∧ quotes scriptDexes 2000 = [] ∧
      bestSingle scriptDexes 2000 = none :=
  ⟨scriptDexes_small, (no_venue_no_quote scriptDexes 2000 scriptDexes_small).2⟩

theorem scriptDexes_pos : ∀ d ∈ scriptDexes, 0 < d.reserveA := by
  intro d hd
  simp only [scriptDexes, List.mem_cons, List.mem_singleton, List.not_mem_nil, or_false] at hd
  rcases hd with rfl | rfl | rfl <;> norm_num [SimpleDEX.new]

theorem scriptDexes_names : scriptDexes.Pairwise (fun a b => a.name ≠ b.name) := by
  simp [scriptDexes, SimpleDEX.new]

theorem split_total_is_own_quotes_witness :
    scriptDexes.Pairwise (fun a b => a.name ≠ b.name) ∧
    aggregatorQuote scriptDexes 10 = .ok (ownQuoteTotal scriptDexes 10) :=
  ⟨scriptDexes_names, split_total_is_own_quotes scriptDexes 10 scriptDexes_names⟩

/-! ## Bound on the iterations of the matching loop -/

theorem matchStep_removes_head {b : Orderbook} (h : b.crossed = true) :
    b.matchStep.bids = b.bids.tail ∨ b.matchStep.asks = b.asks.tail := by
  obtain ⟨bid, bs, ask, as, hb, ha, -⟩ := crossed_cons h
  simp only [Orderbook.matchStep, hb, ha, List.tail_cons]
  rcases min_choice bid.quantity ask.quantity with hm | hm
  · left; simp [hm]
  · right; simp [hm]

theorem matchIterations_le (n : Nat) (b : Orderbook) :
    Orderbook.matchIterations n b ≤ b.bids.length + b.asks.length := by
  induction n generalizing b with
  | zero => simp [Orderbook.matchIterations]
  | succ n ih =>
    unfold Orderbook.matchIterations
    by_cases hc : b.crossed = true
    · rw [if_pos hc]
      have h1 := ih b.matchStep
      have h2 := matchStep_length_lt hc
      omega
    · rw [if_neg hc]
      omega

theorem matchLoop_trades_length (n : Nat) (b : Orderbook) :
    (Orderbook.matchLoop n b).trades.length = b.trades.length + Orderbook.matchIterations n b := by
  induction n generalizing b with
  | zero => simp [Orderbook.matchLoop, Orderbook.matchIterations]
  | succ n ih =>
    unfold Orderbook.matchLoop Orderbook.matchIterations
    by_cases hc : b.crossed = true
    · rw [if_pos hc, if_pos hc, ih]
      obtain ⟨bid, bs, ask, as, hb, ha, -⟩ := crossed_cons hc
      rw [matchStep_trades hb ha]
      simp
      omega
    · rw [if_neg hc, if_neg hc]
      simp

/-! ## Scenarios on the order book -/

theorem run_scenarioA :
    Orderbook.run "ETH/USDT"
        [Call.ask 135 10 "anonymous", Call.ask 134 5 "anonymous", Call.bid 134 3 "anonymous"]
      = { pair := "ETH/USDT", bids := [],
          asks := [{ price := 134, quantity := 2, trader := "anonymous" },
                   { price := 135, quantity := 10, trader := "anonymous" }],
          trades := [{ price := 134, quantity := 3, buyer := "anonymous",
                       seller := "anonymous" }] } := by
  simp [Orderbook.run, Orderbook.apply, Orderbook.addAsk, Orderbook.addBid, Orderbook.pushAsk,
    Orderbook.pushBid, Orderbook.new, jsSort, insertLast, cmpAsk, cmpBid,
    Orderbook.matchOrders, Orderbook.matchLoop, Orderbook.crossed, Orderbook.matchStep]
  norm_num

/-- Claim C23 (scenario A): from the empty book, after `addAsk(135, 10)`,
`addAsk(134, 5)`, `addBid(134, 3)` (trader left at its default) the trade tape
holds exactly one trade, of quantity 3 at price 134, the ask side is
`[{134, 2}, {135, 10}]` in that order and the bid side is empty. -/
theorem scenarioA :
    (Orderbook.run "ETH/USDT"
        [Call.ask 135 10 "anonymous", Call.ask 134 5 "anonymous",
         Call.bid 134 3 "anonymous"]).trades
      = [{ price := 134, quantity := 3, buyer := "anonymous", seller := "anonymous" }] ∧
    (Orderbook.run "ETH/USDT"
        [Call.ask 135 10 "anonymous", Call.ask 134 5 "anonymous",
         Call.bid 134 3 "anonymous"]).asks
      = [{ price := 134, quantity := 2, trader := "anonymous" },
         { price := 135, quantity := 10, trader := "anonymous" }] ∧
    (Orderbook.run "ETH/USDT"
        [Call.ask 135 10 "anonymous", Call.ask 134 5 "anonymous",
         Call.bid 134 3 "anonymous"]).bids = [] := by
  rw [run_scenarioA]
  exact ⟨rfl, rfl, rfl⟩

theorem asks_x_then_y :
    ((Orderbook.run "ETH/USDT" [Call.bid 110 5 "m"]).apply (Call.ask 100 5 "x")).apply
        (Call.ask 105 5 "y")
      = { pair := "ETH/USDT", bids := [],
          asks := [{ price := 105, quantity := 5, trader := "y" }],
          trades := [{ price := 100, quantity := 5, buyer := "m", seller := "x" }] } := by
  norm_num [Orderbook.run, Orderbook.apply, Orderbook.addAsk, Orderbook.addBid,
    Orderbook.pushAsk, Orderbook.pushBid, Orderbook.new, jsSort, insertLast, cmpAsk, cmpBid,
    Orderbook.matchOrders, Orderbook.matchLoop, Orderbook.crossed, Orderbook.matchStep]

theorem asks_y_then_x :
    ((Orderbook.run "ETH/USDT" [Call.bid 110 5 "m"]).apply (Call.ask 105 5 "y")).apply
        (Call.ask 100 5 "x")
      = { pair := "ETH/USDT", bids := [],
          asks := [{ price := 100, quantity := 5, trader := "x" }],
          trades := [{ price := 105, quantity := 5, buyer := "m", seller := "y" }] } := by
  norm_num [Orderbook.run, Orderbook.apply, Orderbook.addAsk, Orderbook.addBid,
    Orderbook.pushAsk, Orderbook.pushBid, Orderbook.new, jsSort, insertLast, cmpAsk, cmpBid,
    Orderbook.matchOrders, Orderbook.matchLoop, Orderbook.crossed, Orderbook.matchStep]

/-- Claim C22 (submissions do not commute): on the book holding the single bid
(110, 5, "m"), submitting the asks (100, 5, "x") and (105, 5, "y") in the two
possible orders appends trades that differ in price and in seller, and leaves
different ask sides. -/
theorem submissions_do_not_commute :
    ∃ (b : Orderbook) (c1 c2 : Call) (t1 t2 : Trade),
      ((b.apply c1).apply c2).trades = b.trades ++ [t1] ∧
      ((b.apply c2).apply c1).trades = b.trades ++ [t2] ∧
      t1.price ≠ t2.price ∧ t1.seller ≠ t2.seller ∧
      ((b.apply c1).apply c2).trades ≠ ((b.apply c2).apply c1).trades ∧
      ((b.apply c1).apply c2).asks ≠ ((b.apply c2).apply c1).asks := by
  refine ⟨Orderbook.run "ETH/USDT" [Call.bid 110 5 "m"], Call.ask 100 5 "x", Call.ask 105 5 "y",
    { price := 100, quantity := 5, buyer := "m", seller := "x" },
    { price := 105, quantity := 5, buyer := "m", seller := "y" }, ?_, ?_, ?_, ?_, ?_, ?_⟩
  · rw [asks_x_then_y]
    simp [Orderbook.run, Orderbook.apply, Orderbook.addBid, Orderbook.pushBid, Orderbook.new,
      jsSort, insertLast, Orderbook.matchOrders, Orderbook.matchLoop, Orderbook.crossed]
  · rw [asks_y_then_x]
    simp [Orderbook.run, Orderbook.apply, Orderbook.addBid, Orderbook.pushBid, Orderbook.new,
      jsSort, insertLast, Orderbook.matchOrders, Orderbook.matchLoop, Orderbook.crossed]
  · norm_num
  · decide
  · rw [asks_x_then_y, asks_y_then_x]
    simp
  · rw [asks_x_then_y, asks_y_then_x]
    simp


/-! ## Price impact and pool size -/

theorem priceImpact_closed_form (rA rB a : ℚ) (hA : 0 < rA) (hB : 0 < rB) (h : a < rA) :
    (rA * rB / (rA - a) / (rA - a) - rB / rA) / (rB / rA) * 100
      = ((rA / (rA - a)) ^ 2 - 1) * 100 := by
  have hd : rA - a ≠ 0 := (sub_pos.mpr h).ne'
  have hA0 : rA ≠ 0 := hA.ne'
  have hB0 : rB ≠ 0 := hB.ne'
  field_simp
  ring

theorem ratio_lt_of_reserve_lt (r1 r2 a : ℚ) (h0 : 0 < a) (h1 : a < r1) (h12 : r1 < r2) :
    r2 / (r2 - a) < r1 / (r1 - a) := by
  have hd1 : 0 < r1 - a := sub_pos.mpr h1
  have hd2 : 0 < r2 - a := by linarith
  rw [div_lt_div_iff₀ hd2 hd1]
  nlinarith

/-- Claim C24, amended (larger pool, smaller price impact): in exact
arithmetic, for `a > 0` and two pools with `a < reserveA1 < reserveA2` and
positive `reserveB`, the `priceImpact` of buying `a` is
`((reserveA / (reserveA - a))^2 - 1) * 100` in each pool, an expression
without `reserveB`, and it is strictly greater in pool 1 than in pool 2. -/
theorem larger_pool_smaller_impact (p1 p2 : LiquidityPool) (a : ℚ)
    (hp1 : p1.Reachable) (hp2 : p2.Reachable)
    (hB1 : 0 < p1.reserveB) (hB2 : 0 < p2.reserveB)
    (h0 : 0 < a) (h1 : a < p1.reserveA) (h12 : p1.reserveA < p2.reserveA) :
    ∃ r1 r2, (p1.swapBforA a).1 = .ok r1 ∧ (p2.swapBforA a).1 = .ok r2 ∧
      r1.priceImpact = ((p1.reserveA / (p1.reserveA - a)) ^ 2 - 1) * 100 ∧
      r2.priceImpact = ((p2.reserveA / (p2.reserveA - a)) ^ 2 - 1) * 100 ∧
      r2.priceImpact < r1.priceImpact := by
  have hA1 : 0 < p1.reserveA := by linarith
  have hA2 : 0 < p2.reserveA := by linarith
  have h2 : a < p2.reserveA := by linarith
  have e1 := priceImpact_closed_form p1.reserveA p1.reserveB a hA1 hB1 h1
  have e2 := priceImpact_closed_form p2.reserveA p2.reserveB a hA2 hB2 h2
  rw [swapBforA_ok p1 a h1, swapBforA_ok p2 a h2]
  refine ⟨_, _, rfl, rfl, ?_, ?_, ?_⟩
  · simp only [(reachable_inv hp1).1]; exact e1
  · simp only [(reachable_inv hp2).1]; exact e2
  · simp only [(reachable_inv hp1).1, (reachable_inv hp2).1]
    rw [e1, e2]
    have hr := ratio_lt_of_reserve_lt p1.reserveA p2.reserveA a h0 h1 h12
    have hpos : 0 < p2.reserveA / (p2.reserveA - a) := div_pos hA2 (by linarith)
    have hsq : (p2.reserveA / (p2.reserveA - a)) ^ 2 < (p1.reserveA / (p1.reserveA - a)) ^ 2 :=
      pow_lt_pow_left₀ hr hpos.le (by norm_num)
    linarith

/-! ## Path independence -/

/-- Claim C25, amended (path independence): in exact arithmetic, on a pool with
positive reserves and for `a < reserveA`, `a + b < reserveA`, the swaps
`swapBforA(a)` then `swapBforA(b)` both succeed and leave the same `reserveA`
and `reserveB` as the single `swapBforA(a + b)`, and their two `amountBPaid`
sum to the `amountBPaid` of the single swap. -/
theorem swaps_compose (p : LiquidityPool) (a b : ℚ)
    (_hA : 0 < p.reserveA) (_hB : 0 < p.reserveB)
    (ha : a < p.reserveA) (hab : a + b < p.reserveA) :
    ∃ r1 r2 r, (p.swapBforA a).1 = .ok r1 ∧
      ((p.swapBforA a).2.swapBforA b).1 = .ok r2 ∧
      (p.swapBforA (a + b)).1 = .ok r ∧
      ((p.swapBforA a).2.swapBforA b).2.reserveA = (p.swapBforA (a + b)).2.reserveA ∧
      ((p.swapBforA a).2.swapBforA b).2.reserveB = (p.swapBforA (a + b)).2.reserveB ∧
      r1.amountBPaid + r2.amountBPaid = r.amountBPaid := by
  have hb : b < (p.swapBforA a).2.reserveA := by
    rw [swapBforA_ok p a ha]
    show b < p.reserveA - a
    linarith
  have h2 := swapBforA_ok (p.swapBforA a).2 b hb
  rw [h2, swapBforA_ok p (a + b) hab]
  rw [swapBforA_ok p a ha]
  refine ⟨_, _, _, rfl, rfl, rfl, ?_, ?_, ?_⟩
  · show p.reserveA - a - b = p.reserveA - (a + b)
    ring
  · show p.k / (p.reserveA - a - b) = p.k / (p.reserveA - (a + b))
    rw [sub_sub]
  · show (p.k / (p.reserveA - a) - p.reserveB) * (1 + p.feePercent) +
        (p.k / (p.reserveA - a - b) - p.k / (p.reserveA - a)) * (1 + p.feePercent)
      = (p.k / (p.reserveA - (a + b)) - p.reserveB) * (1 + p.feePercent)
    rw [sub_sub]
    ring


/-! ## The three pricing routines -/

/-! ## Slippage and the fee -/

/-- Claim C29, amended (slippage): in exact arithmetic, on a pool with positive
reserves and for `0 < a < reserveA`, the average price before the fee,
`amountBIn / a`, equals `reserveB / (reserveA - a)` and lies strictly between
`reserveB / reserveA` and `newReserveB / newReserveA`; moreover
`amountBIn > a * priceBefore > 0` and `amountBWithFee > amountBIn`. -/
theorem slippage_bounds (p : LiquidityPool) (a : ℚ) (hp : p.Reachable)
    (hA : 0 < p.reserveA) (hB : 0 < p.reserveB) (h0 : 0 < a) (h : a < p.reserveA) :
    ∃ q, p.getAmountBForA a = .ok q ∧
      q.amountBIn / a = p.reserveB / (p.reserveA - a) ∧
      p.reserveB / p.reserveA < q.amountBIn / a ∧
      q.amountBIn / a < q.newReserveB / q.newReserveA ∧
      0 < a * (p.reserveB / p.reserveA) ∧
      a * (p.reserveB / p.reserveA) < q.amountBIn ∧
      q.amountBIn < q.amountBWithFee := by
  have hk := (reachable_inv hp).1
  have hf := (reachable_inv hp).2
  have hd : 0 < p.reserveA - a := sub_pos.mpr h
  have hin : p.k / (p.reserveA - a) - p.reserveB = p.reserveB * a / (p.reserveA - a) := by
    rw [hk]; field_simp; ring
  have havg : (p.k / (p.reserveA - a) - p.reserveB) / a = p.reserveB / (p.reserveA - a) := by
    rw [hin]; field_simp; ring
  have hlow : p.reserveB / p.reserveA < p.reserveB / (p.reserveA - a) :=
    div_lt_div_of_pos_left hB hd (by linarith)
  have hinpos : 0 < p.k / (p.reserveA - a) - p.reserveB := by
    rw [hin]; exact div_pos (mul_pos hB h0) hd
  refine ⟨_, getAmountBForA_ok p a h, ?_, ?_, ?_, ?_, ?_, ?_⟩
  · exact havg
  · show p.reserveB / p.reserveA < (p.k / (p.reserveA - a) - p.reserveB) / a
    rw [havg]; exact hlow
  · show (p.k / (p.reserveA - a) - p.reserveB) / a < p.k / (p.reserveA - a) / (p.reserveA - a)
    rw [havg, hk]
    apply div_lt_div_of_pos_right _ hd
    rw [lt_div_iff₀ hd]
    nlinarith
  · exact mul_pos h0 (div_pos hB hA)
  · show a * (p.reserveB / p.reserveA) < p.k / (p.reserveA - a) - p.reserveB
    have := mul_lt_mul_of_pos_left hlow h0
    rw [← havg] at this
    rwa [mul_div_cancel₀ _ h0.ne'] at this
  · show p.k / (p.reserveA - a) - p.reserveB
      < (p.k / (p.reserveA - a) - p.reserveB) * (1 + p.feePercent)
    rw [hf]
    nlinarith

/-! ## All venues quote their share, or none does -/

theorem allocation_lt_iff (r t c : ℚ) (hr : 0 < r) (ht : 0 < t) : r / t * c < r ↔ c < t := by
  have h1 : r / t * c = r * (c / t) := by field_simp
  rw [h1]
  constructor
  · intro h
    have h2 : c / t < 1 := by
      by_contra hc
      have := mul_le_mul_of_nonneg_left (not_lt.mp hc) hr.le
      linarith
    rwa [div_lt_one ht] at h2
  · intro h
    have h2 : c / t < 1 := (div_lt_one ht).mpr h
    have := mul_lt_mul_of_pos_left h2 hr
    linarith

theorem aggregatorQuote_eq_own (dexes : List SimpleDEX) (totalAmountA : ℚ)
    (hn : dexes.Pairwise (fun a b => a.name ≠ b.name)) :
    aggregatorQuote dexes totalAmountA = .ok (ownQuoteTotal dexes totalAmountA) := by
  have h := foldlM_aggregatorStep dexes dexes (totalLiquidity dexes) totalAmountA 0
    (find_by_name dexes hn)
  rw [zero_add] at h
  exact h

theorem ownQuoteTotal_of_none (dexes : List SimpleDEX) (totalAmountA : ℚ)
    (h : ∀ d ∈ dexes, d.quoteForA (d.reserveA / totalLiquidity dexes * totalAmountA) = none) :
    ownQuoteTotal dexes totalAmountA = 0 := by
  unfold ownQuoteTotal
  apply List.sum_eq_zero
  intro x hx
  obtain ⟨d, hd, rfl⟩ := List.mem_map.mp hx
  simp only [h d hd]

/-- Claim C26, amended: in exact arithmetic, for venues with positive
`reserveA` and pairwise distinct names, if `totalAmountA < Σ reserveA` every
venue can quote its allocated amount; if `totalAmountA ≥ Σ reserveA` none can,
`aggregatorQuote` does not fail and its total is 0; and for a non-empty list
each of the two cases holds exactly when its comparison does. -/
theorem all_or_none_quote (dexes : List SimpleDEX) (totalAmountA : ℚ)
    (hpos : ∀ d ∈ dexes, 0 < d.reserveA)
    (hn : dexes.Pairwise (fun a b => a.name ≠ b.name)) :
    (totalAmountA < totalLiquidity dexes →
      ∀ d ∈ dexes,
        ∃ q, d.quoteForA (d.reserveA / totalLiquidity dexes * totalAmountA) = some q) ∧
    (totalLiquidity dexes ≤ totalAmountA →
      (∀ d ∈ dexes, d.quoteForA (d.reserveA / totalLiquidity dexes * totalAmountA) = none) ∧
      aggregatorQuote dexes totalAmountA = .ok 0) ∧
    (dexes ≠ [] →
      ((∀ d ∈ dexes,
          ∃ q, d.quoteForA (d.reserveA / totalLiquidity dexes * totalAmountA) = some q) ↔
        totalAmountA < totalLiquidity dexes) ∧
      ((∀ d ∈ dexes, d.quoteForA (d.reserveA / totalLiquidity dexes * totalAmountA) = none) ↔
        totalLiquidity dexes ≤ totalAmountA)) := by
  have hsome : totalAmountA < totalLiquidity dexes → ∀ d ∈ dexes,
      ∃ q, d.quoteForA (d.reserveA / totalLiquidity dexes * totalAmountA) = some q := by
    intro hlt d hd
    have hT : 0 < totalLiquidity dexes :=
      totalLiquidity_pos dexes (List.ne_nil_of_mem hd) hpos
    exact quoteForA_isSome d _ ((allocation_lt_iff _ _ _ (hpos d hd) hT).mpr hlt)
  have hnone : totalLiquidity dexes ≤ totalAmountA → ∀ d ∈ dexes,
      d.quoteForA (d.reserveA / totalLiquidity dexes * totalAmountA) = none := by
    intro hle d hd
    have hT : 0 < totalLiquidity dexes :=
      totalLiquidity_pos dexes (List.ne_nil_of_mem hd) hpos
    apply quoteForA_none
    by_contra hc
    exact absurd ((allocation_lt_iff _ _ _ (hpos d hd) hT).mp (not_le.mp hc)) (not_lt.mpr hle)
  refine ⟨hsome, ?_, ?_⟩
  · intro hle
    refine ⟨hnone hle, ?_⟩
    rw [aggregatorQuote_eq_own dexes totalAmountA hn,
      ownQuoteTotal_of_none dexes totalAmountA (hnone hle)]
  · intro hne
    obtain ⟨d0, hd0⟩ := List.exists_mem_of_ne_nil dexes hne
    constructor
    · refine ⟨fun hall => ?_, hsome⟩
      by_contra hc
      obtain ⟨q, hq⟩ := hall d0 hd0
      rw [hnone (not_lt.mp hc) d0 hd0] at hq
      cases hq
    · refine ⟨fun hall => ?_, hnone⟩
      by_contra hc
      obtain ⟨q, hq⟩ := hsome (not_le.mp hc) d0 hd0
      rw [hall d0 hd0] at hq
      cases hq


/-! ## Venues at one spot price -/

theorem reserveA_le_total (dexes : List SimpleDEX) (hpos : ∀ d ∈ dexes, 0 < d.reserveA) :
    ∀ d ∈ dexes, d.reserveA ≤ totalLiquidity dexes := by
  intro d hd
  rw [totalLiquidity_eq_sum]
  apply List.single_le_sum
  · intro x hx
    obtain ⟨e, he, rfl⟩ := List.mem_map.mp hx
    exact (hpos e he).le
  · exact List.mem_map.mpr ⟨d, hd, rfl⟩

theorem own_quote_value (d : SimpleDEX) (t a : ℚ) (hb : d.Built) (hr : 0 < d.reserveA)
    (hat : a < t) (ht : 0 < t) :
    (match d.quoteForA (d.reserveA / t * a) with
      | some q => q.amountBIn
      | none => 0) = d.reserveB * (a / (t - a) * (1 + 0.003)) := by
  have hlt : d.reserveA / t * a < d.reserveA := (allocation_lt_iff _ _ _ hr ht).mpr hat
  have hd : t - a ≠ 0 := (sub_pos.mpr hat).ne'
  have hd2 : d.reserveA - d.reserveA / t * a ≠ 0 := (sub_pos.mpr hlt).ne'
  have ht0 : t ≠ 0 := ht.ne'
  have hr0 : d.reserveA ≠ 0 := hr.ne'
  simp only [SimpleDEX.quoteForA, if_neg (not_le.mpr hlt), hb.1, hb.2]
  have key : d.reserveA * d.reserveB / (d.reserveA - d.reserveA / t * a) - d.reserveB
      = d.reserveB * (a / (t - a)) := by
    have e : d.reserveA - d.reserveA / t * a = d.reserveA * (t - a) / t := by
      field_simp
      ring
    rw [e]
    field_simp
    ring
  rw [key]
  ring

theorem quoteForA_amountBIn (d : SimpleDEX) (a : ℚ) (q : DexQuote)
    (h : d.quoteForA a = some q) :
    q.amountBIn = (d.k / (d.reserveA - a) - d.reserveB) * (1 + d.fee) := by
  unfold SimpleDEX.quoteForA at h
  split_ifs at h
  injection h with h
  rw [← h]

theorem ownQuoteTotal_value (dexes : List SimpleDEX) (a : ℚ)
    (hb : ∀ d ∈ dexes, d.Built) (hpos : ∀ d ∈ dexes, 0 < d.reserveA)
    (hat : a < totalLiquidity dexes) (ht : 0 < totalLiquidity dexes) :
    ownQuoteTotal dexes a
      = (dexes.map SimpleDEX.reserveB).sum * (a / (totalLiquidity dexes - a) * (1 + 0.003)) := by
  unfold ownQuoteTotal
  rw [← List.sum_map_mul_right]
  congr 1
  apply List.map_congr_left
  intro d hd
  exact own_quote_value d _ a (hb d hd) (hpos d hd) hat ht

theorem sum_reserveB_of_price (dexes : List SimpleDEX) (price : ℚ)
    (hpos : ∀ d ∈ dexes, 0 < d.reserveA)
    (hprice : ∀ d ∈ dexes, d.reserveB / d.reserveA = price) :
    (dexes.map SimpleDEX.reserveB).sum = price * (dexes.map SimpleDEX.reserveA).sum := by
  rw [← List.sum_map_mul_left]
  congr 1
  apply List.map_congr_left
  intro d hd
  have h0 : d.reserveA ≠ 0 := (hpos d hd).ne'
  rw [← hprice d hd]
  field_simp

/-- Claim C27, amended (venues at one spot price): in exact arithmetic, for
venues built by the constructor with positive reserves, pairwise distinct
names and equal `reserveB / reserveA`, and an amount `a` with
`0 < a < reserveA_i` for a venue `i` of the list, the proportional-split total
is at most venue `i`'s fee-inclusive quote for the whole of `a`, and it equals
the quote of a single venue holding the summed reserves. -/
theorem split_at_one_price (dexes : List SimpleDEX) (i : SimpleDEX) (a : ℚ)
    (name tokenA tokenB : String)
    (hb : ∀ d ∈ dexes, d.Built)
    (hpos : ∀ d ∈ dexes, 0 < d.reserveA ∧ 0 < d.reserveB)
    (hn : dexes.Pairwise (fun x y => x.name ≠ y.name))
    (hprice : ∀ d ∈ dexes, ∀ e ∈ dexes, d.reserveB / d.reserveA = e.reserveB / e.reserveA)
    (hi : i ∈ dexes) (h0 : 0 < a) (hai : a < i.reserveA) :
    ∃ total qi qc,
      aggregatorQuote dexes a = .ok total ∧
      i.quoteForA a = some qi ∧
      (SimpleDEX.new name tokenA tokenB (dexes.map SimpleDEX.reserveA).sum
          (dexes.map SimpleDEX.reserveB).sum).quoteForA a = some qc ∧
      total ≤ qi.amountBIn ∧
      total = qc.amountBIn := by
  have hposA : ∀ d ∈ dexes, 0 < d.reserveA := fun d hd => (hpos d hd).1
  have hT : 0 < totalLiquidity dexes := totalLiquidity_pos dexes (List.ne_nil_of_mem hi) hposA
  have hiT : i.reserveA ≤ totalLiquidity dexes := reserveA_le_total dexes hposA i hi
  have hat : a < totalLiquidity dexes := lt_of_lt_of_le hai hiT
  have hsum := totalLiquidity_eq_sum dexes
  have hS := sum_reserveB_of_price dexes (i.reserveB / i.reserveA) hposA
    (fun d hd => hprice d hd i hi)
  have hiA : 0 < i.reserveA := (hpos i hi).1
  have hiB : 0 < i.reserveB := (hpos i hi).2
  have hdi : 0 < i.reserveA - a := sub_pos.mpr hai
  have hdT : 0 < totalLiquidity dexes - a := sub_pos.mpr hat
  obtain ⟨qi, hqi⟩ := quoteForA_isSome i a hai
  have hatc : a < (SimpleDEX.new name tokenA tokenB (dexes.map SimpleDEX.reserveA).sum
      (dexes.map SimpleDEX.reserveB).sum).reserveA := by
    show a < (dexes.map SimpleDEX.reserveA).sum
    rw [← hsum]; exact hat
  obtain ⟨qc, hqc⟩ := quoteForA_isSome _ a hatc
  refine ⟨_, qi, qc, aggregatorQuote_eq_own dexes a hn, hqi, hqc, ?_, ?_⟩
  · rw [ownQuoteTotal_value dexes a hb hposA hat hT, hS, ← hsum,
      quoteForA_amountBIn i a qi hqi, (hb i hi).1, (hb i hi).2]
    have e1 : i.reserveA * i.reserveB / (i.reserveA - a) - i.reserveB
        = i.reserveB / i.reserveA * (i.reserveA * a / (i.reserveA - a)) := by
      have h1 : i.reserveA ≠ 0 := hiA.ne'
      have h2 : i.reserveA - a ≠ 0 := hdi.ne'
      field_simp
      ring
    rw [e1]
    have hprice0 : 0 < i.reserveB / i.reserveA := div_pos hiB hiA
    have hcore : totalLiquidity dexes * a / (totalLiquidity dexes - a)
        ≤ i.reserveA * a / (i.reserveA - a) := by
      rw [div_le_div_iff₀ hdT hdi]
      nlinarith [mul_le_mul_of_nonneg_right hiT (mul_pos h0 h0).le]
    have h3 := mul_le_mul_of_nonneg_left hcore hprice0.le
    have e2 : i.reserveB / i.reserveA * totalLiquidity dexes *
          (a / (totalLiquidity dexes - a) * (1 + 0.003))
        = i.reserveB / i.reserveA * (totalLiquidity dexes * a / (totalLiquidity dexes - a)) *
          (1 + 0.003) := by
      have h2 : totalLiquidity dexes - a ≠ 0 := hdT.ne'
      have h1 : i.reserveA ≠ 0 := hiA.ne'
      field_simp
      ring
    rw [e2]
    exact mul_le_mul_of_nonneg_right h3 (by norm_num)
  · rw [ownQuoteTotal_value dexes a hb hposA hat hT, quoteForA_amountBIn _ a qc hqc]
    show _ = (((dexes.map SimpleDEX.reserveA).sum * (dexes.map SimpleDEX.reserveB).sum)
        / ((dexes.map SimpleDEX.reserveA).sum - a) - (dexes.map SimpleDEX.reserveB).sum)
        * (1 + 0.003)
    rw [← hsum]
    have hne : totalLiquidity dexes - a ≠ 0 := hdT.ne'
    field_simp
    ring


/-! ## Instances (third part) -/

theorem larger_pool_smaller_impact_witness :
    (0 : ℚ) < 1 ∧ (1 : ℚ) < (LiquidityPool.new "ETH" "USDT" 10 1000).reserveA ∧
    (LiquidityPool.new "ETH" "USDT" 10 1000).reserveA
      < (LiquidityPool.new "ETH" "USDT" 10000 1000000).reserveA ∧
    ∃ r1 r2, ((LiquidityPool.new "ETH" "USDT" 10 1000).swapBforA 1).1 = .ok r1 ∧
      ((LiquidityPool.new "ETH" "USDT" 10000 1000000).swapBforA 1).1 = .ok r2 ∧
      r2.priceImpact < r1.priceImpact := by
  have h1 : (1 : ℚ) < (LiquidityPool.new "ETH" "USDT" 10 1000).reserveA := by
    norm_num [LiquidityPool.new]
  have h12 : (LiquidityPool.new "ETH" "USDT" 10 1000).reserveA
      < (LiquidityPool.new "ETH" "USDT" 10000 1000000).reserveA := by
    norm_num [LiquidityPool.new]
  obtain ⟨r1, r2, e1, e2, -, -, hlt⟩ :=
    larger_pool_smaller_impact (LiquidityPool.new "ETH" "USDT" 10 1000)
      (LiquidityPool.new "ETH" "USDT" 10000 1000000) 1
      (LiquidityPool.Reachable.init "ETH" "USDT" 10 1000)
      (LiquidityPool.Reachable.init "ETH" "USDT" 10000 1000000)
      (by norm_num [LiquidityPool.new]) (by norm_num [LiquidityPool.new])
      (by norm_num) h1 h12
  exact ⟨by norm_num, h1, h12, r1, r2, e1, e2, hlt⟩

theorem scriptDexes_total : totalLiquidity scriptDexes = 2700 := by
  norm_num [totalLiquidity, scriptDexes, SimpleDEX.new]

theorem all_or_none_quote_witness :
    (∀ d ∈ scriptDexes, 0 < d.reserveA) ∧
    scriptDexes.Pairwise (fun a b => a.name ≠ b.name) ∧
    totalLiquidity scriptDexes ≤ 2700 ∧
    aggregatorQuote scriptDexes 2700 = .ok 0 :=
  ⟨scriptDexes_pos, scriptDexes_names, scriptDexes_total.le,
    ((all_or_none_quote scriptDexes 2700 scriptDexes_pos scriptDexes_names).2.1
      scriptDexes_total.le).2⟩

theorem split_at_one_price_witness :
    (0 : ℚ) < 10 ∧ (10 : ℚ) < (SimpleDEX.new "Raydium" "SOL" "USDC" 500 75000).reserveA ∧
    ∃ total qi,
      aggregatorQuote [SimpleDEX.new "Raydium" "SOL" "USDC" 500 75000,
          SimpleDEX.new "Meteora" "SOL" "USDC" 2000 300000] 10 = .ok total ∧
      (SimpleDEX.new "Raydium" "SOL" "USDC" 500 75000).quoteForA 10 = some qi ∧
      total ≤ qi.amountBIn := by
  have hai : (10 : ℚ) < (SimpleDEX.new "Raydium" "SOL" "USDC" 500 75000).reserveA := by
    norm_num [SimpleDEX.new]
  obtain ⟨total, qi, qc, h1, h2, -, h4, -⟩ :=
    split_at_one_price
      [SimpleDEX.new "Raydium" "SOL" "USDC" 500 75000,
       SimpleDEX.new "Meteora" "SOL" "USDC" 2000 300000]
      (SimpleDEX.new "Raydium" "SOL" "USDC" 500 75000) 10 "All" "SOL" "USDC"
      (by
        intro d hd
        simp only [List.mem_cons, List.mem_singleton, List.not_mem_nil, or_false] at hd
        rcases hd with rfl | rfl <;> norm_num [SimpleDEX.Built, SimpleDEX.new])
      (by
        intro d hd
        simp only [List.mem_cons, List.mem_singleton, List.not_mem_nil, or_false] at hd
        rcases hd with rfl | rfl <;> norm_num [SimpleDEX.new])
      (by simp [SimpleDEX.new])
      (by
        intro d hd e he
        simp only [List.mem_cons, List.mem_singleton, List.not_mem_nil, or_false] at hd he
        rcases hd with rfl | rfl <;> rcases he with rfl | rfl <;> norm_num [SimpleDEX.new])
      (List.mem_cons_self _ _) (by norm_num) hai
  exact ⟨by norm_num, hai, total, qi, h1, h2, h4⟩

theorem slippage_bounds_witness :
    (0 : ℚ) < 10 ∧ (10 : ℚ) < (LiquidityPool.new "ETH" "USDT" 100 10000).reserveA ∧
    ∃ q, (LiquidityPool.new "ETH" "USDT" 100 10000).getAmountBForA 10 = .ok q ∧
      (LiquidityPool.new "ETH" "USDT" 100 10000).reserveB /
          (LiquidityPool.new "ETH" "USDT" 100 10000).reserveA < q.amountBIn / 10 ∧
      q.amountBIn / 10 < q.newReserveB / q.newReserveA ∧
      q.amountBIn < q.amountBWithFee := by
  have h : (10 : ℚ) < (LiquidityPool.new "ETH" "USDT" 100 10000).reserveA := by
    norm_num [LiquidityPool.new]
  obtain ⟨q, hq, -, h2, h3, -, -, h6⟩ :=
    slippage_bounds (LiquidityPool.new "ETH" "USDT" 100 10000) 10
      (LiquidityPool.Reachable.init "ETH" "USDT" 100 10000)
      (by norm_num [LiquidityPool.new]) (by norm_num [LiquidityPool.new]) (by norm_num) h
  exact ⟨by norm_num, h, q, hq, h2, h3, h6⟩

/-! ## Methods as commands: what a call leaves behind -/

/-- Run from the pool `p`, the command `getAmountBForA` returns what the
function `getAmountBForA` returns on `p` and ends in the state `p`. -/
theorem getAmountBForAM_run (p : LiquidityPool) (a : ℚ) :
    (LiquidityPool.getAmountBForAM a).run.run p = (p.getAmountBForA a, p) := by
  unfold LiquidityPool.getAmountBForAM LiquidityPool.getAmountBForA
  by_cases h : p.reserveA ≤ a <;>
    simp [h, ExceptT.run, StateT.run, bind, ExceptT.bind, ExceptT.mk, ExceptT.bindCont,
      StateT.bind, get, getThe, MonadStateOf.get, StateT.get, liftM, monadLift,
      MonadLift.monadLift, ExceptT.lift, Functor.map, StateT.map, throw, throwThe,
      MonadExceptOf.throw, pure, StateT.pure, ExceptT.pure]

/-- Run from the pool `p`, the command `swapBforA` returns the outcome and
ends in the state that the function `swapBforA` pairs. -/
theorem swapBforAM_run (p : LiquidityPool) (a : ℚ) :
    (LiquidityPool.swapBforAM a).run.run p = p.swapBforA a := by
  have h1 := getAmountBForAM_run p a
  unfold LiquidityPool.swapBforAM LiquidityPool.swapBforA
  simp only [ExceptT.run, StateT.run] at h1
  cases hq : p.getAmountBForA a with
  | error e =>
    rw [hq] at h1
    simp [ExceptT.run, StateT.run, bind, ExceptT.bind, ExceptT.mk, ExceptT.bindCont,
      StateT.bind, h1, pure, StateT.pure]
  | ok q =>
    rw [hq] at h1
    simp [ExceptT.run, StateT.run, bind, ExceptT.bind, ExceptT.mk, ExceptT.bindCont,
      StateT.bind, h1, LiquidityPool.getPriceAinBM, LiquidityPool.getPriceAinB,
      get, getThe, MonadStateOf.get, StateT.get, liftM, monadLift,
      MonadLift.monadLift, ExceptT.lift, Functor.map, StateT.map, pure, StateT.pure,
      ExceptT.pure, modify, modifyGet, MonadStateOf.modifyGet, StateT.modifyGet]

/-- Run from the venue `d`, the command `quoteForA` returns what the function
`quoteForA` returns on `d` and ends in the state `d`. -/
theorem quoteForAM_run (d : SimpleDEX) (a : ℚ) :
    (SimpleDEX.quoteForAM a).run d = (d.quoteForA a, d) := by
  unfold SimpleDEX.quoteForAM SimpleDEX.quoteForA
  by_cases h : d.reserveA ≤ a <;>
    simp [h, StateT.run, bind, StateT.bind, get, getThe, MonadStateOf.get, StateT.get,
      pure, StateT.pure]

/-- Claim C13 (quoting is a pure read): run as a command on the pool, with its
reads of `this` and without any assignment, `getAmountBForA` ends in the state
it started from, whether it returns or throws, so a second call with the same
amount right after the first returns the same result; likewise `quoteForA` on
a venue.  The same is not true of a command that assigns: on the pool
(100, 10000) the command `swapBforA(10)` ends in another state, and the quote
for 10 taken after it differs from the quote taken before it. -/
theorem quoting_is_pure (p : LiquidityPool) (d : SimpleDEX) (a : ℚ) :
    (((LiquidityPool.getAmountBForAM a).run.run p).2 = p ∧
      ((LiquidityPool.getAmountBForAM a).run.run
          ((LiquidityPool.getAmountBForAM a).run.run p).2).1
        = ((LiquidityPool.getAmountBForAM a).run.run p).1) ∧
    (((SimpleDEX.quoteForAM a).run d).2 = d ∧
      ((SimpleDEX.quoteForAM a).run ((SimpleDEX.quoteForAM a).run d).2).1
        = ((SimpleDEX.quoteForAM a).run d).1) ∧
    (((LiquidityPool.swapBforAM 10).run.run (LiquidityPool.new "ETH" "USDT" 100 10000)).2
        ≠ LiquidityPool.new "ETH" "USDT" 100 10000 ∧
      ((LiquidityPool.getAmountBForAM 10).run.run
          ((LiquidityPool.swapBforAM 10).run.run
            (LiquidityPool.new "ETH" "USDT" 100 10000)).2).1
        ≠ ((LiquidityPool.getAmountBForAM 10).run.run
            (LiquidityPool.new "ETH" "USDT" 100 10000)).1) := by
  refine ⟨⟨?_, ?_⟩, ⟨?_, ?_⟩, ?_, ?_⟩
  · rw [getAmountBForAM_run]
  · rw [getAmountBForAM_run, getAmountBForAM_run]
  · rw [quoteForAM_run]
  · rw [quoteForAM_run, quoteForAM_run]
  · rw [swapBforAM_run, swapBforA_ok _ _ (by norm_num [LiquidityPool.new])]
    intro h
    have h2 := congrArg LiquidityPool.reserveA h
    norm_num [LiquidityPool.new] at h2
  · rw [swapBforAM_run, getAmountBForAM_run, getAmountBForAM_run,
      swapBforA_ok _ _ (by norm_num [LiquidityPool.new]),
      getAmountBForA_ok _ _ (by norm_num [LiquidityPool.new]),
      getAmountBForA_ok _ _ (by norm_num [LiquidityPool.new])]
    intro h
    have h2 := congrArg (fun r => (r.toOption.map (fun q => q.newReserveA))) h
    norm_num [LiquidityPool.new, Except.toOption] at h2

/-! ## Binary64: rounding stays within the finite range -/

/-- The bit length `L` of `n` satisfies `n < 2 ^ L`, and `2 ^ (L - 1) ≤ n` for
positive `n`. -/
theorem Ieee.bitLength_spec (fuel n : Nat) (h : n ≤ fuel) :
    n < 2 ^ Ieee.bitLength fuel n ∧ (0 < n → 2 ^ (Ieee.bitLength fuel n - 1) ≤ n) := by
  induction fuel generalizing n with
  | zero =>
    have : n = 0 := by omega
    subst this
    simp [Ieee.bitLength]
  | succ f ih =>
    unfold Ieee.bitLength
    by_cases hn : n = 0
    · subst hn; simp
    · rw [if_neg hn]
      have hle : n / 2 ≤ f := by omega
      obtain ⟨h1, h2⟩ := ih (n / 2) hle
      constructor
      · rw [pow_succ]; omega
      · intro _
        simp only [Nat.add_sub_cancel]
        by_cases hh : n / 2 = 0
        · have : n = 1 := by omega
          subst this
          simp [Ieee.bitLength]
          cases f <;> simp [Ieee.bitLength]
        · have h3 := h2 (Nat.pos_of_ne_zero hh)
          have hb : 0 < Ieee.bitLength f (n / 2) := by
            by_contra hc
            have : Ieee.bitLength f (n / 2) = 0 := by omega
            rw [this] at h1
            simp at h1
            exact hh h1
          have : 2 ^ Ieee.bitLength f (n / 2) = 2 * 2 ^ (Ieee.bitLength f (n / 2) - 1) := by
            rw [← pow_succ']
            congr 1
            omega
          omega

/-- Rounding to the nearest integer does not pass an integer bound. -/
theorem Ieee.roundHalfEven_le (n d K : Nat) (hd : 0 < d) (h : n ≤ K * d) :
    Ieee.roundHalfEven n d ≤ K := by
  unfold Ieee.roundHalfEven
  have hq : n / d ≤ K := Nat.div_le_of_le_mul (by rw [Nat.mul_comm]; exact h)
  by_cases hK : n / d = K
  · have hr : n % d = 0 := by
      have h1 := Nat.div_add_mod n d
      rw [hK] at h1
      have h2 : d * K = K * d := Nat.mul_comm _ _
      omega
    simp [hr, hd, hK]
  · have hlt : n / d < K := lt_of_le_of_ne hq hK
    simp only
    split_ifs <;> omega


/-- The largest finite number is below `2 ^ 1024`. -/
theorem Ieee.maxNat_lt : (2 ^ 53 - 1) * 2 ^ 971 < 2 ^ 1024 := by
  have e : (1024 : Nat) = 53 + 971 := rfl
  rw [e, pow_add]
  exact Nat.mul_lt_mul_of_pos_right (by norm_num) (pow_pos (by norm_num) 971)

/-- The largest finite number is a multiple of `2 ^ k` for `k ≤ 971`. -/
theorem Ieee.maxNat_split (k : Nat) (hk : k ≤ 971) :
    (2 ^ 53 - 1) * 2 ^ 971 = (2 ^ 53 - 1) * 2 ^ (971 - k) * 2 ^ k := by
  have h : (2 : Nat) ^ 971 = 2 ^ (971 - k) * 2 ^ k := by
    rw [← pow_add]
    congr 1
    omega
  rw [h, Nat.mul_assoc]

/-- The natural number `(2 ^ 53 - 1) * 2 ^ 971` is `F64.maxValue`. -/
theorem Ieee.maxValue_cast : (((2 ^ 53 - 1) * 2 ^ 971 : Nat) : ℚ) = F64.maxValue := by
  unfold F64.maxValue
  rw [Nat.cast_mul, Nat.cast_sub Nat.one_le_two_pow, Nat.cast_pow, Nat.cast_pow]
  simp only [Nat.cast_ofNat, Nat.cast_one]

/-- The exponent found for `n / d` is at most 1023 when `n / d` is below
`2 ^ 1024`. -/
theorem Ieee.floorLog2_le (n d : Nat) (hn : 0 < n)
    (hlt : n < 2 ^ 1024 * d) : Ieee.floorLog2 n d ≤ 1023 := by
  obtain ⟨hn1, hn2⟩ := Ieee.bitLength_spec n n le_rfl
  obtain ⟨hd1, _⟩ := Ieee.bitLength_spec d d le_rfl
  have hn3 := hn2 hn
  unfold Ieee.floorLog2
  simp only
  by_cases h0 : (0 : Int) ≤ (Ieee.bitLength n n : Int) - (Ieee.bitLength d d : Int)
  · rw [if_pos h0]
    have hbl : Ieee.bitLength d d ≤ Ieee.bitLength n n := by omega
    have hto : ((Ieee.bitLength n n : Int) - (Ieee.bitLength d d : Int)).toNat
        = Ieee.bitLength n n - Ieee.bitLength d d := by omega
    rw [hto]
    have hkey : Ieee.bitLength n n - 1 < 1024 + Ieee.bitLength d d := by
      have h1 : 2 ^ (Ieee.bitLength n n - 1) < 2 ^ (1024 + Ieee.bitLength d d) := by
        calc 2 ^ (Ieee.bitLength n n - 1) ≤ n := hn3
          _ < 2 ^ 1024 * d := hlt
          _ < 2 ^ 1024 * 2 ^ Ieee.bitLength d d :=
              Nat.mul_lt_mul_of_pos_left hd1 (pow_pos (by norm_num) 1024)
          _ = 2 ^ (1024 + Ieee.bitLength d d) := (pow_add 2 1024 _).symm
      exact (pow_lt_pow_iff_right₀ (by norm_num : (1 : Nat) < 2)).mp h1
    split_ifs with hc
    · have h1 : d * 2 ^ (Ieee.bitLength n n - Ieee.bitLength d d) < d * 2 ^ 1024 := by
        calc d * 2 ^ (Ieee.bitLength n n - Ieee.bitLength d d) ≤ n := hc
          _ < 2 ^ 1024 * d := hlt
          _ = d * 2 ^ 1024 := Nat.mul_comm _ _
      have h2 : 2 ^ (Ieee.bitLength n n - Ieee.bitLength d d) < 2 ^ 1024 :=
        Nat.lt_of_mul_lt_mul_left h1
      have h3 : Ieee.bitLength n n - Ieee.bitLength d d < 1024 :=
        (pow_lt_pow_iff_right₀ (by norm_num : (1 : Nat) < 2)).mp h2
      omega
    · omega
  · rw [if_neg h0]
    split_ifs <;> omega

/-- Rounding a positive magnitude that is at most the largest finite number
gives `+0` or a finite number between 0 and the largest finite number. -/
theorem Ieee.ofMagnitude_le (n d : Nat) (hn : 0 < n) (hd : 0 < d)
    (h : n ≤ (2 ^ 53 - 1) * 2 ^ 971 * d) :
    F64.ofMagnitude n d false = F64.zero false ∨
      ∃ r : ℚ, F64.ofMagnitude n d false = F64.fin r ∧ 0 ≤ r ∧ r ≤ F64.maxValue := by
  have hfl : Ieee.floorLog2 n d ≤ 1023 :=
    Ieee.floorLog2_le n d hn
      (lt_of_le_of_lt h (Nat.mul_lt_mul_of_pos_right Ieee.maxNat_lt hd))
  have hcast := Ieee.maxValue_cast
  have hlt := Ieee.maxNat_lt
  have hsp := Ieee.maxNat_split
  generalize (2 ^ 53 - 1) * 2 ^ 971 = M at h hcast hlt hsp
  unfold F64.ofMagnitude
  simp only
  by_cases hu : (0 : Int) ≤ max (Ieee.floorLog2 n d) (-1022) - 52
  · rw [if_pos hu]
    right
    have hk : (max (Ieee.floorLog2 n d) (-1022) - 52).toNat ≤ 971 := by omega
    generalize (max (Ieee.floorLog2 n d) (-1022) - 52).toNat = k at hk ⊢
    have hsplit := hsp k hk
    have hm : Ieee.roundHalfEven n (d * 2 ^ k) ≤ (2 ^ 53 - 1) * 2 ^ (971 - k) := by
      apply Ieee.roundHalfEven_le _ _ _ (Nat.mul_pos hd (pow_pos (by norm_num) k))
      calc n ≤ M * d := h
        _ = (2 ^ 53 - 1) * 2 ^ (971 - k) * (d * 2 ^ k) := by
            rw [hsplit, Nat.mul_assoc, Nat.mul_assoc, Nat.mul_assoc, Nat.mul_comm (2 ^ k) d]
    have hmk : Ieee.roundHalfEven n (d * 2 ^ k) * 2 ^ k ≤ M := by
      rw [hsplit]
      exact Nat.mul_le_mul_right _ hm
    rw [if_neg (not_le.mpr (lt_of_le_of_lt hmk hlt))]
    refine ⟨_, rfl, ?_, ?_⟩
    · rw [if_neg Bool.false_ne_true]
      exact Nat.cast_nonneg _
    · rw [if_neg Bool.false_ne_true, ← hcast]
      exact Nat.cast_le.mpr hmk
  · rw [if_neg hu]
    generalize (-(max (Ieee.floorLog2 n d) (-1022) - 52)).toNat = k
    by_cases hm0 : Ieee.roundHalfEven (n * 2 ^ k) d = 0
    · left; rw [if_pos hm0]
    · right
      rw [if_neg hm0]
      have hm : Ieee.roundHalfEven (n * 2 ^ k) d ≤ M * 2 ^ k := by
        apply Ieee.roundHalfEven_le _ _ _ hd
        calc n * 2 ^ k ≤ M * d * 2 ^ k := Nat.mul_le_mul_right _ h
          _ = M * 2 ^ k * d := Nat.mul_right_comm _ _ _
      have h2 : (0 : ℚ) < ((2 ^ k : Nat) : ℚ) := Nat.cast_pos.mpr (pow_pos (by norm_num) k)
      refine ⟨_, rfl, ?_, ?_⟩
      · rw [if_neg Bool.false_ne_true, Rat.mkRat_eq_div]
        exact div_nonneg (Int.cast_nonneg.mpr (Int.natCast_nonneg _)) (le_of_lt (by exact_mod_cast h2))
      · rw [if_neg Bool.false_ne_true, Rat.mkRat_eq_div, ← hcast]
        rw [div_le_iff₀ h2]
        have h4 := (Nat.cast_le (α := ℚ)).mpr hm
        rw [Nat.cast_mul] at h4
        exact_mod_cast h4

/-- Rounding a positive rational that is at most the largest finite number
gives `+0` or a finite number between 0 and the largest finite number. -/
theorem Ieee.ofRat_le (q : ℚ) (hq : 0 < q) (h : q ≤ F64.maxValue) :
    F64.ofRat q = F64.zero false ∨
      ∃ r : ℚ, F64.ofRat q = F64.fin r ∧ 0 ≤ r ∧ r ≤ F64.maxValue := by
  unfold F64.ofRat
  rw [if_neg (ne_of_gt hq)]
  have hneg : decide (q < 0) = false := by
    simp only [decide_eq_false_iff_not, not_lt]; exact le_of_lt hq
  rw [hneg]
  have hnum : 0 < q.num := Rat.num_pos.mpr hq
  have hn : 0 < q.num.natAbs := Int.natAbs_pos.mpr (ne_of_gt hnum)
  apply Ieee.ofMagnitude_le _ _ hn q.den_pos
  have hcast : ((q.num.natAbs : Nat) : ℚ) = q * q.den := by
    rw [Nat.cast_natAbs, abs_of_pos hnum]
    exact (Rat.mul_den_eq_num q).symm
  have hle : ((q.num.natAbs : Nat) : ℚ) ≤ (((2 ^ 53 - 1) * 2 ^ 971 * q.den : Nat) : ℚ) := by
    rw [hcast, Nat.cast_mul ((2 ^ 53 - 1) * 2 ^ 971) q.den, Ieee.maxValue_cast]
    exact mul_le_mul_of_nonneg_right h (Nat.cast_nonneg _)
  exact Nat.cast_le.mp hle

/-! ## Binary64: the matching loop on positive finite quantities -/

/-- The literal `0` is `+0`. -/
theorem Ieee.lit_zero : F64.lit 0 = F64.zero false := by
  simp [F64.lit, F64.ofRat]

/-- A positive finite number is a finite value between 0 and the largest
finite number. -/
theorem Ieee.isPositiveFinite_iff (q : F64) :
    q.isPositiveFinite = true ↔ ∃ x : ℚ, q = F64.fin x ∧ 0 < x ∧ x ≤ F64.maxValue := by
  cases q <;> simp [F64.isPositiveFinite]

/-- The difference of two positive finite numbers, the larger first, is zero
(`=== 0`) or again positive and finite. -/
theorem Ieee.sub_positiveFinite (x y : ℚ) (hy : 0 < y) (hxy : y ≤ x) (hx : x ≤ F64.maxValue) :
    F64.eq (F64.sub (F64.fin x) (F64.fin y)) (F64.lit 0) = true ∨
      (F64.sub (F64.fin x) (F64.fin y)).isPositiveFinite = true := by
  have hsub : F64.sub (F64.fin x) (F64.fin y) = F64.ofRat (x + -y) := rfl
  rw [hsub, Ieee.lit_zero]
  rcases eq_or_lt_of_le hxy with heq | hlt
  · left
    subst heq
    simp [F64.ofRat, F64.eq, F64.toRat]
  · rcases Ieee.ofRat_le (x + -y) (by linarith) (by linarith) with h0 | ⟨r, hr, hr0, hrM⟩
    · left; rw [h0]; simp [F64.eq, F64.toRat]
    · rw [hr]
      rcases eq_or_lt_of_le hr0 with h0 | hpos
      · left; subst h0; simp [F64.eq, F64.toRat]
      · right; simp [F64.isPositiveFinite, hpos, hrM]

/-- What a fill leaves of two positive finite head quantities: each is zero or
again positive and finite, and at least one of them is zero. -/
theorem Ieee.fill_positiveFinite (x y : ℚ) (hx : 0 < x) (hxM : x ≤ F64.maxValue)
    (hy : 0 < y) (hyM : y ≤ F64.maxValue) :
    (F64.eq (F64.sub (F64.fin x) (F64.min (F64.fin x) (F64.fin y))) (F64.lit 0) = true ∨
      (F64.sub (F64.fin x) (F64.min (F64.fin x) (F64.fin y))).isPositiveFinite = true) ∧
    (F64.eq (F64.sub (F64.fin y) (F64.min (F64.fin x) (F64.fin y))) (F64.lit 0) = true ∨
      (F64.sub (F64.fin y) (F64.min (F64.fin x) (F64.fin y))).isPositiveFinite = true) ∧
    (F64.eq (F64.sub (F64.fin x) (F64.min (F64.fin x) (F64.fin y))) (F64.lit 0) = true ∨
      F64.eq (F64.sub (F64.fin y) (F64.min (F64.fin x) (F64.fin y))) (F64.lit 0) = true) := by
  have hmin : F64.min (F64.fin x) (F64.fin y) = if y < x then F64.fin y else F64.fin x := by
    simp [F64.min, F64.lt, F64.toRat]
  rw [hmin]
  by_cases hlt : y < x
  · rw [if_pos hlt]
    exact ⟨Ieee.sub_positiveFinite x y hy (le_of_lt hlt) hxM,
      Ieee.sub_positiveFinite y y hy le_rfl hyM,
      Or.inr (by
        have := Ieee.sub_positiveFinite y y hy le_rfl hyM
        rcases this with h | h
        · exact h
        · exfalso
          have hs : F64.sub (F64.fin y) (F64.fin y) = F64.zero false := by
            simp [F64.sub, F64.neg, F64.add, F64.ofRat]
          rw [hs] at h
          simp [F64.isPositiveFinite] at h)⟩
  · rw [if_neg hlt]
    have hle : x ≤ y := not_lt.mp hlt
    have hs : F64.sub (F64.fin x) (F64.fin x) = F64.zero false := by
      simp [F64.sub, F64.neg, F64.add, F64.ofRat]
    have hz : F64.eq (F64.sub (F64.fin x) (F64.fin x)) (F64.lit 0) = true := by
      rw [hs, Ieee.lit_zero]; simp [F64.eq, F64.toRat]
    exact ⟨Or.inl hz, Ieee.sub_positiveFinite y x hx hle hyM, Or.inl hz⟩

/-- On a crossed binary64 book of positive finite quantities an iteration of
the matching loop removes a head order and leaves positive finite quantities. -/
theorem Ieee.matchStep_positiveFinite (b : Ieee.Orderbook) (h : b.AllPositiveFinite)
    (hc : b.crossed = true) :
    b.matchStep.AllPositiveFinite ∧
      (b.matchStep.bids = b.bids.tail ∨ b.matchStep.asks = b.asks.tail) ∧
      b.matchStep.bids.length + b.matchStep.asks.length < b.bids.length + b.asks.length := by
  obtain ⟨pair, bids, asks, trades⟩ := b
  cases bids with
  | nil => simp [Ieee.Orderbook.crossed] at hc
  | cons bid bs =>
    cases asks with
    | nil => simp [Ieee.Orderbook.crossed] at hc
    | cons ask as =>
      obtain ⟨hB, hA⟩ := h
      simp only at hB hA
      obtain ⟨x, hxq, hx, hxM⟩ :=
        (Ieee.isPositiveFinite_iff _).mp (hB bid (List.mem_cons_self _ _))
      obtain ⟨y, hyq, hy, hyM⟩ :=
        (Ieee.isPositiveFinite_iff _).mp (hA ask (List.mem_cons_self _ _))
      have hbs : ∀ o ∈ bs, o.quantity.isPositiveFinite = true :=
        fun o ho => hB o (List.mem_cons_of_mem _ ho)
      have has : ∀ o ∈ as, o.quantity.isPositiveFinite = true :=
        fun o ho => hA o (List.mem_cons_of_mem _ ho)
      obtain ⟨h1, h2, h3⟩ := Ieee.fill_positiveFinite x y hx hxM hy hyM
      simp only [Ieee.Orderbook.matchStep, Ieee.Orderbook.AllPositiveFinite, hxq, hyq]
      by_cases e1 : F64.eq (F64.sub (F64.fin x) (F64.min (F64.fin x) (F64.fin y))) (F64.lit 0) = true
      · by_cases e2 :
          F64.eq (F64.sub (F64.fin y) (F64.min (F64.fin x) (F64.fin y))) (F64.lit 0) = true
        · rw [if_pos e1, if_pos e2]
          exact ⟨⟨hbs, has⟩, Or.inl rfl, by simp only [List.length_cons]; omega⟩
        · rw [if_pos e1, if_neg e2]
          refine ⟨⟨hbs, ?_⟩, Or.inl rfl, by simp only [List.length_cons]; omega⟩
          intro o ho
          rcases List.mem_cons.mp ho with rfl | ho
          · exact h2.resolve_left e2
          · exact has o ho
      · have e2 := h3.resolve_left e1
        rw [if_neg e1, if_pos e2]
        refine ⟨⟨?_, has⟩, Or.inr rfl, by simp only [List.length_cons]; omega⟩
        intro o ho
        rcases List.mem_cons.mp ho with rfl | ho
        · exact h1.resolve_left e1
        · exact hbs o ho

/-- On a binary64 book of positive finite quantities the matching loop ends
within one iteration per resting order, and leaves positive finite quantities. -/
theorem Ieee.matchLoop_positiveFinite (fuel : Nat) (b : Ieee.Orderbook)
    (h : b.AllPositiveFinite) (hf : b.bids.length + b.asks.length ≤ fuel) :
    (Ieee.Orderbook.matchLoop fuel b).crossed = false ∧
      (Ieee.Orderbook.matchLoop fuel b).AllPositiveFinite := by
  induction fuel generalizing b with
  | zero =>
    have hb : b.bids = [] := List.length_eq_zero.mp (by omega)
    simp [Ieee.Orderbook.matchLoop, Ieee.Orderbook.crossed, hb, h]
  | succ n ih =>
    unfold Ieee.Orderbook.matchLoop
    by_cases hc : b.crossed = true
    · rw [if_pos hc]
      obtain ⟨h1, -, h2⟩ := Ieee.matchStep_positiveFinite b h hc
      exact ih b.matchStep h1 (by omega)
    · rw [if_neg hc]
      exact ⟨by simpa using hc, h⟩

/-- Pushing a positive finite quantity onto the bid side of a binary64 book of
positive finite quantities leaves positive finite quantities. -/
theorem Ieee.pushBid_positiveFinite (b : Ieee.Orderbook) (p q : F64) (t : String)
    (h : b.AllPositiveFinite) (hq : q.isPositiveFinite = true) :
    (b.pushBid p q t).AllPositiveFinite := by
  refine ⟨?_, h.2⟩
  intro o ho
  have ho' : o ∈ b.bids ++ [{ price := p, quantity := q, trader := t }] :=
    (mem_jsSort Ieee.cmpBid o _).mp ho
  rcases List.mem_append.mp ho' with ho | ho
  · exact h.1 o ho
  · rw [List.mem_singleton.mp ho]; exact hq

/-- Pushing a positive finite quantity onto the ask side of a binary64 book of
positive finite quantities leaves positive finite quantities. -/
theorem Ieee.pushAsk_positiveFinite (b : Ieee.Orderbook) (p q : F64) (t : String)
    (h : b.AllPositiveFinite) (hq : q.isPositiveFinite = true) :
    (b.pushAsk p q t).AllPositiveFinite := by
  refine ⟨h.1, ?_⟩
  intro o ho
  have ho' : o ∈ b.asks ++ [{ price := p, quantity := q, trader := t }] :=
    (mem_jsSort Ieee.cmpAsk o _).mp ho
  rcases List.mem_append.mp ho' with ho | ho
  · exact h.2 o ho
  · rw [List.mem_singleton.mp ho]; exact hq

/-- A crossed binary64 book whose two head quantities are `NaN` is left with
the same two sides by an iteration of the matching loop. -/
theorem Ieee.matchStep_nan_heads (b : Ieee.Orderbook) (bid ask : Ieee.Order)
    (bs as : List Ieee.Order) (hb : b.bids = bid :: bs) (ha : b.asks = ask :: as)
    (hbq : bid.quantity = F64.nan) (haq : ask.quantity = F64.nan) :
    b.matchStep.bids = b.bids ∧ b.matchStep.asks = b.asks := by
  obtain ⟨bp, bq, bt⟩ := bid
  obtain ⟨ap, aq, at1⟩ := ask
  simp only at hbq haq
  subst hbq haq
  unfold Ieee.Orderbook.matchStep
  rw [hb, ha]
  simp [F64.min, F64.sub, F64.add, F64.neg, F64.eq]

/-- The matching loop never leaves a crossed binary64 book whose two head
quantities are `NaN`, whatever the number of iterations. -/
theorem Ieee.matchLoop_nan_heads (fuel : Nat) (b : Ieee.Orderbook) (bid ask : Ieee.Order)
    (bs as : List Ieee.Order) (hb : b.bids = bid :: bs) (ha : b.asks = ask :: as)
    (hbq : bid.quantity = F64.nan) (haq : ask.quantity = F64.nan)
    (hc : F64.le ask.price bid.price = true) :
    (Ieee.Orderbook.matchLoop fuel b).crossed = true := by
  have hcr : ∀ b' : Ieee.Orderbook, b'.bids = bid :: bs → b'.asks = ask :: as →
      b'.crossed = true := by
    intro b' h1 h2
    unfold Ieee.Orderbook.crossed
    rw [h1, h2]
    exact hc
  induction fuel generalizing b with
  | zero => exact hcr b hb ha
  | succ n ih =>
    have hs := Ieee.matchStep_nan_heads b bid ask bs as hb ha hbq haq
    unfold Ieee.Orderbook.matchLoop
    rw [if_pos (hcr b hb ha)]
    exact ih b.matchStep (hs.1.trans hb) (hs.2.trans ha)

/-! ## Binary64: the pool and the venues -/

/-- Past its guard, the binary64 `getAmountBForA` returns the quote computed
from the stored `k`. -/
theorem Ieee.getAmountBForA_past_guard (p : Ieee.LiquidityPool) (a : F64)
    (h : F64.le p.reserveA a = false) :
    p.getAmountBForA a = .ok
      { amountBIn := F64.sub (F64.div p.k (F64.sub p.reserveA a)) p.reserveB,
        amountBWithFee :=
          F64.mul (F64.sub (F64.div p.k (F64.sub p.reserveA a)) p.reserveB)
            (F64.add (F64.lit 1) p.feePercent),
        newReserveA := F64.sub p.reserveA a,
        newReserveB := F64.div p.k (F64.sub p.reserveA a) } := by
  unfold Ieee.LiquidityPool.getAmountBForA
  simp [h]

/-- A binary64 swap changes neither `k` nor `feePercent`. -/
theorem Ieee.swapBforA_keeps (p : Ieee.LiquidityPool) (a : F64) :
    (p.swapBforA a).2.k = p.k ∧ (p.swapBforA a).2.feePercent = p.feePercent := by
  unfold Ieee.LiquidityPool.swapBforA
  cases p.getAmountBForA a <;> exact ⟨rfl, rfl⟩

/-- Every binary64 pool reachable from `p0` by successful swaps still holds the
`k` and the `feePercent` of `p0`. -/
theorem Ieee.reachableFrom_inv {p0 p : Ieee.LiquidityPool}
    (h : Ieee.LiquidityPool.ReachableFrom p0 p) :
    p.k = p0.k ∧ p.feePercent = p0.feePercent := by
  induction h with
  | start => exact ⟨rfl, rfl⟩
  | swap p a r _ _ ih =>
    exact ⟨(Ieee.swapBforA_keeps p a).1.trans ih.1, (Ieee.swapBforA_keeps p a).2.trans ih.2⟩

/-- On the same reserves the binary64 `quoteForA` and `getAmountBForA` return
the same fee-inclusive amount, or neither returns. -/
theorem Ieee.quoteForA_amount_eq_pool (name tokenA tokenB : String) (reserveA reserveB a : F64) :
    ((Ieee.SimpleDEX.new name tokenA tokenB reserveA reserveB).quoteForA a).map
        (fun q => q.amountBIn)
      = ((Ieee.LiquidityPool.new tokenA tokenB reserveA reserveB).getAmountBForA a).toOption.map
        (fun q => q.amountBWithFee) := by
  unfold Ieee.SimpleDEX.quoteForA Ieee.LiquidityPool.getAmountBForA
  by_cases h : F64.le reserveA a = true
  · simp [Ieee.SimpleDEX.new, Ieee.LiquidityPool.new, h, Except.toOption]
  · simp [Ieee.SimpleDEX.new, Ieee.LiquidityPool.new, h, Except.toOption]

/-- On the same reserves the binary64 `quoteForA` and `swapBforA` compute the
same price impact, or neither returns. -/
theorem Ieee.quoteForA_impact_eq_pool (name tokenA tokenB : String) (reserveA reserveB a : F64) :
    ((Ieee.SimpleDEX.new name tokenA tokenB reserveA reserveB).quoteForA a).map
        (fun q => q.priceImpact)
      = ((Ieee.LiquidityPool.new tokenA tokenB reserveA reserveB).swapBforA a).1.toOption.map
        (fun r => r.priceImpact) := by
  unfold Ieee.SimpleDEX.quoteForA Ieee.LiquidityPool.swapBforA Ieee.LiquidityPool.getAmountBForA
  by_cases h : F64.le reserveA a = true
  · simp [Ieee.SimpleDEX.new, Ieee.LiquidityPool.new, h, Except.toOption]
  · simp [Ieee.SimpleDEX.new, Ieee.LiquidityPool.new, h, Except.toOption,
      Ieee.LiquidityPool.getPriceAinB]

/-- Whenever the binary64 `getManualQuote` and `quoteForA` both return, they
report the same price impact. -/
theorem Ieee.getManualQuote_priceImpact (name tokenA tokenB : String)
    (reserveA reserveB a : F64) (m : Ieee.ManualQuote) (q : Ieee.DexQuote)
    (hm : Ieee.getManualQuote reserveA reserveB a = some m)
    (hq : (Ieee.SimpleDEX.new name tokenA tokenB reserveA reserveB).quoteForA a = some q) :
    m.priceImpact = q.priceImpact := by
  unfold Ieee.getManualQuote at hm
  unfold Ieee.SimpleDEX.quoteForA at hq
  simp only at hm hq
  split_ifs at hm hq
  simp only [Option.some.injEq] at hm hq
  subst hm hq
  simp [Ieee.SimpleDEX.new]

/-- In binary64 a negative amount passes the guard of a pool with a positive
`reserveA`. -/
theorem Ieee.negative_passes_guard (reserveA a : F64)
    (hA : F64.lt (F64.lit 0) reserveA = true) (ha : F64.lt a (F64.lit 0) = true) :
    F64.le reserveA a = false := by
  rw [Ieee.lit_zero] at hA ha
  cases reserveA <;> cases a <;> simp_all [F64.lt, F64.le, F64.eq, F64.toRat]
  exact ⟨by linarith, fun h => by linarith⟩

/-- In binary64 an amount below `reserveA` passes the guard `amount >= reserveA`. -/
theorem Ieee.lt_passes_guard (reserveA a : F64) (h : F64.lt a reserveA = true) :
    F64.le reserveA a = false := by
  cases reserveA <;> cases a <;> simp_all [F64.lt, F64.le, F64.eq, F64.toRat]
  all_goals exact ⟨by linarith, fun h1 => by linarith⟩

/-- Past the guard the binary64 `swapBforA` returns. -/
theorem Ieee.swapBforA_returns (p : Ieee.LiquidityPool) (a : F64)
    (h : F64.le p.reserveA a = false) : ∃ r, (p.swapBforA a).1 = .ok r := by
  unfold Ieee.LiquidityPool.swapBforA
  rw [Ieee.getAmountBForA_past_guard p a h]
  exact ⟨_, rfl⟩

/-! ## Binary64: the quote of the pool -/

/-- Claim C3, refuted as stated: on the binary64 pool reached from
`new LiquidityPool("A", "B", 408, 6500)` by the successful `swapBforA(114)`,
and for `amountAOut = 24 < reserveA`, `getAmountBForA` returns
`newReserveB = 9822.222222222223`, the quotient of the stored `k`, while
`(reserveA * reserveB) / newReserveA` computed from the current reserves is
`9822.222222222224`. -/
theorem quote_uses_stored_product :
    (((Ieee.LiquidityPool.new "A" "B" (F64.lit 408) (F64.lit 6500)).swapBforA
        (F64.lit 114)).1.toOption.isSome = true) ∧
    F64.lt (F64.lit 24)
      ((Ieee.LiquidityPool.new "A" "B" (F64.lit 408) (F64.lit 6500)).swapBforA
        (F64.lit 114)).2.reserveA = true ∧
    ((((Ieee.LiquidityPool.new "A" "B" (F64.lit 408) (F64.lit 6500)).swapBforA
        (F64.lit 114)).2.getAmountBForA (F64.lit 24)).toOption.map
          (fun q => q.newReserveB)) = some (F64.fin (2699911885983289 / 274877906944)) ∧
    F64.div
      (F64.mul
        ((Ieee.LiquidityPool.new "A" "B" (F64.lit 408) (F64.lit 6500)).swapBforA
          (F64.lit 114)).2.reserveA
        ((Ieee.LiquidityPool.new "A" "B" (F64.lit 408) (F64.lit 6500)).swapBforA
          (F64.lit 114)).2.reserveB)
      (F64.sub
        ((Ieee.LiquidityPool.new "A" "B" (F64.lit 408) (F64.lit 6500)).swapBforA
          (F64.lit 114)).2.reserveA (F64.lit 24))
      = F64.fin (5399823771966579 / 549755813888) := by
  decide!

/-- Claim C3, amended: on every pool reachable from the constructor by
successful swaps and for `amountAOut < reserveA`, `getAmountBForA` returns
`newReserveA = reserveA - amountAOut`, `newReserveB = k / newReserveA` where
`k` is the product of the two reserves the constructor was given, stored once,
`amountBIn = newReserveB - reserveB` and
`amountBWithFee = amountBIn * (1 + 0.003)`, each operation rounded to binary64;
in exact arithmetic `k` is also the product of the current reserves, so
`newReserveB = reserveA * reserveB / newReserveA`, and on the pool
(100, 10000) with `amountAOut = 10` the four values are 90, 100000/9, 10000/9
and 10030/9. -/
theorem quote_formula (p : LiquidityPool) (amountAOut : ℚ) (hp : p.Reachable)
    (h : amountAOut < p.reserveA)
    (tokenA tokenB : String) (reserveA reserveB : F64) (pool64 : Ieee.LiquidityPool)
    (amount64 : F64)
    (hp64 : Ieee.LiquidityPool.ReachableFrom
      (Ieee.LiquidityPool.new tokenA tokenB reserveA reserveB) pool64)
    (h64 : F64.lt amount64 pool64.reserveA = true) :
    pool64.getAmountBForA amount64 = .ok
      { amountBIn :=
          F64.sub (F64.div (F64.mul reserveA reserveB) (F64.sub pool64.reserveA amount64))
            pool64.reserveB,
        amountBWithFee :=
          F64.mul
            (F64.sub (F64.div (F64.mul reserveA reserveB) (F64.sub pool64.reserveA amount64))
              pool64.reserveB)
            (F64.add (F64.lit 1) (F64.lit 0.003)),
        newReserveA := F64.sub pool64.reserveA amount64,
        newReserveB :=
          F64.div (F64.mul reserveA reserveB) (F64.sub pool64.reserveA amount64) } ∧
    p.getAmountBForA amountAOut = .ok
      { amountBIn := p.reserveA * p.reserveB / (p.reserveA - amountAOut) - p.reserveB,
        amountBWithFee :=
          (p.reserveA * p.reserveB / (p.reserveA - amountAOut) - p.reserveB) * (1 + 0.003),
        newReserveA := p.reserveA - amountAOut,
        newReserveB := p.reserveA * p.reserveB / (p.reserveA - amountAOut) } ∧
    (LiquidityPool.new "ETH" "USDT" 100 10000).getAmountBForA 10 = .ok
      { amountBIn := 10000 / 9, amountBWithFee := 10030 / 9,
        newReserveA := 90, newReserveB := 100000 / 9 } := by
  refine ⟨?_, ?_, ?_⟩
  · rw [Ieee.getAmountBForA_past_guard pool64 amount64 (Ieee.lt_passes_guard _ _ h64),
      (Ieee.reachableFrom_inv hp64).1, (Ieee.reachableFrom_inv hp64).2]
    rfl
  · rw [getAmountBForA_ok p amountAOut h, (reachable_inv hp).1, (reachable_inv hp).2]
  · rw [getAmountBForA_ok _ _ (by norm_num [LiquidityPool.new])]
    norm_num [LiquidityPool.new]

theorem quote_formula_witness :
    (10 : ℚ) < ((LiquidityPool.new "ETH" "USDT" 100 10000).swapBforA 10).2.reserveA ∧
    F64.lt (F64.lit 24)
      ((Ieee.LiquidityPool.new "A" "B" (F64.lit 408) (F64.lit 6500)).swapBforA
        (F64.lit 114)).2.reserveA = true ∧
    ((Ieee.LiquidityPool.new "A" "B" (F64.lit 408) (F64.lit 6500)).swapBforA
        (F64.lit 114)).2.getAmountBForA (F64.lit 24) = .ok
      { amountBIn :=
          F64.sub
            (F64.div (F64.mul (F64.lit 408) (F64.lit 6500))
              (F64.sub
                ((Ieee.LiquidityPool.new "A" "B" (F64.lit 408) (F64.lit 6500)).swapBforA
                  (F64.lit 114)).2.reserveA (F64.lit 24)))
            ((Ieee.LiquidityPool.new "A" "B" (F64.lit 408) (F64.lit 6500)).swapBforA
              (F64.lit 114)).2.reserveB,
        amountBWithFee :=
          F64.mul
            (F64.sub
              (F64.div (F64.mul (F64.lit 408) (F64.lit 6500))
                (F64.sub
                  ((Ieee.LiquidityPool.new "A" "B" (F64.lit 408) (F64.lit 6500)).swapBforA
                    (F64.lit 114)).2.reserveA (F64.lit 24)))
              ((Ieee.LiquidityPool.new "A" "B" (F64.lit 408) (F64.lit 6500)).swapBforA
                (F64.lit 114)).2.reserveB)
            (F64.add (F64.lit 1) (F64.lit 0.003)),
        newReserveA :=
          F64.sub
            ((Ieee.LiquidityPool.new "A" "B" (F64.lit 408) (F64.lit 6500)).swapBforA
              (F64.lit 114)).2.reserveA (F64.lit 24),
        newReserveB :=
          F64.div (F64.mul (F64.lit 408) (F64.lit 6500))
            (F64.sub
              ((Ieee.LiquidityPool.new "A" "B" (F64.lit 408) (F64.lit 6500)).swapBforA
                (F64.lit 114)).2.reserveA (F64.lit 24)) } ∧
    ((LiquidityPool.new "ETH" "USDT" 100 10000).swapBforA 10).2.getAmountBForA 10 = .ok
      { amountBIn := 12500 - 100000 / 9, amountBWithFee := (12500 - 100000 / 9) * (1 + 0.003),
        newReserveA := 80, newReserveB := 12500 } := by
  have hlt : (10 : ℚ) < ((LiquidityPool.new "ETH" "USDT" 100 10000).swapBforA 10).2.reserveA := by
    rw [swapBforA_ok _ _ (by norm_num [LiquidityPool.new])]
    norm_num [LiquidityPool.new]
  have hr : ((LiquidityPool.new "ETH" "USDT" 100 10000).swapBforA 10).2.Reachable :=
    LiquidityPool.Reachable.swap _ 10 _ (LiquidityPool.Reachable.init "ETH" "USDT" 100 10000)
      (by rw [swapBforA_ok _ _ (by norm_num [LiquidityPool.new])])
  have hlt64 : F64.lt (F64.lit 24)
      ((Ieee.LiquidityPool.new "A" "B" (F64.lit 408) (F64.lit 6500)).swapBforA
        (F64.lit 114)).2.reserveA = true := by decide!
  obtain ⟨r, hok⟩ := Ieee.swapBforA_returns
    (Ieee.LiquidityPool.new "A" "B" (F64.lit 408) (F64.lit 6500)) (F64.lit 114) (by decide!)
  have hr64 : Ieee.LiquidityPool.ReachableFrom
      (Ieee.LiquidityPool.new "A" "B" (F64.lit 408) (F64.lit 6500))
      ((Ieee.LiquidityPool.new "A" "B" (F64.lit 408) (F64.lit 6500)).swapBforA
        (F64.lit 114)).2 :=
    Ieee.LiquidityPool.ReachableFrom.swap _ _ r Ieee.LiquidityPool.ReachableFrom.start hok
  have key := quote_formula _ 10 hr hlt "A" "B" (F64.lit 408) (F64.lit 6500) _ (F64.lit 24)
    hr64 hlt64
  refine ⟨hlt, hlt64, key.1, ?_⟩
  rw [key.2.1, swapBforA_ok _ _ (by norm_num [LiquidityPool.new])]
  norm_num [LiquidityPool.new]

/-! ## Binary64: quantities in the book -/

/-- Claim C7, refuted as stated: in binary64, after `addAsk(100, 53.62)` and
`addBid(100, 11.34)` the ask rests with `42.28` and the trade is for `11.34`;
their sum is `53.620000000000005` as a binary64 sum and differs from the
`53.62` resting before as an exact sum too.  After `addAsk(100, 1e16)` and
`addBid(100, 0.5)` the ask still rests with `1e16` although `0.5` was traded. -/
theorem rounded_fill_breaks_conservation :
    ((((Ieee.Orderbook.new "ETH/USDT").addAsk (F64.lit 100) (F64.lit 53.62) "maker").addBid
        (F64.lit 100) (F64.lit 11.34) "taker").asks.map (fun o => o.quantity)
      = [F64.fin (1487595251915817 / 35184372088832)]) ∧
    ((((Ieee.Orderbook.new "ETH/USDT").addAsk (F64.lit 100) (F64.lit 53.62) "maker").addBid
        (F64.lit 100) (F64.lit 11.34) "taker").trades.map (fun t => t.quantity)
      = [F64.fin (3191926235898839 / 281474976710656)]) ∧
    F64.lit 53.62 = F64.fin (7546344125612687 / 140737488355328) ∧
    F64.add (F64.fin (1487595251915817 / 35184372088832))
        (F64.fin (3191926235898839 / 281474976710656))
      = F64.fin (471646507850793 / 8796093022208) ∧
    (1487595251915817 / 35184372088832 + 3191926235898839 / 281474976710656 : ℚ)
      ≠ 7546344125612687 / 140737488355328 ∧
    ((((Ieee.Orderbook.new "ETH/USDT").addAsk (F64.lit 100) (F64.lit 1e16) "maker").addBid
        (F64.lit 100) (F64.lit 0.5) "taker").asks.map (fun o => o.quantity)
      = [F64.fin 10000000000000000]) ∧
    ((((Ieee.Orderbook.new "ETH/USDT").addAsk (F64.lit 100) (F64.lit 1e16) "maker").addBid
        (F64.lit 100) (F64.lit 0.5) "taker").trades.map (fun t => t.quantity)
      = [F64.fin (1 / 2)]) := by
  decide!

/-- Claim C7, amended: in exact arithmetic, for every book and every
`addBid(p, q)`, with `T` the trades the call appends, the resting bid quantity
after the call plus the quantity of `T` is the resting bid quantity before
plus `q`, and the resting ask quantity after plus the quantity of `T` is the
resting ask quantity before; symmetrically for `addAsk`; and when every
resting quantity and `q` are positive, every quantity resting after the call
is positive again: no order is filled beyond its quantity.  In binary64,
where each fill is rounded, the two sums are not asserted and the last part
holds as it stands: when every resting quantity and `q` are positive and
finite, the loop of the call reaches its exit and every quantity resting
after it is positive and finite. -/
theorem quantity_conservation (b : Orderbook) (p q : ℚ) (t : String)
    (book64 : Ieee.Orderbook) (price64 quantity64 : F64) :
    (∃ T, (b.addBid p q t).trades = b.trades ++ T ∧
      restingQty (b.addBid p q t).bids + tradedQty T = restingQty b.bids + q ∧
      restingQty (b.addBid p q t).asks + tradedQty T = restingQty b.asks) ∧
    (∃ T, (b.addAsk p q t).trades = b.trades ++ T ∧
      restingQty (b.addAsk p q t).asks + tradedQty T = restingQty b.asks + q ∧
      restingQty (b.addAsk p q t).bids + tradedQty T = restingQty b.bids) ∧
    (b.AllPositive → 0 < q → (b.addBid p q t).AllPositive ∧ (b.addAsk p q t).AllPositive) ∧
    (book64.AllPositiveFinite → quantity64.isPositiveFinite = true →
      ((book64.addBid price64 quantity64 t).crossed = false ∧
        (book64.addBid price64 quantity64 t).AllPositiveFinite) ∧
      ((book64.addAsk price64 quantity64 t).crossed = false ∧
        (book64.addAsk price64 quantity64 t).AllPositiveFinite)) := by
  refine ⟨?_, ?_, ?_, ?_⟩
  · obtain ⟨T, hT, h1, h2⟩ := matchOrders_conservation (b.pushBid p q t)
    exact ⟨T, hT, h1.trans (pushBid_restingQty b p q t), h2⟩
  · obtain ⟨T, hT, h1, h2⟩ := matchOrders_conservation (b.pushAsk p q t)
    exact ⟨T, hT, h2.trans (pushAsk_restingQty b p q t), h1⟩
  · intro h hq
    exact ⟨matchLoop_allPositive _ _ (pushBid_allPositive b p q t h hq),
      matchLoop_allPositive _ _ (pushAsk_allPositive b p q t h hq)⟩
  · intro h hq
    exact ⟨Ieee.matchLoop_positiveFinite _ _
        (Ieee.pushBid_positiveFinite book64 price64 quantity64 t h hq) le_rfl,
      Ieee.matchLoop_positiveFinite _ _
        (Ieee.pushAsk_positiveFinite book64 price64 quantity64 t h hq) le_rfl⟩

theorem quantity_conservation_witness :
    Orderbook.AllPositive
      { pair := "ETH/USDT", bids := [],
        asks := [{ price := 134, quantity := 5, trader := "maker" }], trades := [] } ∧
    (0 : ℚ) < 3 ∧
    (Orderbook.addBid
      { pair := "ETH/USDT", bids := [],
        asks := [{ price := 134, quantity := 5, trader := "maker" }], trades := [] }
      134 3 "taker").AllPositive ∧
    Ieee.Orderbook.AllPositiveFinite
      { pair := "ETH/USDT", bids := [],
        asks := [{ price := F64.lit 100, quantity := F64.lit 53.62, trader := "maker" }],
        trades := [] } ∧
    (F64.lit 11.34).isPositiveFinite = true ∧
    (Ieee.Orderbook.addBid
      { pair := "ETH/USDT", bids := [],
        asks := [{ price := F64.lit 100, quantity := F64.lit 53.62, trader := "maker" }],
        trades := [] }
      (F64.lit 100) (F64.lit 11.34) "taker").AllPositiveFinite := by
  have hpos : Orderbook.AllPositive
      { pair := "ETH/USDT", bids := [],
        asks := [{ price := 134, quantity := 5, trader := "maker" }], trades := [] } := by
    simp [Orderbook.AllPositive]
  have hpos64 : Ieee.Orderbook.AllPositiveFinite
      { pair := "ETH/USDT", bids := [],
        asks := [{ price := F64.lit 100, quantity := F64.lit 53.62, trader := "maker" }],
        trades := [] } := by
    refine ⟨by simp, ?_⟩
    intro o ho
    rw [List.mem_singleton.mp ho]
    decide!
  have hq64 : (F64.lit 11.34).isPositiveFinite = true := by decide!
  have key := quantity_conservation
    { pair := "ETH/USDT", bids := [],
      asks := [{ price := 134, quantity := 5, trader := "maker" }], trades := [] }
    134 3 "taker"
    { pair := "ETH/USDT", bids := [],
      asks := [{ price := F64.lit 100, quantity := F64.lit 53.62, trader := "maker" }],
      trades := [] }
    (F64.lit 100) (F64.lit 11.34)
  exact ⟨hpos, by norm_num, (key.2.2.1 hpos (by norm_num)).1, hpos64, hq64,
    (key.2.2.2 hpos64 hq64).1.2⟩

/-! ## Binary64: the proportional split -/

/-- Claim C18, refuted as stated: in binary64, for four venues with `reserveA`
681, 2525, 1099 and 1966 and `totalAmountA = 40`, the allocated amounts add up
to `40.00000000000001`, and their exact sum is not 40 either. -/
theorem split_amounts_miss_total :
    (Ieee.aggregatorSplits
        [Ieee.SimpleDEX.new "P1" "A" "B" (F64.lit 681) (F64.lit 1),
         Ieee.SimpleDEX.new "P2" "A" "B" (F64.lit 2525) (F64.lit 1),
         Ieee.SimpleDEX.new "P3" "A" "B" (F64.lit 1099) (F64.lit 1),
         Ieee.SimpleDEX.new "P4" "A" "B" (F64.lit 1966) (F64.lit 1)] (F64.lit 40)).map
        (fun s => s.amount)
      = [F64.fin (4890689437472983 / 1125899906842624),
         F64.fin (4533403388259649 / 281474976710656),
         F64.fin (3946305206888993 / 562949953421312),
         F64.fin (7059541434707699 / 562949953421312)] ∧
    Ieee.splitAmountTotal
        (Ieee.aggregatorSplits
          [Ieee.SimpleDEX.new "P1" "A" "B" (F64.lit 681) (F64.lit 1),
           Ieee.SimpleDEX.new "P2" "A" "B" (F64.lit 2525) (F64.lit 1),
           Ieee.SimpleDEX.new "P3" "A" "B" (F64.lit 1099) (F64.lit 1),
           Ieee.SimpleDEX.new "P4" "A" "B" (F64.lit 1966) (F64.lit 1)] (F64.lit 40))
      = F64.fin (5629499534213121 / 140737488355328) ∧
    (4890689437472983 / 1125899906842624 + 4533403388259649 / 281474976710656 +
      3946305206888993 / 562949953421312 + 7059541434707699 / 562949953421312 : ℚ) ≠ 40 := by
  decide!

/-- Claim C18, amended: `aggregatorQuote` gives venue `i` the share
`reserveA_i / Σ_j reserveA_j` and the amount `share_i * totalAmountA`, in
binary64 with each operation rounded; in exact arithmetic, for a non-empty
list of venues with positive `reserveA`, the shares sum to 1 and the amounts
sum to `totalAmountA`; for the reserves 500, 200, 2000 and `totalAmountA = 10`
the exact amounts are 50/27, 20/27 and 200/27, and the binary64 amounts
`1.8518518518518516`, `0.7407407407407407` and `7.4074074074074066` add up to
10 as a binary64 sum and to within `1e-9` of 10 as an exact sum. -/
theorem proportional_split (dexes : List SimpleDEX) (totalAmountA : ℚ) (hne : dexes ≠ [])
    (hpos : ∀ d ∈ dexes, 0 < d.reserveA)
    (dexes64 : List Ieee.SimpleDEX) (total64 : F64) :
    ((aggregatorSplits dexes totalAmountA).map Split.dex = dexes.map SimpleDEX.name ∧
    (aggregatorSplits dexes totalAmountA).map Split.share
      = dexes.map (fun d => d.reserveA / (dexes.map SimpleDEX.reserveA).sum) ∧
    (aggregatorSplits dexes totalAmountA).map Split.amount
      = (aggregatorSplits dexes totalAmountA).map (fun s => s.share * totalAmountA) ∧
    ((aggregatorSplits dexes totalAmountA).map Split.share).sum = 1 ∧
    ((aggregatorSplits dexes totalAmountA).map Split.amount).sum = totalAmountA ∧
    (aggregatorSplits
        [SimpleDEX.new "Raydium" "SOL" "USDC" 500 75000,
         SimpleDEX.new "ORCA" "SOL" "USDC" 200 29000,
         SimpleDEX.new "Meteora" "SOL" "USDC" 2000 300000] 10).map Split.amount
      = [50 / 27, 20 / 27, 200 / 27]) ∧
    ((Ieee.aggregatorSplits dexes64 total64).map (fun s => s.dex)
        = dexes64.map (fun d => d.name) ∧
      (Ieee.aggregatorSplits dexes64 total64).map (fun s => s.share)
        = dexes64.map (fun d => F64.div d.reserveA (Ieee.totalLiquidity dexes64)) ∧
      (Ieee.aggregatorSplits dexes64 total64).map (fun s => s.amount)
        = (Ieee.aggregatorSplits dexes64 total64).map (fun s => F64.mul s.share total64)) ∧
    ((Ieee.aggregatorSplits
          [Ieee.SimpleDEX.new "Raydium" "SOL" "USDC" (F64.lit 500) (F64.lit 75000),
           Ieee.SimpleDEX.new "ORCA" "SOL" "USDC" (F64.lit 200) (F64.lit 29000),
           Ieee.SimpleDEX.new "Meteora" "SOL" "USDC" (F64.lit 2000) (F64.lit 300000)]
          (F64.lit 10)).map (fun s => s.amount)
        = [F64.fin (4169999654972681 / 2251799813685248),
           F64.fin (3335999723978145 / 4503599627370496),
           F64.fin (4169999654972681 / 562949953421312)] ∧
      Ieee.splitAmountTotal
          (Ieee.aggregatorSplits
            [Ieee.SimpleDEX.new "Raydium" "SOL" "USDC" (F64.lit 500) (F64.lit 75000),
             Ieee.SimpleDEX.new "ORCA" "SOL" "USDC" (F64.lit 200) (F64.lit 29000),
             Ieee.SimpleDEX.new "Meteora" "SOL" "USDC" (F64.lit 2000) (F64.lit 300000)]
            (F64.lit 10))
        = F64.fin 10 ∧
      |(4169999654972681 / 2251799813685248 + 3335999723978145 / 4503599627370496 +
          4169999654972681 / 562949953421312 : ℚ) - 10| < 1 / 10 ^ 9) := by
  have hT : totalLiquidity dexes ≠ 0 := (totalLiquidity_pos dexes hne hpos).ne'
  have hsum := totalLiquidity_eq_sum dexes
  refine ⟨⟨?_, ?_, ?_, ?_, ?_, ?_⟩, ⟨?_, ?_, ?_⟩, ⟨by decide!, by decide!, ?_⟩⟩
  · simp [aggregatorSplits, Function.comp_def]
  · simp [aggregatorSplits, Function.comp_def, hsum]
  · simp [aggregatorSplits, Function.comp_def]
  · have h := sum_map_scaled dexes (totalLiquidity dexes) 1
    simp only [mul_one] at h
    simp only [aggregatorSplits, List.map_map, Function.comp_def]
    rw [h, ← hsum, div_self hT]
  · have h := sum_map_scaled dexes (totalLiquidity dexes) totalAmountA
    simp only [aggregatorSplits, List.map_map, Function.comp_def]
    rw [h, ← hsum, div_self hT, one_mul]
  · simp [aggregatorSplits, totalLiquidity, SimpleDEX.new]
    norm_num
  · simp [Ieee.aggregatorSplits, Function.comp_def]
  · simp [Ieee.aggregatorSplits, Function.comp_def]
  · simp [Ieee.aggregatorSplits, Function.comp_def]
  · rw [abs_lt]
    constructor <;> norm_num

theorem proportional_split_witness :
    scriptDexes ≠ [] ∧ (∀ d ∈ scriptDexes, 0 < d.reserveA) ∧
    ((aggregatorSplits scriptDexes 10).map Split.share).sum = 1 ∧
    ((aggregatorSplits scriptDexes 10).map Split.amount).sum = 10 :=
  ⟨by simp [scriptDexes], scriptDexes_pos,
    (proportional_split scriptDexes 10 (by simp [scriptDexes]) scriptDexes_pos
      [Ieee.SimpleDEX.new "Raydium" "SOL" "USDC" (F64.lit 500) (F64.lit 75000)]
      (F64.lit 10)).1.2.2.2.1,
    (proportional_split scriptDexes 10 (by simp [scriptDexes]) scriptDexes_pos
      [Ieee.SimpleDEX.new "Raydium" "SOL" "USDC" (F64.lit 500) (F64.lit 75000)]
      (F64.lit 10)).1.2.2.2.2.1⟩

/-! ## Binary64: termination of the matching loop -/

/-- Claim C21, refuted as stated: in binary64, after `addAsk(200, 1e308)`,
`addBid(200, -1e308)` and `addAsk(150, -1e308)`, the call
`addBid(200, 1e308)` enters the matching loop on a book with one bid and two
asks; after two iterations both heads carry the quantity `NaN` at the price
200, and from there the guard of the loop holds after any number of
iterations: the loop does not terminate. -/
theorem overflow_loop_never_exits :
    (((((Ieee.Orderbook.new "ETH/USDT").addAsk (F64.lit 200) (F64.lit 1e308) "a").addBid
        (F64.lit 200) (F64.lit (-1e308)) "b").addAsk (F64.lit 150) (F64.lit (-1e308)) "c").pushBid
        (F64.lit 200) (F64.lit 1e308) "d").matchStep.matchStep.bids
      = [{ price := F64.fin 200, quantity := F64.nan, trader := "d" }] ∧
    (((((Ieee.Orderbook.new "ETH/USDT").addAsk (F64.lit 200) (F64.lit 1e308) "a").addBid
        (F64.lit 200) (F64.lit (-1e308)) "b").addAsk (F64.lit 150) (F64.lit (-1e308)) "c").pushBid
        (F64.lit 200) (F64.lit 1e308) "d").matchStep.matchStep.asks
      = [{ price := F64.fin 200, quantity := F64.nan, trader := "a" }] ∧
    ¬ ∃ fuel : Nat,
      (Ieee.Orderbook.matchLoop fuel
        (((((Ieee.Orderbook.new "ETH/USDT").addAsk (F64.lit 200) (F64.lit 1e308) "a").addBid
          (F64.lit 200) (F64.lit (-1e308)) "b").addAsk (F64.lit 150) (F64.lit (-1e308)) "c").pushBid
          (F64.lit 200) (F64.lit 1e308) "d")).crossed = false := by
  have h0 : (((((Ieee.Orderbook.new "ETH/USDT").addAsk (F64.lit 200) (F64.lit 1e308) "a").addBid
          (F64.lit 200) (F64.lit (-1e308)) "b").addAsk (F64.lit 150) (F64.lit (-1e308)) "c").pushBid
          (F64.lit 200) (F64.lit 1e308) "d").crossed = true := by decide!
  have h1 : (((((Ieee.Orderbook.new "ETH/USDT").addAsk (F64.lit 200) (F64.lit 1e308) "a").addBid
          (F64.lit 200) (F64.lit (-1e308)) "b").addAsk (F64.lit 150) (F64.lit (-1e308)) "c").pushBid
          (F64.lit 200) (F64.lit 1e308) "d").matchStep.crossed = true := by decide!
  have hb : (((((Ieee.Orderbook.new "ETH/USDT").addAsk (F64.lit 200) (F64.lit 1e308) "a").addBid
          (F64.lit 200) (F64.lit (-1e308)) "b").addAsk (F64.lit 150) (F64.lit (-1e308)) "c").pushBid
          (F64.lit 200) (F64.lit 1e308) "d").matchStep.matchStep.bids
        = [{ price := F64.fin 200, quantity := F64.nan, trader := "d" }] := by decide!
  have ha : (((((Ieee.Orderbook.new "ETH/USDT").addAsk (F64.lit 200) (F64.lit 1e308) "a").addBid
          (F64.lit 200) (F64.lit (-1e308)) "b").addAsk (F64.lit 150) (F64.lit (-1e308)) "c").pushBid
          (F64.lit 200) (F64.lit 1e308) "d").matchStep.matchStep.asks
        = [{ price := F64.fin 200, quantity := F64.nan, trader := "a" }] := by decide!
  refine ⟨hb, ha, ?_⟩
  rintro ⟨fuel, h⟩
  match fuel, h with
  | 0, h =>
    rw [Ieee.Orderbook.matchLoop, h0] at h
    exact Bool.noConfusion h
  | 1, h =>
    rw [Ieee.Orderbook.matchLoop, if_pos h0, Ieee.Orderbook.matchLoop, h1] at h
    exact Bool.noConfusion h
  | n + 2, h =>
    rw [Ieee.Orderbook.matchLoop, if_pos h0, Ieee.Orderbook.matchLoop, if_pos h1,
      Ieee.matchLoop_nan_heads n _ _ _ [] [] hb ha rfl rfl (by decide!)] at h
    exact Bool.noConfusion h

/-- Claim C21, amended: the matching loop terminates on every book state whose
resting quantities are positive and finite, and in exact arithmetic on every
book state: each iteration removes at least one order from the head of the
bid side or of the ask side, so the number of resting orders drops, the loop
body is run at most `|bids| + |asks|` times, and with that much fuel the loop
has reached its exit; in exact arithmetic its result is then that of
`matchOrders` and the number of trades it appended is the number of
iterations. -/
theorem matchOrders_terminates (b : Orderbook) (fuel : Nat) (book64 : Ieee.Orderbook)
    (fuel64 : Nat) :
    (book64.AllPositiveFinite →
      (book64.crossed = true →
        book64.matchStep.AllPositiveFinite ∧
        (book64.matchStep.bids = book64.bids.tail ∨
          book64.matchStep.asks = book64.asks.tail) ∧
        book64.matchStep.bids.length + book64.matchStep.asks.length
          < book64.bids.length + book64.asks.length) ∧
      (book64.bids.length + book64.asks.length ≤ fuel64 →
        (Ieee.Orderbook.matchLoop fuel64 book64).crossed = false ∧
        (Ieee.Orderbook.matchLoop fuel64 book64).AllPositiveFinite)) ∧
    (b.crossed = true →
      (b.matchStep.bids = b.bids.tail ∨ b.matchStep.asks = b.asks.tail) ∧
      b.matchStep.bids.length + b.matchStep.asks.length < b.bids.length + b.asks.length) ∧
    Orderbook.matchIterations fuel b ≤ b.bids.length + b.asks.length ∧
    (b.bids.length + b.asks.length ≤ fuel →
      (Orderbook.matchLoop fuel b).crossed = false ∧
      Orderbook.matchLoop fuel b = b.matchOrders ∧
      b.matchOrders.trades.length = b.trades.length + Orderbook.matchIterations fuel b) := by
  refine ⟨fun h64 => ⟨fun hc => Ieee.matchStep_positiveFinite book64 h64 hc,
      fun hf => Ieee.matchLoop_positiveFinite fuel64 book64 h64 hf⟩,
    fun hc => ⟨matchStep_removes_head hc, matchStep_length_lt hc⟩,
    matchIterations_le fuel b, ?_⟩
  intro hf
  have heq : Orderbook.matchLoop fuel b = b.matchOrders := by
    obtain ⟨m, rfl⟩ := Nat.exists_eq_add_of_le hf
    exact matchLoop_more_fuel _ m b le_rfl
  refine ⟨matchLoop_fuel fuel b hf, heq, ?_⟩
  rw [← heq]
  exact matchLoop_trades_length fuel b

theorem matchOrders_terminates_witness :
    Orderbook.crossed
        { pair := "ETH/USDT", bids := [{ price := 134, quantity := 3, trader := "c" }],
          asks := [{ price := 134, quantity := 5, trader := "b" },
                   { price := 135, quantity := 10, trader := "a" }], trades := [] } = true ∧
    (Orderbook.matchLoop 3
        { pair := "ETH/USDT", bids := [{ price := 134, quantity := 3, trader := "c" }],
          asks := [{ price := 134, quantity := 5, trader := "b" },
                   { price := 135, quantity := 10, trader := "a" }], trades := [] }).crossed
      = false ∧
    Orderbook.matchIterations 3
        { pair := "ETH/USDT", bids := [{ price := 134, quantity := 3, trader := "c" }],
          asks := [{ price := 134, quantity := 5, trader := "b" },
                   { price := 135, quantity := 10, trader := "a" }], trades := [] } ≤ 3 ∧
    Ieee.Orderbook.AllPositiveFinite
        { pair := "ETH/USDT",
          bids := [{ price := F64.lit 134, quantity := F64.lit 3, trader := "c" }],
          asks := [{ price := F64.lit 134, quantity := F64.lit 5.5, trader := "b" },
                   { price := F64.lit 135, quantity := F64.lit 10, trader := "a" }],
          trades := [] } ∧
    Ieee.Orderbook.crossed
        { pair := "ETH/USDT",
          bids := [{ price := F64.lit 134, quantity := F64.lit 3, trader := "c" }],
          asks := [{ price := F64.lit 134, quantity := F64.lit 5.5, trader := "b" },
                   { price := F64.lit 135, quantity := F64.lit 10, trader := "a" }],
          trades := [] } = true ∧
    (Ieee.Orderbook.matchLoop 3
        { pair := "ETH/USDT",
          bids := [{ price := F64.lit 134, quantity := F64.lit 3, trader := "c" }],
          asks := [{ price := F64.lit 134, quantity := F64.lit 5.5, trader := "b" },
                   { price := F64.lit 135, quantity := F64.lit 10, trader := "a" }],
          trades := [] }).crossed = false := by
  have h64 : Ieee.Orderbook.AllPositiveFinite
      { pair := "ETH/USDT",
        bids := [{ price := F64.lit 134, quantity := F64.lit 3, trader := "c" }],
        asks := [{ price := F64.lit 134, quantity := F64.lit 5.5, trader := "b" },
                 { price := F64.lit 135, quantity := F64.lit 10, trader := "a" }],
        trades := [] } := by
    constructor
    · intro o ho
      simp only [List.mem_singleton] at ho
      rw [ho]
      decide!
    · intro o ho
      simp only [List.mem_cons, List.mem_singleton, List.not_mem_nil, or_false] at ho
      rcases ho with rfl | rfl <;> decide!
  have h := matchOrders_terminates
    { pair := "ETH/USDT", bids := [{ price := 134, quantity := 3, trader := "c" }],
      asks := [{ price := 134, quantity := 5, trader := "b" },
               { price := 135, quantity := 10, trader := "a" }], trades := [] } 3
    { pair := "ETH/USDT",
      bids := [{ price := F64.lit 134, quantity := F64.lit 3, trader := "c" }],
      asks := [{ price := F64.lit 134, quantity := F64.lit 5.5, trader := "b" },
               { price := F64.lit 135, quantity := F64.lit 10, trader := "a" }],
      trades := [] } 3
  refine ⟨by simp [Orderbook.crossed], (h.2.2.2 (by simp)).1, ?_, h64, by decide!,
    ((h.1 h64).2 (by simp)).1⟩
  simpa using h.2.2.1

/-! ## Binary64: the three pricing routines -/

/-- Claim C28, refuted as stated: in binary64, on the reserves (2, 1000) and
for `a = 1`, `getAmountBForA(1).amountBWithFee` and `quoteForA(1).amountBIn`
are both `1002.9999999999999`, while the `amountBIn + feeAmount` of
`getManualQuote` is `1000 + 3 = 1003`. -/
theorem manual_quote_differs :
    ((Ieee.LiquidityPool.new "A" "B" (F64.lit 2) (F64.lit 1000)).getAmountBForA
        (F64.lit 1)).toOption.map (fun q => q.amountBWithFee)
      = some (F64.fin (8822481301274623 / 8796093022208)) ∧
    ((Ieee.SimpleDEX.new "D" "A" "B" (F64.lit 2) (F64.lit 1000)).quoteForA
        (F64.lit 1)).map (fun q => q.amountBIn)
      = some (F64.fin (8822481301274623 / 8796093022208)) ∧
    (Ieee.getManualQuote (F64.lit 2) (F64.lit 1000) (F64.lit 1)).map
        (fun m => F64.add m.amountBIn m.feeAmount) = some (F64.fin 1003) := by
  decide!

/-- Claim C28, amended: for `a < reserveA`, `quoteForA(a).amountBIn` equals
`getAmountBForA(a).amountBWithFee` on a pool with the same reserves, and the
price impact computed by `quoteForA`, and by `getManualQuote` whenever it
returns, equals the `priceImpact` returned by `swapBforA`; this holds in
binary64, the routines performing the same operations in the same order.  In
exact arithmetic, for `reserveA, reserveB > 0`, `getManualQuote` returns and
both amounts also equal its `amountBIn + feeAmount`. -/
theorem pricing_routines_agree (name tokenA tokenB : String) (reserveA reserveB a : ℚ)
    (_hA : 0 < reserveA) (_hB : 0 < reserveB) (h : a < reserveA)
    (reserveA64 reserveB64 amount64 : F64) (h64 : F64.lt amount64 reserveA64 = true) :
    (∃ qd qp r,
      (Ieee.SimpleDEX.new name tokenA tokenB reserveA64 reserveB64).quoteForA amount64
        = some qd ∧
      (Ieee.LiquidityPool.new tokenA tokenB reserveA64 reserveB64).getAmountBForA amount64
        = .ok qp ∧
      ((Ieee.LiquidityPool.new tokenA tokenB reserveA64 reserveB64).swapBforA amount64).1
        = .ok r ∧
      qd.amountBIn = qp.amountBWithFee ∧
      qd.priceImpact = r.priceImpact ∧
      ∀ m, Ieee.getManualQuote reserveA64 reserveB64 amount64 = some m →
        m.priceImpact = r.priceImpact) ∧
    (∃ qd qp m r,
      (SimpleDEX.new name tokenA tokenB reserveA reserveB).quoteForA a = some qd ∧
      (LiquidityPool.new tokenA tokenB reserveA reserveB).getAmountBForA a = .ok qp ∧
      getManualQuote reserveA reserveB a = some m ∧
      ((LiquidityPool.new tokenA tokenB reserveA reserveB).swapBforA a).1 = .ok r ∧
      qd.amountBIn = qp.amountBWithFee ∧
      qp.amountBWithFee = m.amountBIn + m.feeAmount ∧
      qd.priceImpact = r.priceImpact ∧
      m.priceImpact = r.priceImpact) := by
  constructor
  · have hg : F64.le reserveA64 amount64 = false := Ieee.lt_passes_guard _ _ h64
    have hg2 : F64.le (Ieee.LiquidityPool.new tokenA tokenB reserveA64 reserveB64).reserveA
        amount64 = false := hg
    have e1 := Ieee.quoteForA_amount_eq_pool name tokenA tokenB reserveA64 reserveB64 amount64
    have e2 := Ieee.quoteForA_impact_eq_pool name tokenA tokenB reserveA64 reserveB64 amount64
    obtain ⟨r, hr⟩ := Ieee.swapBforA_returns _ amount64 hg2
    have hp := Ieee.getAmountBForA_past_guard _ amount64 hg2
    cases hq : (Ieee.SimpleDEX.new name tokenA tokenB reserveA64 reserveB64).quoteForA amount64 with
    | none =>
      rw [hq, hp] at e1
      simp [Except.toOption] at e1
    | some qd =>
      rw [hq, hp] at e1
      rw [hq, hr] at e2
      simp only [Option.map_some', Except.toOption, Option.some.injEq] at e1 e2
      refine ⟨qd, _, r, rfl, hp, hr, e1, e2, ?_⟩
      intro m hm
      rw [← e2]
      exact Ieee.getManualQuote_priceImpact name tokenA tokenB reserveA64 reserveB64 amount64
        m qd hm hq
  · have hd : ¬ reserveA ≤ a := not_le.mpr h
    have hm : ¬ reserveA - a ≤ 0 := not_le.mpr (sub_pos.mpr h)
    have hlt : a < (LiquidityPool.new tokenA tokenB reserveA reserveB).reserveA := h
    rw [getAmountBForA_ok _ _ hlt, swapBforA_ok _ _ hlt]
    simp only [SimpleDEX.quoteForA, SimpleDEX.new, if_neg hd, getManualQuote, if_neg hm]
    refine ⟨_, _, _, _, rfl, rfl, rfl, rfl, ?_, ?_, ?_, ?_⟩
    · simp only [LiquidityPool.new]
    · simp only [LiquidityPool.new]; ring
    · simp only [LiquidityPool.new]
    · simp only [LiquidityPool.new]

theorem pricing_routines_agree_witness :
    (0 : ℚ) < 100 ∧ (0 : ℚ) < 10000 ∧ (10 : ℚ) < 100 ∧
    F64.lt (F64.lit 1) (F64.lit 2) = true ∧
    (∃ qd qp,
      (Ieee.SimpleDEX.new "Raydium" "ETH" "USDT" (F64.lit 2) (F64.lit 1000)).quoteForA
        (F64.lit 1) = some qd ∧
      (Ieee.LiquidityPool.new "ETH" "USDT" (F64.lit 2) (F64.lit 1000)).getAmountBForA
        (F64.lit 1) = .ok qp ∧
      qd.amountBIn = qp.amountBWithFee) ∧
    ∃ qd qp m,
      (SimpleDEX.new "Raydium" "ETH" "USDT" 100 10000).quoteForA 10 = some qd ∧
      (LiquidityPool.new "ETH" "USDT" 100 10000).getAmountBForA 10 = .ok qp ∧
      getManualQuote 100 10000 10 = some m ∧
      qd.amountBIn = qp.amountBWithFee ∧
      qp.amountBWithFee = m.amountBIn + m.feeAmount := by
  have h64 : F64.lt (F64.lit 1) (F64.lit 2) = true := by decide!
  obtain ⟨⟨qd64, qp64, -, g1, g2, -, g4, -, -⟩, qd, qp, m, r, h1, h2, h3, -, h5, h6, -, -⟩ :=
    pricing_routines_agree "Raydium" "ETH" "USDT" 100 10000 10
      (by norm_num) (by norm_num) (by norm_num) (F64.lit 2) (F64.lit 1000) (F64.lit 1) h64
  exact ⟨by norm_num, by norm_num, by norm_num, h64, ⟨qd64, qp64, g1, g2, g4⟩,
    qd, qp, m, h1, h2, h3, h5, h6⟩

/-! ## Binary64: negative amounts -/

/-- Claim C30, refuted as stated: in binary64, on the pool (100, 10000) and
for `amountAOut = -1e-20 < 0`, `getAmountBForA` returns `amountBIn = 0` and
`amountBWithFee = 0`: `amountBIn` is not negative and `amountBWithFee` is not
below it. -/
theorem tiny_negative_swap_pays_nothing :
    ((Ieee.LiquidityPool.new "ETH" "USDT" (F64.lit 100) (F64.lit 10000)).getAmountBForA
        (F64.lit (-1e-20))).toOption
      = some { amountBIn := F64.zero false, amountBWithFee := F64.zero false,
               newReserveA := F64.fin 100, newReserveB := F64.fin 10000 } ∧
    F64.lt (F64.lit (-1e-20)) (F64.lit 0) = true ∧
    F64.lt (F64.zero false) (F64.lit 0) = false ∧
    F64.lt (F64.zero false) (F64.zero false) = false := by
  decide!

/-- Claim C30, amended: negative amounts are accepted: in binary64, on a pool
or venue with positive `reserveA` and for `amountAOut < 0`, `getAmountBForA`
does not fail and `quoteForA` returns a quote.  In exact arithmetic, on a pool
with positive reserves, `amountBIn` is then negative and
`amountBWithFee = 1.003 * amountBIn < amountBIn`. -/
theorem negative_amount_fee (p : LiquidityPool) (amountAOut : ℚ) (hp : p.Reachable)
    (hA : 0 < p.reserveA) (hB : 0 < p.reserveB) (h0 : amountAOut < 0)
    (pool64 : Ieee.LiquidityPool) (venue64 : Ieee.SimpleDEX) (amount64 : F64)
    (hA64 : F64.lt (F64.lit 0) pool64.reserveA = true)
    (hV64 : F64.lt (F64.lit 0) venue64.reserveA = true)
    (h64 : F64.lt amount64 (F64.lit 0) = true) :
    ((∃ q, pool64.getAmountBForA amount64 = .ok q) ∧
      (∃ q, venue64.quoteForA amount64 = some q)) ∧
    (∃ q, p.getAmountBForA amountAOut = .ok q ∧
      q.amountBIn < 0 ∧
      q.amountBWithFee = 1.003 * q.amountBIn ∧
      q.amountBWithFee < q.amountBIn) := by
  refine ⟨⟨⟨_, Ieee.getAmountBForA_past_guard pool64 amount64
      (Ieee.negative_passes_guard _ _ hA64 h64)⟩, ?_⟩, ?_⟩
  · unfold Ieee.SimpleDEX.quoteForA
    simp [Ieee.negative_passes_guard _ _ hV64 h64]
  · have hk := (reachable_inv hp).1
    have hf := (reachable_inv hp).2
    have h : amountAOut < p.reserveA := by linarith
    have hd : 0 < p.reserveA - amountAOut := sub_pos.mpr h
    have hin : p.k / (p.reserveA - amountAOut) - p.reserveB
        = p.reserveB * amountAOut / (p.reserveA - amountAOut) := by
      rw [hk]; field_simp; ring
    have hneg : p.k / (p.reserveA - amountAOut) - p.reserveB < 0 := by
      rw [hin]; exact div_neg_of_neg_of_pos (mul_neg_of_pos_of_neg hB h0) hd
    refine ⟨_, getAmountBForA_ok p amountAOut h, hneg, ?_, ?_⟩
    · show (p.k / (p.reserveA - amountAOut) - p.reserveB) * (1 + p.feePercent)
        = 1.003 * (p.k / (p.reserveA - amountAOut) - p.reserveB)
      rw [hf]; ring
    · show (p.k / (p.reserveA - amountAOut) - p.reserveB) * (1 + p.feePercent)
        < p.k / (p.reserveA - amountAOut) - p.reserveB
      rw [hf]
      nlinarith

theorem negative_amount_fee_witness :
    (-10 : ℚ) < 0 ∧
    F64.lt (F64.lit (-1e-20)) (F64.lit 0) = true ∧
    (∃ q, (Ieee.LiquidityPool.new "ETH" "USDT" (F64.lit 100) (F64.lit 10000)).getAmountBForA
      (F64.lit (-1e-20)) = .ok q) ∧
    ∃ q, (LiquidityPool.new "ETH" "USDT" 100 10000).getAmountBForA (-10) = .ok q ∧
      q.amountBIn < 0 ∧ q.amountBWithFee < q.amountBIn := by
  have h64 : F64.lt (F64.lit (-1e-20)) (F64.lit 0) = true := by decide!
  obtain ⟨⟨g1, -⟩, q, hq, h1, -, h3⟩ :=
    negative_amount_fee (LiquidityPool.new "ETH" "USDT" 100 10000) (-10)
      (LiquidityPool.Reachable.init "ETH" "USDT" 100 10000)
      (by norm_num [LiquidityPool.new]) (by norm_num [LiquidityPool.new]) (by norm_num)
      (Ieee.LiquidityPool.new "ETH" "USDT" (F64.lit 100) (F64.lit 10000))
      (Ieee.SimpleDEX.new "Raydium" "ETH" "USDT" (F64.lit 100) (F64.lit 10000))
      (F64.lit (-1e-20)) (by decide!) (by decide!) h64
  exact ⟨by norm_num, h64, g1, q, hq, h1, h3⟩

/-! ## Binary64: values the properties of exact arithmetic do not survive -/

/-- Claim C12, refuted as stated: in binary64, on the pool (100, 10000) the
swap with `amountAOut = 1e-20`, which lies strictly between 0 and `reserveA`,
returns `priceAfter = 100`, the price before it, and `priceImpact = 0`; so
does the swap with `amountAOut = -1e-20 < 0`. -/
theorem tiny_swap_leaves_price :
    (Ieee.LiquidityPool.new "ETH" "USDT" (F64.lit 100) (F64.lit 10000)).getPriceAinB
      = F64.fin 100 ∧
    F64.lt (F64.lit 0) (F64.lit 1e-20) = true ∧
    F64.lt (F64.lit 1e-20) (F64.lit 100) = true ∧
    ((Ieee.LiquidityPool.new "ETH" "USDT" (F64.lit 100) (F64.lit 10000)).swapBforA
        (F64.lit 1e-20)).1.toOption
      = some { amountBPaid := F64.zero false, priceAfter := F64.fin 100,
               priceImpact := F64.zero false } ∧
    F64.lt (F64.lit (-1e-20)) (F64.lit 0) = true ∧
    ((Ieee.LiquidityPool.new "ETH" "USDT" (F64.lit 100) (F64.lit 10000)).swapBforA
        (F64.lit (-1e-20))).1.toOption
      = some { amountBPaid := F64.zero false, priceAfter := F64.fin 100,
               priceImpact := F64.zero false } ∧
    F64.lt (F64.fin 100) (F64.fin 100) = false := by
  decide!

/-- Claim C24, refuted as stated: in binary64, for `a = 1e-16` the pools
(10, 1000) and (10000, 1000000), with `a < 10 < 10000`, both return
`priceImpact = 0`, so the impact in the smaller pool is not strictly greater. -/
theorem tiny_swap_no_impact_either_pool :
    F64.lt (F64.lit 0) (F64.lit 1e-16) = true ∧
    F64.lt (F64.lit 1e-16) (F64.lit 10) = true ∧
    F64.lt (F64.lit 10) (F64.lit 10000) = true ∧
    (((Ieee.LiquidityPool.new "ETH" "USDT" (F64.lit 10) (F64.lit 1000)).swapBforA
        (F64.lit 1e-16)).1.toOption.map (fun r => r.priceImpact) = some (F64.zero false)) ∧
    (((Ieee.LiquidityPool.new "ETH" "USDT" (F64.lit 10000) (F64.lit 1000000)).swapBforA
        (F64.lit 1e-16)).1.toOption.map (fun r => r.priceImpact) = some (F64.zero false)) ∧
    F64.lt (F64.zero false) (F64.zero false) = false := by
  decide!

/-- Claim C25, refuted as stated: in binary64, on the pool (100, 10000) the
swaps `swapBforA(10)` and `swapBforA(10)` pay `1114.4444444444446` and
`1393.0555555555552`, which add up to `2507.5` as a binary64 sum, while the
single `swapBforA(20)` pays `2507.4999999999995`; the exact sum of the two
payments differs from it as well. -/
theorem two_swaps_pay_more :
    (((Ieee.LiquidityPool.new "ETH" "USDT" (F64.lit 100) (F64.lit 10000)).swapBforA
        (F64.lit 10)).1.toOption.map (fun r => r.amountBPaid)
      = some (F64.fin (4901378500708125 / 4398046511104))) ∧
    ((((Ieee.LiquidityPool.new "ETH" "USDT" (F64.lit 100) (F64.lit 10000)).swapBforA
        (F64.lit 10)).2.swapBforA (F64.lit 10)).1.toOption.map (fun r => r.amountBPaid)
      = some (F64.fin (3063361562942577 / 2199023255552))) ∧
    F64.add (F64.fin (4901378500708125 / 4398046511104))
        (F64.fin (3063361562942577 / 2199023255552)) = F64.fin (5015 / 2) ∧
    F64.add (F64.lit 10) (F64.lit 10) = F64.lit 20 ∧
    (((Ieee.LiquidityPool.new "ETH" "USDT" (F64.lit 100) (F64.lit 10000)).swapBforA
        (F64.lit 20)).1.toOption.map (fun r => r.amountBPaid)
      = some (F64.fin (5514050813296639 / 2199023255552))) ∧
    (4901378500708125 / 4398046511104 + 3063361562942577 / 2199023255552 : ℚ)
      ≠ 5514050813296639 / 2199023255552 := by
  decide!

theorem swaps_compose_witness :
    (10 : ℚ) < (LiquidityPool.new "ETH" "USDT" 100 10000).reserveA ∧
    (10 : ℚ) + 10 < (LiquidityPool.new "ETH" "USDT" 100 10000).reserveA ∧
    (((LiquidityPool.new "ETH" "USDT" 100 10000).swapBforA 10).2.swapBforA 10).2.reserveA
      = ((LiquidityPool.new "ETH" "USDT" 100 10000).swapBforA (10 + 10)).2.reserveA ∧
    (((LiquidityPool.new "ETH" "USDT" 100 10000).swapBforA 10).2.swapBforA 10).2.reserveB
      = ((LiquidityPool.new "ETH" "USDT" 100 10000).swapBforA (10 + 10)).2.reserveB ∧
    ∃ r1 r2 r, ((LiquidityPool.new "ETH" "USDT" 100 10000).swapBforA 10).1 = .ok r1 ∧
      (((LiquidityPool.new "ETH" "USDT" 100 10000).swapBforA 10).2.swapBforA 10).1 = .ok r2 ∧
      ((LiquidityPool.new "ETH" "USDT" 100 10000).swapBforA (10 + 10)).1 = .ok r ∧
      r1.amountBPaid + r2.amountBPaid = r.amountBPaid := by
  have ha : (10 : ℚ) < (LiquidityPool.new "ETH" "USDT" 100 10000).reserveA := by
    norm_num [LiquidityPool.new]
  have hab : (10 : ℚ) + 10 < (LiquidityPool.new "ETH" "USDT" 100 10000).reserveA := by
    norm_num [LiquidityPool.new]
  obtain ⟨r1, r2, r, e1, e2, e3, hA, hB, hpaid⟩ :=
    swaps_compose (LiquidityPool.new "ETH" "USDT" 100 10000) 10 10
      (by norm_num [LiquidityPool.new]) (by norm_num [LiquidityPool.new]) ha hab
  exact ⟨ha, hab, hA, hB, r1, r2, r, e1, e2, e3, hpaid⟩

/-- Claim C26, refuted as stated: in binary64, for the venues "U" with
`reserveA = 1` and "V" with `reserveA = 48` and `totalAmountA = 49`, the sum of
the reserves is 49, so `totalAmountA ≥ Σ reserveA`; yet the amount allocated to
"U" is `0.9999999999999999 < 1`, "U" quotes it, and the total reported by
`aggregatorQuote` is `9034220852505212`, not 0. -/
theorem rounded_share_quotes_at_total :
    Ieee.totalLiquidity
        [Ieee.SimpleDEX.new "U" "A" "B" (F64.lit 1) (F64.lit 1),
         Ieee.SimpleDEX.new "V" "A" "B" (F64.lit 48) (F64.lit 1)] = F64.lit 49 ∧
    (Ieee.aggregatorSplits
        [Ieee.SimpleDEX.new "U" "A" "B" (F64.lit 1) (F64.lit 1),
         Ieee.SimpleDEX.new "V" "A" "B" (F64.lit 48) (F64.lit 1)] (F64.lit 49)).map
        (fun s => s.amount)
      = [F64.fin (9007199254740991 / 9007199254740992), F64.fin 48] ∧
    ((Ieee.SimpleDEX.new "U" "A" "B" (F64.lit 1) (F64.lit 1)).quoteForA
        (F64.fin (9007199254740991 / 9007199254740992))).map (fun q => q.amountBIn)
      = some (F64.fin 9034220852505212) ∧
    (Ieee.aggregatorQuote
        [Ieee.SimpleDEX.new "U" "A" "B" (F64.lit 1) (F64.lit 1),
         Ieee.SimpleDEX.new "V" "A" "B" (F64.lit 48) (F64.lit 1)] (F64.lit 49)).toOption
      = some (F64.fin 9034220852505212) := by
  decide!

/-- Claim C27, refuted as stated: in binary64, for the venues (1498, 10486) and
(2388, 16716), both at the spot price 7, and `a = 33`, the split total is
`233.6773937191757` while a single venue holding the summed reserves
(3886, 27202) quotes `233.67739371917935`; and for the venues (32, 32) and
(2^-40, 2^-40), both at the spot price 1, and `a = 1 < 32`, the split total
`1.0353548387096774` is above the `1.0353548387096765` the first venue quotes
for the whole of `a`. -/
theorem split_differs_from_pooled :
    F64.div (F64.lit 10486) (F64.lit 1498) = F64.div (F64.lit 16716) (F64.lit 2388) ∧
    (Ieee.aggregatorQuote
        [Ieee.SimpleDEX.new "U" "A" "B" (F64.lit 1498) (F64.lit 10486),
         Ieee.SimpleDEX.new "V" "A" "B" (F64.lit 2388) (F64.lit 16716)] (F64.lit 33)).toOption
      = some (F64.fin (2055448092340993 / 8796093022208)) ∧
    ((Ieee.SimpleDEX.new "P" "A" "B" (F64.lit 3886) (F64.lit 27202)).quoteForA
        (F64.lit 33)).map (fun q => q.amountBIn)
      = some (F64.fin (2055448092341025 / 8796093022208)) ∧
    F64.div (F64.lit 32) (F64.lit 32)
      = F64.div (F64.lit (1 / 2 ^ 40)) (F64.lit (1 / 2 ^ 40)) ∧
    (Ieee.aggregatorQuote
        [Ieee.SimpleDEX.new "U" "A" "B" (F64.lit 32) (F64.lit 32),
         Ieee.SimpleDEX.new "V" "A" "B" (F64.lit (1 / 2 ^ 40)) (F64.lit (1 / 2 ^ 40))]
        (F64.lit 1)).toOption
      = some (F64.fin (4662823665809143 / 4503599627370496)) ∧
    ((Ieee.SimpleDEX.new "U" "A" "B" (F64.lit 32) (F64.lit 32)).quoteForA
        (F64.lit 1)).map (fun q => q.amountBIn)
      = some (F64.fin (4662823665809139 / 4503599627370496)) := by
  decide!

/-- Claim C29, refuted as stated: in binary64, on the pool (100, 10000) and for
`a = 1e-20`, which lies strictly between 0 and `reserveA`, `getAmountBForA`
returns `amountBIn = 0` and `amountBWithFee = 0`, although
`a * priceBefore > 0`: `amountBIn` is not above `a * priceBefore` and
`amountBWithFee` is not above `amountBIn`. -/
theorem tiny_swap_costs_nothing :
    F64.lt (F64.lit 0) (F64.lit 1e-20) = true ∧
    F64.lt (F64.lit 1e-20) (F64.lit 100) = true ∧
    ((Ieee.LiquidityPool.new "ETH" "USDT" (F64.lit 100) (F64.lit 10000)).getAmountBForA
        (F64.lit 1e-20)).toOption
      = some { amountBIn := F64.zero false, amountBWithFee := F64.zero false,
               newReserveA := F64.fin 100, newReserveB := F64.fin 10000 } ∧
    F64.lt (F64.lit 0)
      (F64.mul (F64.lit 1e-20)
        (Ieee.LiquidityPool.new "ETH" "USDT" (F64.lit 100) (F64.lit 10000)).getPriceAinB)
      = true ∧
    F64.lt
      (F64.mul (F64.lit 1e-20)
        (Ieee.LiquidityPool.new "ETH" "USDT" (F64.lit 100) (F64.lit 10000)).getPriceAinB)
      (F64.zero false) = false ∧
    F64.lt (F64.zero false) (F64.zero false) = false := by
  decide!

end Dex
